import Mathlib

/-!
# Quorum key manager: store connectors and the local manifest manager

A shallow embedding of

* `src/stores/connectors/ethereum/{encrypt,restore}.go`,
* `src/stores/connectors/keys/{create,restore}.go`,
* `src/manifests/manager/manager_local.go`,
* `src/nodes/interceptor/eth_accounts.go`,
* `src/stores/database/models/ethereum.go`,
* `pkg/websocket/upgrader.go`,
* `pkg/http/request/{preparer,preparer_basic_auth}.go`,
* `pkg/json/encode.go`.

Go values of type `error` are `Option Error` (`none` is `nil`); a Go result pair
`(v, err)` is `Except Error V`.  The collaborators of a connector (authorizator, account
database, backing store) are Go interfaces: they are fields of the connector, functions
over an arbitrary database state `σ` and store state `κ`.  Every call a connector makes to
a collaborator is recorded, in order, in `World.calls`; the calls to the connector's logger
are placed around them by the `Steps` of each operation.
-/

namespace QKM

/-! ## Errors (`pkg/errors`) -/

/-- The error taxonomy of `pkg/errors`; `foreign` stands for errors of other packages
(`os`, `yaml`, `validator`). -/
inductive ErrorKind
  | invalidParameter | invalidFormat | notFound | alreadyExists | forbidden | unauthorized
  | configError | dependencyFailure | notSupported | internal | foreign
  deriving DecidableEq, Repr

/-- A non-nil Go `error`. -/
structure Error where
  kind : ErrorKind
  message : String
  deriving DecidableEq, Repr

/-- Go `errors.IsNotSupportedError`. -/
def IsNotSupportedError (err : Error) : Bool :=
  decide (err.kind = ErrorKind.notSupported)

/-- Go `errors.ConfigError`, with the message already formatted. -/
def ConfigError (message : String) : Error := ⟨ErrorKind.configError, message⟩

/-- Go `errors.InvalidFormatError`. -/
def InvalidFormatError (message : String) : Error := ⟨ErrorKind.invalidFormat, message⟩

/-- Go `errors.InvalidParameterError`. -/
def InvalidParameterError (message : String) : Error := ⟨ErrorKind.invalidParameter, message⟩

/-! ## Authorization (`src/auth/types`) -/

inductive Action
  | read | write | delete | destroy | sign | encrypt
  deriving DecidableEq, Repr

inductive Resource
  | secret | key | ethAccount | node
  deriving DecidableEq, Repr

/-- Go `types.Operation`. -/
structure Operation where
  action : Action
  resource : Resource
  deriving DecidableEq, Repr

/-- Go `auth.Authorizator`: `CheckPermission` answers `nil` or an error. -/
structure Authorizator where
  CheckPermission : Operation → Option Error

/-! ## Entities (`src/stores/entities`) -/

abbrev Bytes := List Nat

/-- Go `ethcommon.Address`: twenty bytes. -/
structure Address where
  bytes : List Nat
  deriving DecidableEq, Repr

/-- Go `entities.Metadata`; times are instants counted from the zero `time.Time`. -/
structure Metadata where
  Disabled : Bool
  CreatedAt : Nat
  UpdatedAt : Nat
  DeletedAt : Nat
  deriving DecidableEq, Repr

/-- Go `entities.ETHAccount`. -/
structure ETHAccount where
  Address : Address
  KeyID : String
  PublicKey : Bytes
  CompressedPublicKey : Bytes
  Metadata : Option Metadata
  Tags : List (String × String)
  deriving DecidableEq, Repr

inductive KeyType
  | Ecdsa | Eddsa
  deriving DecidableEq, Repr

inductive Curve
  | Secp256k1 | Babyjubjub
  deriving DecidableEq, Repr

/-- Go `entities.Algorithm`. -/
structure Algorithm where
  Type_ : KeyType
  EllipticCurve : Curve
  deriving DecidableEq, Repr

/-- Go `entities.Attributes`. -/
structure Attributes where
  Tags : List (String × String)
  deriving DecidableEq, Repr

/-- Go `entities.Key`. -/
structure Key where
  ID : String
  PublicKey : Bytes
  Algo : Algorithm
  Tags : List (String × String)
  Metadata : Option Metadata
  deriving DecidableEq, Repr

/-! ## Collaborator calls and the world a connector runs in -/

/-- One call of a connector to one of its collaborators. -/
inductive Call
  | checkPermission (op : Operation)
  | dbGet (id : String)
  | dbGetDeleted (id : String)
  | dbAdd (key : Key)
  | dbRestore (id : String)
  | dbRunInTransaction
  | storeCreate (id : String) (alg : Algorithm) (attr : Attributes)
  | storeEncrypt (id : String) (data : Bytes)
  | storeRestore (id : String)
  deriving DecidableEq, Repr

/-- The call goes to the account database. -/
def Call.onDatabase : Call → Bool
  | .dbGet _ | .dbGetDeleted _ | .dbAdd _ | .dbRestore _ | .dbRunInTransaction => true
  | _ => false

/-- The call goes to the backing store. -/
def Call.onStore : Call → Bool
  | .storeCreate _ _ _ | .storeEncrypt _ _ | .storeRestore _ => true
  | _ => false

/-- The call starts a transaction, or restores in the database or in the store. -/
def Call.restores : Call → Bool
  | .dbRunInTransaction | .dbRestore _ | .storeRestore _ => true
  | _ => false

/-- Database state, store state, and the calls made so far (oldest first). -/
structure World (σ κ : Type) where
  db : σ
  store : κ
  calls : List Call

/-- Record a call. -/
def World.log {σ κ : Type} (w : World σ κ) (c : Call) : World σ κ :=
  { w with calls := w.calls ++ [c] }

/-- Go `stores.KeyStore`, the methods the connectors use. -/
structure KeyStore (κ : Type) where
  Create : κ → String → Algorithm → Attributes → Except Error Key × κ
  Encrypt : κ → String → Bytes → Except Error Bytes × κ
  Restore : κ → String → Option Error × κ

namespace Database

/-- Go `database.ETHAccounts`, the methods the connector uses.  `Get` and `GetDeleted` are
reads. -/
structure ETHAccounts (σ : Type) where
  Get : σ → String → Except Error ETHAccount
  GetDeleted : σ → String → Except Error ETHAccount
  Restore : σ → String → Option Error × σ

/-- Go `database.Keys`, the methods the connector uses.  `Get` and `GetDeleted` are reads. -/
structure Keys (σ : Type) where
  Get : σ → String → Except Error Key
  GetDeleted : σ → String → Except Error Key
  Add : σ → Key → Except Error Key × σ
  Restore : σ → String → Option Error × σ

end Database

/-- Modelled from the spec: `RunInTransaction(fn)` of the account database, whose
implementation is not among the sources: "execute `fn` atomically; on error, all writes
inside roll back".  The store is not part of the transaction. -/
def RunInTransaction {σ κ : Type} (fn : World σ κ → Option Error × World σ κ)
    (w : World σ κ) : Option Error × World σ κ :=
  match fn (w.log Call.dbRunInTransaction) with
  | (none, w1) => (none, w1)
  | (some err, w1) => (some err, { w1 with db := w.db })

/-! ## The Ethereum connector (`src/stores/connectors/ethereum`) -/

namespace Eth

/-- Go `Connector` of `ethereum.go`; the calls to its logger are in `EncryptSteps` and
`RestoreSteps`. -/
structure Connector (σ κ : Type) where
  store : KeyStore κ
  db : Database.ETHAccounts σ
  authorizator : Authorizator

variable {σ κ : Type}

/-- Modelled from the spec: the connector's own `Get`, whose file is not among the
sources: "every public operation begins with a C1 check against a statically mapped
(action, resource) pair", here (read, ethAccount), then "fetch account (live)" from the
database.  `Hex` is `ethcommon.Address.Hex`. -/
def Get (Hex : Address → String) (c : Connector σ κ) (addr : Address) (w : World σ κ) :
    Except Error ETHAccount × World σ κ :=
  let w := w.log (Call.checkPermission ⟨Action.read, Resource.ethAccount⟩)
  match c.authorizator.CheckPermission ⟨Action.read, Resource.ethAccount⟩ with
  | some err => (Except.error err, w)
  | none =>
    let w := w.log (Call.dbGet (Hex addr))
    match c.db.Get w.db (Hex addr) with
    | Except.error err => (Except.error err, w)
    | Except.ok acc => (Except.ok acc, w)

/-- Go `Connector.Encrypt` of `encrypt.go`. -/
def Encrypt (Hex : Address → String) (c : Connector σ κ) (addr : Address) (data : Bytes)
    (w : World σ κ) : Except Error Bytes × World σ κ :=
  let w := w.log (Call.checkPermission ⟨Action.encrypt, Resource.ethAccount⟩)
  match c.authorizator.CheckPermission ⟨Action.encrypt, Resource.ethAccount⟩ with
  | some err => (Except.error err, w)
  | none =>
    let w := w.log (Call.dbGet (Hex addr))
    match c.db.Get w.db (Hex addr) with
    | Except.error err => (Except.error err, w)
    | Except.ok acc =>
      let w := w.log (Call.storeEncrypt acc.KeyID data)
      match c.store.Encrypt w.store acc.KeyID data with
      | (Except.error err, st) => (Except.error err, { w with store := st })
      | (Except.ok result, st) => (Except.ok result, { w with store := st })

/-- The function `Connector.Restore` passes to `RunInTransaction` (`restore.go`, lines
32-45), for the soft-deleted row `acc`. -/
def restoreTx (Hex : Address → String) (c : Connector σ κ) (addr : Address)
    (acc : ETHAccount) (w : World σ κ) : Option Error × World σ κ :=
  let w := w.log (Call.dbRestore (Hex addr))
  match c.db.Restore w.db (Hex addr) with
  | (some err, d) => (some err, { w with db := d })
  | (none, d) =>
    let w := ({ w with db := d } : World σ κ).log (Call.storeRestore acc.KeyID)
    match c.store.Restore w.store acc.KeyID with
    | (some err, st) =>
      if !IsNotSupportedError err then (some err, { w with store := st })
      else (none, { w with store := st })
    | (none, st) => (none, { w with store := st })

/-- Go `Connector.Restore` of `restore.go`. -/
def Restore (Hex : Address → String) (c : Connector σ κ) (addr : Address)
    (w : World σ κ) : Option Error × World σ κ :=
  let w := w.log (Call.checkPermission ⟨Action.delete, Resource.ethAccount⟩)
  match c.authorizator.CheckPermission ⟨Action.delete, Resource.ethAccount⟩ with
  | some err => (some err, w)
  | none =>
    match Get Hex c addr w with
    | (Except.ok _, w) => (none, w)
    | (Except.error _, w) =>
      let w := w.log (Call.dbGetDeleted (Hex addr))
      match c.db.GetDeleted w.db (Hex addr) with
      | Except.error err => (some err, w)
      | Except.ok acc =>
        match RunInTransaction (restoreTx Hex c addr acc) w with
        | (some err, w) => (some err, w)
        | (none, w) => (none, w)

end Eth

/-! ## The keys connector (`src/stores/connectors/keys`) -/

namespace Keys

/-- Go `Connector` of the keys connector; the calls to its logger are in `CreateSteps` and
`RestoreSteps`. -/
structure Connector (σ κ : Type) where
  store : KeyStore κ
  db : Database.Keys σ
  authorizator : Authorizator

variable {σ κ : Type}

/-- Modelled from the spec: the connector's own `Get`, whose file is not among the
sources: "every public operation begins with a C1 check against a statically mapped
(action, resource) pair", here (read, key), then the live row of the database. -/
def Get (c : Connector σ κ) (id : String) (w : World σ κ) :
    Except Error Key × World σ κ :=
  let w := w.log (Call.checkPermission ⟨Action.read, Resource.key⟩)
  match c.authorizator.CheckPermission ⟨Action.read, Resource.key⟩ with
  | some err => (Except.error err, w)
  | none =>
    let w := w.log (Call.dbGet id)
    match c.db.Get w.db id with
    | Except.error err => (Except.error err, w)
    | Except.ok key => (Except.ok key, w)

/-- Go `Connector.Create` of `create.go`.  `alg` is a pointer: line 12 reads `alg.Type` and
`alg.EllipticCurve` for the logger before anything else, so with a nil `alg` the operation
panics there, having called no collaborator: the result is `none`, a panic, and the world
is the one it was given.  `attr` is handed to the store as it is and never read. -/
def Create (c : Connector σ κ) (id : String) (alg : Option Algorithm) (attr : Attributes)
    (w : World σ κ) : Option (Except Error Key) × World σ κ :=
  match alg with
  | none => (none, w)
  | some alg =>
    let w := w.log (Call.checkPermission ⟨Action.write, Resource.key⟩)
    match c.authorizator.CheckPermission ⟨Action.write, Resource.key⟩ with
    | some err => (some (Except.error err), w)
    | none =>
      let w := w.log (Call.storeCreate id alg attr)
      match c.store.Create w.store id alg attr with
      | (Except.error err, st) => (some (Except.error err), { w with store := st })
      | (Except.ok key, st) =>
        let w := ({ w with store := st } : World σ κ).log (Call.dbAdd key)
        match c.db.Add w.db key with
        | (Except.error err, d) => (some (Except.error err), { w with db := d })
        | (Except.ok key, d) => (some (Except.ok key), { w with db := d })

/-- The function `Connector.Restore` passes to `RunInTransaction` (`restore.go`, lines
31-44). -/
def restoreTx (c : Connector σ κ) (id : String) (w : World σ κ) :
    Option Error × World σ κ :=
  let w := w.log (Call.dbRestore id)
  match c.db.Restore w.db id with
  | (some err, d) => (some err, { w with db := d })
  | (none, d) =>
    let w := ({ w with db := d } : World σ κ).log (Call.storeRestore id)
    match c.store.Restore w.store id with
    | (some err, st) =>
      if !IsNotSupportedError err then (some err, { w with store := st })
      else (none, { w with store := st })
    | (none, st) => (none, { w with store := st })

/-- Go `Connector.Restore` of `restore.go`. -/
def Restore (c : Connector σ κ) (id : String) (w : World σ κ) :
    Option Error × World σ κ :=
  let w := w.log (Call.checkPermission ⟨Action.delete, Resource.key⟩)
  match c.authorizator.CheckPermission ⟨Action.delete, Resource.key⟩ with
  | some err => (some err, w)
  | none =>
    match Get c id w with
    | (Except.ok _, w) => (none, w)
    | (Except.error _, w) =>
      let w := w.log (Call.dbGetDeleted id)
      match c.db.GetDeleted w.db id with
      | Except.error err => (some err, w)
      | Except.ok _ =>
        match RunInTransaction (restoreTx c id) w with
        | (some err, w) => (some err, w)
        | (none, w) => (none, w)

end Keys

/-! ## The logger of the connectors

The connectors call their logger before the permission check and after a success.  A run
of an operation is the list of its steps: the calls to the logger, and between them the
calls to the authorizator, the database and the store, which are those the operation
records in `World.calls`. -/

/-- A value given to the logger as a field. -/
inductive LogValue
  | str (s : String)
  | keyType (t : KeyType)
  | curve (c : Curve)
  deriving DecidableEq, Repr

/-- A call to the logger: Go `logger.With`, `logger.Debug`, `logger.Info`. -/
inductive LoggerCall
  | With (fields : List (String × LogValue))
  | Debug (msg : String)
  | Info (msg : String)
  deriving DecidableEq, Repr

/-- One step of an operation: a call to its logger, or a call to the authorizator, the
database or the store. -/
inductive Step
  | logger (l : LoggerCall)
  | collaborator (c : Call)
  deriving DecidableEq, Repr

namespace Eth

variable {σ κ : Type}

/-- Go `Connector.Encrypt` of `encrypt.go` with its logger, as the steps of one run, oldest
first: line 12 calls `c.logger.With`, lines 14-27 make the calls of `Encrypt`, line 29
calls `logger.Debug` when they succeeded. -/
def EncryptSteps (Hex : Address → String) (c : Connector σ κ) (addr : Address) (data : Bytes)
    (w : World σ κ) : List Step :=
  match Encrypt Hex c addr data { w with calls := [] } with
  | (Except.error _, w1) =>
    Step.logger (LoggerCall.With [("address", LogValue.str (Hex addr))]) ::
      w1.calls.map Step.collaborator
  | (Except.ok _, w1) =>
    Step.logger (LoggerCall.With [("address", LogValue.str (Hex addr))]) ::
      (w1.calls.map Step.collaborator ++
        [Step.logger (LoggerCall.Debug "data encrypted successfully")])

/-- Go `Connector.Restore` of `restore.go` with its logger, as the steps of one run, oldest
first: lines 14-15 call `c.logger.With` and `logger.Debug`, lines 17-47 make the calls of
`Restore`, line 49 calls `logger.Info`; line 49 is reached when the transaction has run and
returned `nil`, not by the `return nil` of line 24.  The connector's own `Get` is modelled
from the spec, without a logger. -/
def RestoreSteps (Hex : Address → String) (c : Connector σ κ) (addr : Address)
    (w : World σ κ) : List Step :=
  match Restore Hex c addr { w with calls := [] } with
  | (some _, w1) =>
    Step.logger (LoggerCall.With [("address", LogValue.str (Hex addr))]) ::
      Step.logger (LoggerCall.Debug "restoring ethereum account") ::
      w1.calls.map Step.collaborator
  | (none, w1) =>
    Step.logger (LoggerCall.With [("address", LogValue.str (Hex addr))]) ::
      Step.logger (LoggerCall.Debug "restoring ethereum account") ::
      (w1.calls.map Step.collaborator ++
        if Call.dbRunInTransaction ∈ w1.calls
        then [Step.logger (LoggerCall.Info "ethereum account restored successfully")]
        else [])

end Eth

namespace Keys

variable {σ κ : Type}

/-- Go `Connector.Create` of `create.go` with its logger, as the steps of one run, oldest
first: line 12 reads `alg.Type` and `alg.EllipticCurve` and calls `c.logger.With`, so with
a nil `alg` the run panics before its first step; line 13 calls `logger.Debug`, lines 15-29
make the calls of `Create`, line 31 calls `logger.Info` when they succeeded. -/
def CreateSteps (c : Connector σ κ) (id : String) (alg : Option Algorithm) (attr : Attributes)
    (w : World σ κ) : List Step :=
  match alg with
  | none => []
  | some alg =>
    match Create c id (some alg) attr { w with calls := [] } with
    | (some (Except.ok _), w1) =>
      Step.logger (LoggerCall.With [("id", LogValue.str id),
          ("algorithm", LogValue.keyType alg.Type_), ("curve", LogValue.curve alg.EllipticCurve)]) ::
        Step.logger (LoggerCall.Debug "creating key") ::
        (w1.calls.map Step.collaborator ++
          [Step.logger (LoggerCall.Info "key created successfully")])
    | (_, w1) =>
      Step.logger (LoggerCall.With [("id", LogValue.str id),
          ("algorithm", LogValue.keyType alg.Type_), ("curve", LogValue.curve alg.EllipticCurve)]) ::
        Step.logger (LoggerCall.Debug "creating key") ::
        w1.calls.map Step.collaborator

/-- Go `Connector.Restore` of `restore.go` with its logger, as the steps of one run, oldest
first: lines 13-14 call `c.logger.With` and `logger.Debug`, lines 16-46 make the calls of
`Restore`, line 48 calls `logger.Info`; line 48 is reached when the transaction has run and
returned `nil`, not by the `return nil` of line 23.  The connector's own `Get` is modelled
from the spec, without a logger. -/
def RestoreSteps (c : Connector σ κ) (id : String) (w : World σ κ) : List Step :=
  match Restore c id { w with calls := [] } with
  | (some _, w1) =>
    Step.logger (LoggerCall.With [("id", LogValue.str id)]) ::
      Step.logger (LoggerCall.Debug "restoring key") ::
      w1.calls.map Step.collaborator
  | (none, w1) =>
    Step.logger (LoggerCall.With [("id", LogValue.str id)]) ::
      Step.logger (LoggerCall.Debug "restoring key") ::
      (w1.calls.map Step.collaborator ++
        if Call.dbRunInTransaction ∈ w1.calls
        then [Step.logger (LoggerCall.Info "key restored successfully")]
        else [])

end Keys

/-! ## The local manifest manager (`src/manifests/manager/manager_local.go`) -/

namespace Manifests

/-- Go `manifest.Kind`, a Go string type. -/
abbrev Kind := String

/-- Go `manifest.Manifest`; `Specs` is not interpreted by the manager. -/
structure Manifest where
  Kind : Kind
  Version : String
  Name : String
  Tags : List (String × String)
  Specs : String
  deriving DecidableEq, Repr

/-- The `Action` of a message; the manager only builds `CreateAction` messages. -/
inductive MessageAction
  | CreateAction
  deriving DecidableEq, Repr

/-- Go `Message`: `Manifest` is a pointer (`none` is `nil`), `Err` an `error`. -/
structure Message where
  Loader : String
  Action : MessageAction
  Manifest : Option Manifest
  Err : Option Error
  deriving DecidableEq, Repr

def ManagerID : String := "LocalManifestManager"

/-- Go `newCreateActionMsg`. -/
def newCreateActionMsg (mnf : Option Manifest) (err : Option Error) : Message :=
  { Loader := ManagerID, Action := MessageAction.CreateAction, Manifest := mnf, Err := err }

/-- A file tree as `filepath.Walk` finds it: a file, an entry whose `Lstat` fails, or a
directory with the error of reading it (if any) and its entries. -/
inductive FileTree
  | file (name : String)
  | unreadable (name : String) (err : Error)
  | dir (name : String) (readErr : Option Error) (entries : List FileTree)

/-- Go `os.FileInfo`, as far as the manager looks at it. -/
structure FileInfo where
  IsDir : Bool
  deriving DecidableEq, Repr

/-- The name of the root entry of a tree. -/
def FileTree.name : FileTree → String
  | FileTree.file name => name
  | FileTree.unreadable name _ => name
  | FileTree.dir name _ _ => name

/-- What the manager reads from outside: the file system (`os`, `ioutil`,
`path/filepath`), the YAML decoder and the struct validator. -/
structure Env where
  /-- Go `os.Stat`. -/
  Stat : String → Except Error FileInfo
  /-- Go `os.IsNotExist`. -/
  IsNotExist : Error → Bool
  /-- Go `ioutil.ReadFile`. -/
  ReadFile : String → Except Error Bytes
  /-- Go `yaml.Unmarshal(data, mnf)` into one `manifest.Manifest`. -/
  UnmarshalOne : Bytes → Except Error Manifest
  /-- Go `yaml.Unmarshal(data, &mnfs)` into a slice of manifest pointers. -/
  UnmarshalList : Bytes → Except Error (List (Option Manifest))
  /-- Go `validator.Validate.Struct` on a manifest pointer. -/
  Struct : Option Manifest → Option Error
  /-- The file tree below a path, entries in the order `filepath.Walk` visits them. -/
  Tree : String → FileTree

/-- Go `filepath.Ext`: the suffix from the last dot of the last path element, scanning
backwards; `rev` is what is left to scan, `suffix` what has been scanned. -/
def extScan : List Char → List Char → String
  | [], _ => ""
  | c :: rev, suffix =>
    if c = '/' then ""
    else if c = '.' then String.mk (c :: suffix)
    else extScan rev (c :: suffix)

/-- Go `filepath.Ext`. -/
def Ext (path : String) : String := extScan path.data.reverse []

/-- Go `filepath.Join(path, name)` for a directory path and an entry name. -/
def Join (path name : String) : String := path ++ "/" ++ name

/-- The state of a `LocalManager`; `loaded` is true once the channel `loaded` is closed. -/
structure LocalManager where
  path : String
  isDir : Bool
  isLive : Bool
  msgs : List Message
  loaded : Bool
  err : Option Error
  deriving DecidableEq, Repr

/-- Go `Config`. -/
structure Config where
  Path : String

/-- Go `NewLocalManager`. -/
def NewLocalManager (env : Env) (cfg : Config) : Except Error LocalManager :=
  match env.Stat cfg.Path with
  | Except.ok fs =>
    Except.ok { path := cfg.Path, loaded := false, isDir := fs.IsDir, isLive := false,
                msgs := [], err := none }
  | Except.error err =>
    if env.IsNotExist err then
      Except.error (InvalidParameterError "folder or file does not exists")
    else Except.error err

/-- The loop of `buildMessages` over the parsed list (lines 188-195); `msgs` is the
slice built so far. -/
def buildMessagesLoop (env : Env) : List (Option Manifest) → List Message → List Message
  | [], msgs => msgs
  | mnf :: mnfs, msgs =>
    match env.Struct mnf with
    | some err => buildMessagesLoop env mnfs (msgs ++ [newCreateActionMsg none (some err)])
    | none => buildMessagesLoop env mnfs (msgs ++ [newCreateActionMsg mnf none])

/-- Go `LocalManager.buildMessages`. -/
def buildMessages (env : Env) (fp : String) : List Message :=
  match env.ReadFile fp with
  | Except.error err => [newCreateActionMsg none (some err)]
  | Except.ok data =>
    match env.UnmarshalOne data with
    | Except.ok mnf =>
      match env.Struct (some mnf) with
      | some err2 => [newCreateActionMsg none (some err2)]
      | none => [newCreateActionMsg (some mnf) none]
    | Except.error _ =>
      match env.UnmarshalList data with
      | Except.error err => [newCreateActionMsg none (some err)]
      | Except.ok mnfs => buildMessagesLoop env mnfs []

/-- The function `load` passes to `filepath.Walk` (lines 137-153): `info` is `none`
when `err` is set. -/
def loadWalkFn (env : Env) (fp : String) (info : Option FileInfo) (err : Option Error)
    (ll : LocalManager) : Option Error × LocalManager :=
  match err with
  | some _ => (some (InvalidFormatError "failed to walk the file tree"), ll)
  | none =>
    match info with
    | none => (none, ll)
    | some info =>
      if info.IsDir then (none, ll)
      else if Ext fp = ".yml" || Ext fp = ".yaml" then
        (none, { ll with msgs := ll.msgs ++ buildMessages env fp })
      else (none, ll)

mutual

/-- Go `filepath.walk` on a tree whose path is `path`, for a callback that never returns
`SkipDir`: the callback sees a file, or a directory (with the error of reading it) and
then its entries in order; the first error a callback returns ends the walk. -/
def walk {S : Type} (fn : String → Option FileInfo → Option Error → S → Option Error × S)
    (path : String) : FileTree → S → Option Error × S
  | FileTree.file _, s => fn path (some ⟨false⟩) none s
  | FileTree.unreadable _ err, s => fn path none (some err) s
  | FileTree.dir _ readErr entries, s =>
    match fn path (some ⟨true⟩) readErr s with
    | (some err1, s) => (some err1, s)
    | (none, s) =>
      match readErr with
      | some _ => (none, s)
      | none => walkEntries fn path entries s

/-- The loop of `filepath.walk` over the entries of the directory `path`. -/
def walkEntries {S : Type}
    (fn : String → Option FileInfo → Option Error → S → Option Error × S)
    (path : String) : List FileTree → S → Option Error × S
  | [], s => (none, s)
  | t :: ts, s =>
    match walk fn (Join path (FileTree.name t)) t s with
    | (some err, s) => (some err, s)
    | (none, s) => walkEntries fn path ts s

end

/-- Go `LocalManager.load`. -/
def load (env : Env) (ll : LocalManager) : Option Error × LocalManager :=
  if !ll.isDir then
    (none, { ll with msgs := ll.msgs ++ buildMessages env ll.path })
  else
    walk (loadWalkFn env) ll.path (env.Tree ll.path) ll

/-- How a call ends: it returns a value or it panics. -/
inductive Outcome (α : Type)
  | returned (a : α)
  | panicked
  deriving DecidableEq, Repr

/-- Go `LocalManager.Start`: the result `ll.err` is set by `load`; the deferred function then
closes `loaded` (closing a closed channel panics) and sets `isLive`. -/
def Start (env : Env) (ll : LocalManager) : Outcome (Option Error) × LocalManager :=
  let r := load env ll
  let ll := { r.2 with err := r.1 }
  if ll.loaded then (Outcome.panicked, ll)
  else (Outcome.returned ll.err, { ll with loaded := true, isLive := true })

/-- Go `LocalManager.Stop`. -/
def Stop (ll : LocalManager) : Option Error × LocalManager :=
  (none, { ll with isLive := false })

/-- Go `LocalManager.Error`. -/
def LocalManager.Error (ll : LocalManager) : Option Error := ll.err

/-- Go `LocalManager.ID`. -/
def LocalManager.ID (_ll : LocalManager) : String := ManagerID

/-- Go `LocalManager.CheckLiveness`. -/
def CheckLiveness (ll : LocalManager) : Option Error :=
  if ll.isLive then none
  else some (ConfigError ("service " ++ ll.ID ++ " is not live"))

/-- The loop of `CheckReadiness` (lines 227-231): the first error found, if any. -/
def firstErr : List Message → Option Error
  | [] => none
  | msg :: msgs =>
    match msg.Err with
    | some err => some err
    | none => firstErr msgs

/-- Go `LocalManager.CheckReadiness`. -/
def CheckReadiness (ll : LocalManager) : Option Error :=
  match firstErr ll.msgs with
  | some err => some err
  | none => ll.Error

/-- A lifecycle call on the manager. -/
inductive Lifecycle
  | Start
  | Stop
  deriving DecidableEq, Repr

/-- One lifecycle call: the state after it, and whether the call completed (returned). -/
def lifecycleStep (env : Env) (ll : LocalManager) : Lifecycle → Bool × LocalManager
  | Lifecycle.Start =>
    match Start env ll with
    | (Outcome.returned _, ll) => (true, ll)
    | (Outcome.panicked, ll) => (false, ll)
  | Lifecycle.Stop => (true, (Stop ll).2)

/-- A sequence of lifecycle calls from the state `ll`, where `last` is the last call that
completed so far: the final state and the last call that completed. -/
def lifecycleRun (env : Env) :
    List Lifecycle → LocalManager × Option Lifecycle → LocalManager × Option Lifecycle
  | [], s => s
  | call :: calls, (ll, last) =>
    match lifecycleStep env ll call with
    | (true, ll) => lifecycleRun env calls (ll, some call)
    | (false, ll) => lifecycleRun env calls (ll, last)

/-! ### Subscriptions -/

/-- A Go `map[manifest.Kind]struct{}`: the keys, in insertion order. -/
abbrev KindSet := List Kind

/-- Go `m[kind] = struct{}{}`. -/
def KindSet.set (m : KindSet) (kind : Kind) : KindSet :=
  if kind ∈ m then m else m ++ [kind]

/-- The `subscription`: `kinds` is `none` for a nil map; `messages` are the batches sent
on the subscriber channel, oldest first; `errors` is what was sent on the error channel;
`stop` and `done` are true once the channel is closed. -/
structure subscription where
  kinds : Option KindSet
  messages : List (List Message)
  errors : List Error
  stop : Bool
  done : Bool
  deriving DecidableEq, Repr

/-- The body of the loop of `subscription.inbox` (lines 76-88) for one message; `submsgs`
is the slice built so far.  Reading `msg.Manifest.Kind` through a nil `Manifest` panics:
`none`. -/
def inboxStep (kinds : Option KindSet) (msg : Message) (submsgs : List Message) :
    Option (List Message) :=
  match msg.Err with
  | some _ => some submsgs
  | none =>
    match kinds with
    | none => some (submsgs ++ [msg])
    | some ks =>
      match msg.Manifest with
      | none => none
      | some mnf => if mnf.Kind ∈ ks then some (submsgs ++ [msg]) else some submsgs

/-- The loop of `subscription.inbox` (lines 75-89). -/
def inboxLoop (kinds : Option KindSet) : List Message → List Message → Option (List Message)
  | [], submsgs => some submsgs
  | msg :: msgs, submsgs =>
    match inboxStep kinds msg submsgs with
    | none => none
    | some submsgs => inboxLoop kinds msgs submsgs

/-- Go `subscription.inbox`: the batch is sent on the subscriber channel. -/
def subscription.inbox (sub : subscription) (msgs : List Message) : Option subscription :=
  match inboxLoop sub.kinds msgs [] with
  | none => none
  | some submsgs => some { sub with messages := sub.messages ++ [submsgs] }

/-- The subscription `LocalManager.Subscribe` builds (lines 95-108), before it starts
`processSub`; `kinds` is `none` for a nil slice. -/
def Subscribe (kinds : Option (List Kind)) : subscription :=
  { kinds := match kinds with
      | none => none
      | some ks => some (ks.foldl KindSet.set [])
    messages := [], errors := [], stop := false, done := false }

/-- Go `LocalManager.processSub` when the case `<-ll.loaded` of its `select` is taken. -/
def processSub (ll : LocalManager) (sub : subscription) : Option subscription :=
  match ll.err with
  | some err => some { sub with errors := sub.errors ++ [err], done := true }
  | none =>
    match sub.inbox ll.msgs with
    | none => none
    | some sub => some { sub with done := true }

end Manifests

/-! ## A small in-memory database and store, used to run the connectors -/

namespace Sample

/-- A row of the account table: its id, the entity, and whether it is soft-deleted. -/
structure Row (α : Type) where
  id : String
  entity : α
  deleted : Bool

/-- Modelled from the spec: the account database of section 4.3, as a list of rows.
`Get` returns the live row and `GetDeleted` the soft-deleted row, `NotFound` otherwise;
`Restore` clears the soft deletion, `NotFound` if there is no soft-deleted row; `Add`
inserts, `AlreadyExists` if the id is taken. -/
abbrev Table (α : Type) := List (Row α)

def notFound : Error := ⟨ErrorKind.notFound, "not found"⟩

def Table.Get {α : Type} (t : Table α) (id : String) : Except Error α :=
  match t.find? (fun r => r.id == id && !r.deleted) with
  | some r => Except.ok r.entity
  | none => Except.error notFound

def Table.GetDeleted {α : Type} (t : Table α) (id : String) : Except Error α :=
  match t.find? (fun r => r.id == id && r.deleted) with
  | some r => Except.ok r.entity
  | none => Except.error notFound

def Table.Restore {α : Type} (t : Table α) (id : String) : Option Error × Table α :=
  if t.any (fun r => r.id == id && r.deleted) then
    (none, t.map (fun r => if r.id == id then { r with deleted := false } else r))
  else (some notFound, t)

def Table.Add (t : Table Key) (key : Key) : Except Error Key × Table Key :=
  if t.any (fun r => r.id == key.ID) then
    (Except.error ⟨ErrorKind.alreadyExists, "already exists"⟩, t)
  else (Except.ok key, t ++ [⟨key.ID, key, false⟩])

def ethAccounts : Database.ETHAccounts (Table ETHAccount) :=
  { Get := Table.Get, GetDeleted := Table.GetDeleted, Restore := Table.Restore }

/-- A database whose `Restore` answers `nil` and leaves the row soft-deleted. -/
def ethAccountsKeepDeleted : Database.ETHAccounts (Table ETHAccount) :=
  { Get := Table.Get, GetDeleted := Table.GetDeleted, Restore := fun t _ => (none, t) }

def keys : Database.Keys (Table Key) :=
  { Get := Table.Get, GetDeleted := Table.GetDeleted, Add := Table.Add,
    Restore := Table.Restore }

def algo : Algorithm := ⟨KeyType.Ecdsa, Curve.Secp256k1⟩

def newKey (id : String) (alg : Algorithm) (attr : Attributes) : Key :=
  { ID := id, PublicKey := [4, 1, 2], Algo := alg, Tags := attr.Tags, Metadata := none }

/-- A store that counts the calls it served and cannot restore keys. -/
def storeWithoutRestore : KeyStore Nat :=
  { Create := fun n id alg attr => (Except.ok (newKey id alg attr), n + 1)
    Encrypt := fun n id data => (Except.ok (id.length :: data), n + 1)
    Restore := fun n _ => (some ⟨ErrorKind.notSupported, "restore not supported"⟩, n + 1) }

/-- A store that counts the calls it served and restores every key. -/
def storeWithRestore : KeyStore Nat :=
  { storeWithoutRestore with Restore := fun n _ => (none, n + 1) }

/-- A store whose `Restore` fails with a dependency failure. -/
def storeFailing : KeyStore Nat :=
  { storeWithoutRestore with
    Restore := fun n _ => (some ⟨ErrorKind.dependencyFailure, "vault is sealed"⟩, n + 1) }

def forbidden : Error := ⟨ErrorKind.forbidden, "operation forbidden"⟩

/-- An authorizator that grants exactly the listed operations. -/
def grants (ops : List Operation) : Authorizator :=
  { CheckPermission := fun op => if op ∈ ops then none else some forbidden }

/-- A stand-in for `ethcommon.Address.Hex`. -/
def Hex (addr : Address) : String := String.mk (addr.bytes.map Char.ofNat)

def addr : Address := ⟨[97, 98]⟩

def account : ETHAccount :=
  { Address := addr, KeyID := "key-1", PublicKey := [4, 1, 2], CompressedPublicKey := [2, 1],
    Metadata := none, Tags := [] }

/-- One live account. -/
def liveTable : Table ETHAccount := [⟨"ab", account, false⟩]

/-- One soft-deleted account. -/
def deletedTable : Table ETHAccount := [⟨"ab", account, true⟩]

def liveKeyTable : Table Key := [⟨"key-1", newKey "key-1" algo ⟨[]⟩, false⟩]

def deletedKeyTable : Table Key := [⟨"key-1", newKey "key-1" algo ⟨[]⟩, true⟩]

def allOps : List Operation :=
  [⟨Action.read, Resource.ethAccount⟩, ⟨Action.delete, Resource.ethAccount⟩,
   ⟨Action.encrypt, Resource.ethAccount⟩, ⟨Action.read, Resource.key⟩,
   ⟨Action.write, Resource.key⟩, ⟨Action.delete, Resource.key⟩]

end Sample

/-! ## The manifest manager in the words of the specification, and sample files -/

namespace Manifests

/-- The messages a subscription is to receive, in the words of the specification: those
that carry no error and whose manifest kind belongs to the kinds set, every kind when the
set is nil. -/
def wanted (kinds : Option KindSet) (msg : Message) : Bool :=
  match msg.Err with
  | some _ => false
  | none =>
    match kinds with
    | none => true
    | some ks =>
      match msg.Manifest with
      | some mnf => decide (mnf.Kind ∈ ks)
      | none => false

/-- The message for one entry of a parsed list, in the words of the specification: the
manifest with no error if it passes validation, a nil manifest with the validation error
otherwise. -/
def entryMessage (env : Env) (mnf : Option Manifest) : Message :=
  match env.Struct mnf with
  | none => newCreateActionMsg mnf none
  | some err => newCreateActionMsg none (some err)

end Manifests

namespace Sample

open Manifests

def node : Manifest :=
  { Kind := "Node", Version := "0.0.1", Name := "besu", Tags := [], Specs := "rpc" }

def role : Manifest :=
  { Kind := "Role", Version := "0.0.1", Name := "admin", Tags := [], Specs := "*:*" }

/-- A manifest without a name: it does not pass validation. -/
def nameless : Manifest :=
  { Kind := "Node", Version := "0.0.1", Name := "", Tags := [], Specs := "rpc" }

/-- The zero value of `manifest.Manifest`. -/
def zeroManifest : Manifest :=
  { Kind := "", Version := "", Name := "", Tags := [], Specs := "" }

def required : Error := ⟨ErrorKind.foreign, "field is required"⟩

def typeError : Error := ⟨ErrorKind.foreign, "yaml: unmarshal errors"⟩

def noSuchFile : Error := ⟨ErrorKind.foreign, "no such file or directory"⟩

/-- Sample files.  The content `[]` is the empty file, which the YAML decoder accepts for
any target, leaving the target as it is; `[1]` is a list of three entries (a node, a
nameless node, a role); `[2]` is a single manifest.  The validator refuses a nil pointer
and a manifest without kind, version or name. -/
def env : Env :=
  { Stat := fun path =>
      if path = "manifests" then Except.ok ⟨true⟩
      else if path = "missing" then Except.error noSuchFile
      else Except.ok ⟨false⟩
    IsNotExist := fun err => decide (err = noSuchFile)
    ReadFile := fun path =>
      if path = "empty.yml" then Except.ok []
      else if path = "manifests/list.yml" then Except.ok [1]
      else if path = "manifests/sub/one.yaml" then Except.ok [2]
      else Except.error noSuchFile
    UnmarshalOne := fun data =>
      if data = [] then Except.ok zeroManifest
      else if data = [2] then Except.ok role
      else Except.error typeError
    UnmarshalList := fun data =>
      if data = [] then Except.ok []
      else if data = [1] then Except.ok [some node, some nameless, some role]
      else Except.error typeError
    Struct := fun mnf =>
      match mnf with
      | none => some ⟨ErrorKind.foreign, "invalid validation"⟩
      | some m => if m.Kind = "" ∨ m.Version = "" ∨ m.Name = "" then some required else none
    Tree := fun path =>
      if path = "manifests" then
        FileTree.dir "manifests" none
          [FileTree.file "list.yml", FileTree.file "notes.txt",
           FileTree.dir "sub" none [FileTree.file "one.yaml"]]
      else FileTree.file path }

end Sample

/-! ## What `load` loads, in the words of the specification -/

namespace Manifests

mutual

/-- The files of the tree at `path`, in the words of the specification: every entry that
is not a directory, in walk order, recursing into sub-directories. -/
def FileTree.files (path : String) : FileTree → List String
  | FileTree.file _ => [path]
  | FileTree.unreadable _ _ => []
  | FileTree.dir _ _ entries => FileTree.filesIn path entries

/-- The files of the entries of the directory `path`. -/
def FileTree.filesIn (path : String) : List FileTree → List String
  | [] => []
  | t :: ts => FileTree.files (Join path (FileTree.name t)) t ++ FileTree.filesIn path ts

end

mutual

/-- The walk can read every entry and every directory of the tree. -/
def FileTree.walkable : FileTree → Bool
  | FileTree.file _ => true
  | FileTree.unreadable _ _ => false
  | FileTree.dir _ readErr entries => readErr.isNone && FileTree.walkableAll entries

/-- The walk can read all of the entries. -/
def FileTree.walkableAll : List FileTree → Bool
  | [] => true
  | t :: ts => FileTree.walkable t && FileTree.walkableAll ts

end

mutual

/-- The files the walk reaches before it meets an entry or a directory it cannot read, in
walk order, and whether it met one. -/
def FileTree.reached (path : String) : FileTree → List String × Bool
  | FileTree.file _ => ([path], false)
  | FileTree.unreadable _ _ => ([], true)
  | FileTree.dir _ readErr entries =>
    match readErr with
    | some _ => ([], true)
    | none => FileTree.reachedIn path entries

/-- The files the walk reaches among the entries of the directory `path`. -/
def FileTree.reachedIn (path : String) : List FileTree → List String × Bool
  | [] => ([], false)
  | t :: ts =>
    match FileTree.reached (Join path (FileTree.name t)) t with
    | (fs, true) => (fs, true)
    | (fs, false) => (fs ++ (FileTree.reachedIn path ts).1, (FileTree.reachedIn path ts).2)

end

/-- The extension of the file is exactly `.yml` or `.yaml`. -/
def hasManifestExt (fp : String) : Bool :=
  Ext fp = ".yml" || Ext fp = ".yaml"

/-- Two manifest pointers point to manifests of the same kind and the same name. -/
def sameManifest (x y : Option Manifest) : Bool :=
  match x, y with
  | some x, some y => x.Kind = y.Kind && x.Name = y.Name
  | _, _ => false

/-- Two messages carry manifests of the same kind and the same name. -/
def sameKindName (a b : Message) : Bool :=
  sameManifest a.Manifest b.Manifest

/-- The invariant of the specification on a set of messages: no two distinct messages
without error carry manifests of the same kind and the same name. -/
def uniqueKindName (msgs : List Message) : Prop :=
  (msgs.filter (fun m => m.Err.isNone)).Pairwise (fun a b => sameKindName a b = false)

/-- The entries of a file that pass validation, in order: the single manifest, or else
the entries of the list. -/
def validEntries (env : Env) (fp : String) : List (Option Manifest) :=
  match env.ReadFile fp with
  | Except.error _ => []
  | Except.ok data =>
    match env.UnmarshalOne data with
    | Except.ok mnf => [some mnf].filter (fun m => (env.Struct m).isNone)
    | Except.error _ =>
      match env.UnmarshalList data with
      | Except.error _ => []
      | Except.ok mnfs => mnfs.filter (fun m => (env.Struct m).isNone)

/-- The files `load` builds messages from: the manifest files the walk reaches when the
path is a directory, the path itself when it is a file. -/
def loadedFiles (env : Env) (ll : LocalManager) : List String :=
  if ll.isDir then (FileTree.reached ll.path (env.Tree ll.path)).1.filter hasManifestExt
  else [ll.path]

end Manifests

/-! ## Subscriptions as a transition system -/

namespace Manifests

/-- Where the goroutine `processSub` stands. -/
inductive ProcessPC
  /-- Blocked in the `select` on `ll.loaded` and `sub.stop`. -/
  | atSelect
  /-- At `sub.errors <- ll.err`. -/
  | sendingError (err : Error)
  /-- At `sub.messages <- submsgs`, the last statement of `inbox`. -/
  | sendingBatch (submsgs : List Message)
  /-- At the deferred `close(sub.done)`. -/
  | closingDone
  | exited
  /-- Stopped by the panic of `inbox` on a nil manifest. -/
  | panicked
  deriving DecidableEq, Repr

/-- Where the caller of `Unsubscribe` stands. -/
inductive UnsubscribePC
  | notCalled
  /-- At `close(sub.stop)`. -/
  | closingStop
  /-- At `<-sub.done`. -/
  | waitingDone
  /-- At `close(sub.errors)`. -/
  | closingErrors
  | returned
  deriving DecidableEq, Repr

/-- The manager, one subscription, its goroutine and the caller of `Unsubscribe`.  The
subscriber does not read: `sub.messages` holds the batches buffered in its channel, whose
capacity is `capacity` (0 for an unbuffered channel).  The channel `errors` has
capacity 1. -/
structure SubState where
  capacity : Nat
  ll : LocalManager
  sub : subscription
  errorsClosed : Bool
  proc : ProcessPC
  unsub : UnsubscribePC
  deriving DecidableEq, Repr

/-- The steps `processSub` can take (lines 115-127, with `inbox`): in the `select` every
ready case may be taken; a send needs room in the channel. -/
def processSteps (s : SubState) : List SubState :=
  match s.proc with
  | ProcessPC.atSelect =>
    (if s.ll.loaded then
      [match s.ll.err with
       | some err => { s with proc := ProcessPC.sendingError err }
       | none =>
         match inboxLoop s.sub.kinds s.ll.msgs [] with
         | some submsgs => { s with proc := ProcessPC.sendingBatch submsgs }
         | none => { s with proc := ProcessPC.panicked }]
     else []) ++
    (if s.sub.stop then [{ s with proc := ProcessPC.closingDone }] else [])
  | ProcessPC.sendingError err =>
    if s.sub.errors.length < 1 then
      [{ s with sub := { s.sub with errors := s.sub.errors ++ [err] },
                proc := ProcessPC.closingDone }]
    else []
  | ProcessPC.sendingBatch submsgs =>
    if s.sub.messages.length < s.capacity then
      [{ s with sub := { s.sub with messages := s.sub.messages ++ [submsgs] },
                proc := ProcessPC.closingDone }]
    else []
  | ProcessPC.closingDone =>
    [{ s with sub := { s.sub with done := true }, proc := ProcessPC.exited }]
  | ProcessPC.exited => []
  | ProcessPC.panicked => []

/-- The steps the caller of `Unsubscribe` can take (lines 64-69). -/
def unsubscribeSteps (s : SubState) : List SubState :=
  match s.unsub with
  | UnsubscribePC.notCalled => []
  | UnsubscribePC.closingStop =>
    [{ s with sub := { s.sub with stop := true }, unsub := UnsubscribePC.waitingDone }]
  | UnsubscribePC.waitingDone =>
    if s.sub.done then [{ s with unsub := UnsubscribePC.closingErrors }] else []
  | UnsubscribePC.closingErrors =>
    [{ s with errorsClosed := true, unsub := UnsubscribePC.returned }]
  | UnsubscribePC.returned => []

/-- Every state one step away, by either party. -/
def subSteps (s : SubState) : List SubState :=
  processSteps s ++ unsubscribeSteps s

/-- The state in which `Unsubscribe` is called on a subscription just made by
`Subscribe`, whose goroutine is in its `select`. -/
def unsubscribeCalled (capacity : Nat) (ll : LocalManager) (kinds : Option (List Kind)) :
    SubState :=
  { capacity := capacity, ll := ll, sub := Subscribe kinds, errorsClosed := false,
    proc := ProcessPC.atSelect, unsub := UnsubscribePC.closingStop }

end Manifests

namespace Sample

open Manifests

/-- The manager of the sample file `one.yaml` after `Start`: loaded without error, with
the one message of the role. -/
def loadedManager : LocalManager :=
  (Start env { path := "manifests/sub/one.yaml", isDir := false, isLive := false, msgs := [],
               loaded := false, err := none }).2

end Sample

/-! ## The `eth_accounts` interceptor (`src/nodes/interceptor/eth_accounts.go`) -/

namespace Nodes

/-- Go `stores.Manager`, the method the interceptor uses, over contexts `Ctx` and user
infos `U`.  A Go slice is an `Option (List _)`, `none` being the nil slice; the method
returns a slice and an `error`. -/
structure Stores (Ctx U : Type) where
  ListAllAccounts : Ctx → U → Option (List Address) × Option Error

/-- Go `Interceptor` (without its logger). -/
structure Interceptor (Ctx U : Type) where
  stores : Stores Ctx U

/-- Go `Interceptor.ethAccounts`; `UserInfoContextFromContext` is the function of that
name of the package `authenticator`. -/
def ethAccounts {Ctx U : Type} (UserInfoContextFromContext : Ctx → U)
    (i : Interceptor Ctx U) (ctx : Ctx) : Option (List Address) × Option Error :=
  let userInfo := UserInfoContextFromContext ctx
  match i.stores.ListAllAccounts ctx userInfo with
  | (_, some err) => (none, some err)
  | (addresses, none) => (addresses, none)

end Nodes

/-! ## The websocket upgrader (`pkg/websocket/upgrader.go`) -/

namespace Websocket

/-- Go `json.Duration`, a `time.Duration` in nanoseconds. -/
structure JSONDuration where
  Duration : Int
  deriving DecidableEq, Repr

/-- Go `UpgraderConfig`: every field is a pointer, `none` being nil. -/
structure UpgraderConfig where
  HandshakeTimeout : Option JSONDuration
  ReadBufferSize : Option Int
  WriteBufferSize : Option Int
  EnableCompression : Option Bool
  deriving DecidableEq, Repr

/-- Go `UpgraderConfig.SetDefault`: the configuration after the call, which is also the
result. -/
def UpgraderConfig.SetDefault (cfg : UpgraderConfig) : UpgraderConfig :=
  let cfg :=
    if cfg.HandshakeTimeout = none then { cfg with HandshakeTimeout := some ⟨0⟩ } else cfg
  let cfg :=
    if cfg.ReadBufferSize = none then { cfg with ReadBufferSize := some 1024 } else cfg
  let cfg :=
    if cfg.WriteBufferSize = none then { cfg with WriteBufferSize := some 1024 } else cfg
  let cfg :=
    if cfg.EnableCompression = none then { cfg with EnableCompression := some false }
    else cfg
  cfg

/-- Go `websocket.Upgrader`, the fields `NewUpgrader` sets. -/
structure Upgrader where
  HandshakeTimeout : Int
  ReadBufferSize : Int
  WriteBufferSize : Int
  EnableCompression : Bool
  deriving DecidableEq, Repr

/-- Go `NewUpgrader`; reading through a nil field panics: `none`. -/
def NewUpgrader (cfg : UpgraderConfig) : Option Upgrader :=
  match cfg.HandshakeTimeout, cfg.ReadBufferSize, cfg.WriteBufferSize,
      cfg.EnableCompression with
  | some t, some r, some w, some c =>
    some { HandshakeTimeout := t.Duration, ReadBufferSize := r, WriteBufferSize := w,
           EnableCompression := c }
  | _, _, _, _ => none

end Websocket

/-! ## Request preparers (`pkg/http/request`) -/

namespace Http

/-- Go `url.Userinfo`. -/
structure Userinfo where
  username : String
  password : String
  passwordSet : Bool
  deriving DecidableEq, Repr

/-- Go `url.UserPassword`. -/
def UserPassword (username password : String) : Userinfo :=
  { username := username, password := password, passwordSet := true }

/-- Go `url.URL`: the user information (a pointer) and the rest of the URL. -/
structure URL where
  User : Option Userinfo
  rest : String
  deriving DecidableEq, Repr

/-- Go `http.Header`, a map from canonical header names to values; a name that is not
in the map has no value. -/
abbrev Header := String → List String

/-- Go `Header.Get` for a canonical name such as `Authorization`: the first value, or the
empty string; it can be called on a nil map. -/
def Header.Get (h : Option Header) (key : String) : String :=
  match h with
  | none => ""
  | some h => (h key).headD ""

/-- Go `Header.Set` for a canonical name; writing to a nil map panics: `none`. -/
def Header.Set (h : Option Header) (key value : String) : Option Header :=
  match h with
  | none => none
  | some h => some (fun k => if k = key then [value] else h k)

/-- Go `http.Request`, the fields the preparers use; `Header` and `URL` may be nil. -/
structure Request where
  Header : Option Header
  URL : Option URL

/-- Go `Preparer`: the prepared request and an `error`, or `none` for a panic. -/
abbrev Preparer := Request → Option (Request × Option Error)

/-- Go `NoopPreparer`. -/
def NoopPreparer : Preparer := fun req => some (req, none)

/-- Go `BasicAuthConfig`. -/
structure BasicAuthConfig where
  Username : String
  Password : String
  deriving DecidableEq, Repr

/-- Go `basicAuth`; `EncodeToString` is `base64.StdEncoding.EncodeToString` on the bytes
of a string. -/
def basicAuth (EncodeToString : String → String) (username password : String) : String :=
  EncodeToString (username ++ ":" ++ password)

/-- Go `BasicAuth`; `cfg` is `none` for a nil configuration.  The request is changed in
place and returned. -/
def BasicAuth (EncodeToString : String → String) (cfg : Option BasicAuthConfig) : Preparer :=
  match cfg with
  | none => NoopPreparer
  | some cfg => fun req =>
    if Header.Get req.Header "Authorization" ≠ "" then some (req, none)
    else
      match req.URL with
      | none => none
      | some url =>
        let u := url.User
        let set := u = none ∧ cfg.Username ≠ "" ∧ cfg.Password ≠ ""
        let u := if set then some (UserPassword cfg.Username cfg.Password) else u
        let req : Request :=
          if set then { req with URL := some { url with User := u } } else req
        match u with
        | none => some (req, none)
        | some u =>
          let username := u.username
          let password := u.password
          match Header.Set req.Header "Authorization"
              ("Basic " ++ basicAuth EncodeToString username password) with
          | none => none
          | some h => some ({ req with Header := some h }, none)

end Http

/-! ## Conversion to JSON values (`pkg/json/encode.go`) -/

namespace Json

/-- A Go value held in an `interface{}`: scalars, `[]interface{}`,
`map[interface{}]interface{}`, `map[string]interface{}`, and the types `jsonArray` and
`jsonMap` of this package.  A map is the list of its entries. -/
inductive GoValue
  | null
  | str (s : String)
  | int (n : Int)
  | bool (b : Bool)
  | slice (vs : List GoValue)
  | mapAny (kvs : List (GoValue × GoValue))
  | mapString (kvs : List (String × GoValue))
  | jsonArray (vs : List GoValue)
  | jsonMap (kvs : List (String × GoValue))

/-- Go `newMap[key] = value` on a string-keyed map. -/
def setKey (newMap : List (String × GoValue)) (key : String) (value : GoValue) :
    List (String × GoValue) :=
  match newMap with
  | [] => [(key, value)]
  | (k, v) :: rest => if k = key then (key, value) :: rest else (k, v) :: setKey rest key value

mutual

/-- Go `RecursiveToJSON`; the type assertion `k.(string)` panics on a key that is not a
string: `none`. -/
def RecursiveToJSON : GoValue → Option GoValue
  | GoValue.slice vs =>
    match toJSONSlice vs with
    | some rs => some (GoValue.jsonArray rs)
    | none => none
  | GoValue.mapAny kvs =>
    match toJSONMap kvs [] with
    | some newMap => some (GoValue.jsonMap newMap)
    | none => none
  | v => some v

/-- The loop over a slice (lines 29-31). -/
def toJSONSlice : List GoValue → Option (List GoValue)
  | [] => some []
  | e :: es =>
    match RecursiveToJSON e with
    | none => none
    | some r =>
      match toJSONSlice es with
      | none => none
      | some rs => some (r :: rs)

/-- The loop over a map (lines 35-37); `newMap` is the map built so far. -/
def toJSONMap : List (GoValue × GoValue) → List (String × GoValue) →
    Option (List (String × GoValue))
  | [], newMap => some newMap
  | (k, e) :: kvs, newMap =>
    match k with
    | GoValue.str key =>
      match RecursiveToJSON e with
      | none => none
      | some r => toJSONMap kvs (setKey newMap key r)
    | _ => none

end

mutual

/-- The value is or holds, at some depth, a `map[interface{}]interface{}`. -/
def GoValue.hasMapAny : GoValue → Bool
  | GoValue.mapAny _ => true
  | GoValue.slice vs => GoValue.someHasMapAny vs
  | GoValue.jsonArray vs => GoValue.someHasMapAny vs
  | GoValue.mapString kvs => GoValue.someFieldHasMapAny kvs
  | GoValue.jsonMap kvs => GoValue.someFieldHasMapAny kvs
  | _ => false

def GoValue.someHasMapAny : List GoValue → Bool
  | [] => false
  | v :: vs => GoValue.hasMapAny v || GoValue.someHasMapAny vs

def GoValue.someFieldHasMapAny : List (String × GoValue) → Bool
  | [] => false
  | (_, v) :: kvs => GoValue.hasMapAny v || GoValue.someFieldHasMapAny kvs

end

/-- The value is a string. -/
def GoValue.isStr : GoValue → Bool
  | GoValue.str _ => true
  | _ => false

mutual

/-- Every `map[interface{}]interface{}` in the value, at any depth, has string keys
only. -/
def GoValue.keysAreStrings : GoValue → Bool
  | GoValue.mapAny kvs => GoValue.entriesHaveStringKeys kvs
  | GoValue.slice vs => GoValue.allKeysAreStrings vs
  | GoValue.jsonArray vs => GoValue.allKeysAreStrings vs
  | GoValue.mapString kvs => GoValue.fieldsKeysAreStrings kvs
  | GoValue.jsonMap kvs => GoValue.fieldsKeysAreStrings kvs
  | _ => true

def GoValue.allKeysAreStrings : List GoValue → Bool
  | [] => true
  | v :: vs => GoValue.keysAreStrings v && GoValue.allKeysAreStrings vs

def GoValue.fieldsKeysAreStrings : List (String × GoValue) → Bool
  | [] => true
  | (_, v) :: kvs => GoValue.keysAreStrings v && GoValue.fieldsKeysAreStrings kvs

def GoValue.entriesHaveStringKeys : List (GoValue × GoValue) → Bool
  | [] => true
  | (k, v) :: kvs =>
    GoValue.isStr k && GoValue.keysAreStrings v && GoValue.entriesHaveStringKeys kvs

end

end Json

namespace Json

mutual

/-- The value is built from scalars, `[]interface{}` and `map[interface{}]interface{}`
alone, the values a YAML document decodes to. -/
def GoValue.decoded : GoValue → Bool
  | GoValue.null => true
  | GoValue.str _ => true
  | GoValue.int _ => true
  | GoValue.bool _ => true
  | GoValue.slice vs => GoValue.allDecoded vs
  | GoValue.mapAny kvs => GoValue.entriesDecoded kvs
  | _ => false

def GoValue.allDecoded : List GoValue → Bool
  | [] => true
  | v :: vs => GoValue.decoded v && GoValue.allDecoded vs

def GoValue.entriesDecoded : List (GoValue × GoValue) → Bool
  | [] => true
  | (_, v) :: kvs => GoValue.decoded v && GoValue.entriesDecoded kvs

end

end Json

namespace Http

/-- The loop of `CombinePreparer` (lines 29-34): each preparer gets the request the one
before returned; the first error ends the loop. -/
def combineLoop : List Preparer → Request → Option (Request × Option Error)
  | [], req => some (req, none)
  | preparer :: preparers, req =>
    match preparer req with
    | none => none
    | some (req, some err) => some (req, some err)
    | some (req, none) => combineLoop preparers req

/-- Go `CombinePreparer`. -/
def CombinePreparer (preparers : List Preparer) : Preparer :=
  fun req => combineLoop preparers req

end Http

namespace Http

/-- The bytes of a Go string: the UTF-8 encoding of one character. -/
def utf8Char (c : Char) : List Nat :=
  let n := c.toNat
  if n < 128 then [n]
  else if n < 2048 then [192 + n / 64, 128 + n % 64]
  else if n < 65536 then [224 + n / 4096, 128 + n / 64 % 64, 128 + n % 64]
  else [240 + n / 262144, 128 + n / 4096 % 64, 128 + n / 64 % 64, 128 + n % 64]

/-- Go `[]byte(s)`. -/
def stringBytes (s : String) : Bytes := s.data.flatMap utf8Char

/-- The digit of the standard base64 alphabet for a value below 64. -/
def base64Digit (n : Nat) : Char :=
  "ABCDEFGHIJKLMNOPQRSTUVWXYZabcdefghijklmnopqrstuvwxyz0123456789+/".data.getD n '='

/-- Go `base64.StdEncoding`, on bytes: three bytes give four digits, the rest is padded
with `=`. -/
def base64Encode : List Nat → List Char
  | [] => []
  | [a] => [base64Digit (a / 4), base64Digit (a % 4 * 16), '=', '=']
  | [a, b] =>
    [base64Digit (a / 4), base64Digit (a % 4 * 16 + b / 16), base64Digit (b % 16 * 4), '=']
  | a :: b :: c :: rest =>
    base64Digit (a / 4) :: base64Digit (a % 4 * 16 + b / 16) ::
      base64Digit (b % 16 * 4 + c / 64) :: base64Digit (c % 64) :: base64Encode rest

/-- Go `base64.StdEncoding.EncodeToString([]byte(s))`. -/
def EncodeToString (s : String) : String :=
  String.mk (base64Encode (stringBytes s))

end Http

/-! ## Addresses as hex strings (`go-ethereum/common`) -/

/-- The bytes of the address are twenty and each is a byte, as in the Go type
`[20]byte`. -/
def Address.wellFormed (a : Address) : Prop :=
  a.bytes.length = 20 ∧ ∀ b ∈ a.bytes, b < 256

namespace Ethcommon

/-- The lower-case hex digit of a value below 16. -/
def hexDigit (n : Nat) : Char := "0123456789abcdef".data.getD n '0'

/-- The lower-case hex digits of bytes, two for each. -/
def lowerHex (bytes : List Nat) : List Char :=
  bytes.flatMap (fun b => [hexDigit (b / 16), hexDigit (b % 16)])

/-- The body of the loop of `checksumHex` for the digit `c` at position `j`: a letter is
put in upper case when the matching half byte of the hash is above 7. -/
def checksumAt (hash : List Nat) (j : Nat) (c : Char) : Char :=
  let hashByte := hash.getD (j / 2) 0
  let hashByte := if j % 2 = 0 then hashByte / 16 else hashByte % 16
  if c.toNat > 57 ∧ hashByte > 7 then Char.ofNat (c.toNat - 32) else c

/-- The loop of `checksumHex` over the digits from position `j` on. -/
def checksumFrom (hash : List Nat) : Nat → List Char → List Char
  | _, [] => []
  | j, c :: cs => checksumAt hash j c :: checksumFrom hash (j + 1) cs

/-- Go `Address.Hex`: `0x` and the forty hex digits of the address, in the mixed case of
EIP-55; `Keccak256` is the hash of the lower-case digits. -/
def Hex (Keccak256 : List Nat → List Nat) (a : Address) : String :=
  String.mk ('0' :: 'x' ::
    checksumFrom (Keccak256 ((lowerHex a.bytes).map Char.toNat)) 0 (lowerHex a.bytes))

/-- The value of a hex digit, in either case. -/
def fromHexChar (c : Char) : Option Nat :=
  let n := c.toNat
  if 48 ≤ n ∧ n ≤ 57 then some (n - 48)
  else if 97 ≤ n ∧ n ≤ 102 then some (n - 87)
  else if 65 ≤ n ∧ n ≤ 70 then some (n - 55)
  else none

/-- Go `Hex2Bytes`, that is `hex.DecodeString` without its error: the bytes of the pairs
of digits up to the first digit that is not one. -/
def Hex2Bytes : List Char → List Nat
  | p :: q :: rest =>
    match fromHexChar p, fromHexChar q with
    | some a, some b => (a * 16 + b) :: Hex2Bytes rest
    | _, _ => []
  | _ => []

/-- Go `FromHex`: without the prefix `0x` or `0X`, with a `0` in front of an odd number
of digits. -/
def FromHex (s : List Char) : List Nat :=
  let s :=
    match s with
    | '0' :: 'x' :: rest => rest
    | '0' :: 'X' :: rest => rest
    | _ => s
  let s := if s.length % 2 = 1 then '0' :: s else s
  Hex2Bytes s

/-- Go `BytesToAddress`: the last twenty bytes, filled with zeros on the left. -/
def BytesToAddress (b : List Nat) : Address :=
  let b := if b.length > 20 then b.drop (b.length - 20) else b
  ⟨List.replicate (20 - b.length) 0 ++ b⟩

/-- Go `HexToAddress`. -/
def HexToAddress (s : String) : Address := BytesToAddress (FromHex s.data)

end Ethcommon

/-! ## The database model of an account (`src/stores/database/models/ethereum.go`) -/

namespace Models

/-- Go `models.ETHAccount`. -/
structure ETHAccount where
  Address : String
  StoreID : String
  KeyID : String
  PublicKey : Bytes
  CompressedPublicKey : Bytes
  Tags : List (String × String)
  Disabled : Bool
  CreatedAt : Nat
  UpdatedAt : Nat
  DeletedAt : Nat
  deriving DecidableEq, Repr

/-- Go `NewETHAccount`; reading through a nil `Metadata` panics: `none`. -/
def NewETHAccount (Keccak256 : List Nat → List Nat) (account : QKM.ETHAccount) :
    Option ETHAccount :=
  match account.Metadata with
  | none => none
  | some metadata =>
    some { Address := Ethcommon.Hex Keccak256 account.Address
           StoreID := ""
           KeyID := account.KeyID
           PublicKey := account.PublicKey
           CompressedPublicKey := account.CompressedPublicKey
           Tags := account.Tags
           Disabled := metadata.Disabled
           CreatedAt := metadata.CreatedAt
           UpdatedAt := metadata.UpdatedAt
           DeletedAt := metadata.DeletedAt }

/-- Go `ETHAccount.ToEntity`. -/
def ETHAccount.ToEntity (eth : ETHAccount) : QKM.ETHAccount :=
  { Address := Ethcommon.HexToAddress eth.Address
    KeyID := eth.KeyID
    PublicKey := eth.PublicKey
    CompressedPublicKey := eth.CompressedPublicKey
    Metadata := some { Disabled := eth.Disabled, CreatedAt := eth.CreatedAt,
                       UpdatedAt := eth.UpdatedAt, DeletedAt := eth.DeletedAt }
    Tags := eth.Tags }

end Models

namespace Sample

/-- An account with a twenty-byte address and metadata. -/
def storedAccount : ETHAccount :=
  { Address := ⟨[219, 184, 129, 165, 28, 212, 2, 62, 68, 0, 206, 243, 239, 115, 4, 103, 67,
                 240, 141, 163]⟩
    KeyID := "key-1", PublicKey := [4, 1, 2], CompressedPublicKey := [2, 1],
    Metadata := some { Disabled := false, CreatedAt := 100, UpdatedAt := 200, DeletedAt := 0 }
    Tags := [("env", "test")] }

/-- A stand-in for the hash: every half byte is above 7, so every letter is put in upper
case. -/
def allUpper : List Nat → List Nat := fun _ => List.replicate 32 255

end Sample

namespace Json

mutual

/-- Every `map[interface{}]interface{}` that `RecursiveToJSON` visits has string keys
only: the value itself, the elements of a `[]interface{}` and the values of a
`map[interface{}]interface{}` are visited, nothing else. -/
def GoValue.visitedKeysAreStrings : GoValue → Bool
  | GoValue.slice vs => GoValue.elementsVisitedKeysAreStrings vs
  | GoValue.mapAny kvs => GoValue.entriesVisitedKeysAreStrings kvs
  | _ => true

def GoValue.elementsVisitedKeysAreStrings : List GoValue → Bool
  | [] => true
  | v :: vs => GoValue.visitedKeysAreStrings v && GoValue.elementsVisitedKeysAreStrings vs

def GoValue.entriesVisitedKeysAreStrings : List (GoValue × GoValue) → Bool
  | [] => true
  | (k, v) :: kvs =>
    GoValue.isStr k && GoValue.visitedKeysAreStrings v &&
      GoValue.entriesVisitedKeysAreStrings kvs

end

end Json

/-! ## Theorems -/

section Connectors

variable {σ κ σ' κ' : Type}

/-- The (read, .) check that the Ethereum `Restore` reaches through `Get` is not the end
of the operation: when it returns an error, `Restore` drops the error and asks for the
soft-deleted row; it returns the error of `GetDeleted`, or runs the transaction. -/
theorem Eth.eth_Restore_read_refused (Hex : Address → String) (c : Eth.Connector σ κ)
    (addr : Address) (w : World σ κ) (err : Error)
    (hp : c.authorizator.CheckPermission ⟨Action.delete, Resource.ethAccount⟩ = none)
    (hr : c.authorizator.CheckPermission ⟨Action.read, Resource.ethAccount⟩ = some err) :
    Eth.Restore Hex c addr w =
      match c.db.GetDeleted w.db (Hex addr) with
      | Except.error e =>
        (some e, { w with calls := w.calls ++
          [Call.checkPermission ⟨Action.delete, Resource.ethAccount⟩,
           Call.checkPermission ⟨Action.read, Resource.ethAccount⟩,
           Call.dbGetDeleted (Hex addr)] })
      | Except.ok acc =>
        RunInTransaction (Eth.restoreTx Hex c addr acc) { w with calls := w.calls ++
          [Call.checkPermission ⟨Action.delete, Resource.ethAccount⟩,
           Call.checkPermission ⟨Action.read, Resource.ethAccount⟩,
           Call.dbGetDeleted (Hex addr)] } := by
  unfold Eth.Restore Eth.Get
  cases hd : c.db.GetDeleted w.db (Hex addr) with
  | error e1 => simp [hp, hr, hd, World.log]
  | ok acc =>
    simp only [hp, hr, hd, World.log]
    split <;> simp_all

theorem Keys.keys_Restore_read_refused (c : Keys.Connector σ κ) (id : String) (w : World σ κ)
    (err : Error)
    (hp : c.authorizator.CheckPermission ⟨Action.delete, Resource.key⟩ = none)
    (hr : c.authorizator.CheckPermission ⟨Action.read, Resource.key⟩ = some err) :
    Keys.Restore c id w =
      match c.db.GetDeleted w.db id with
      | Except.error e =>
        (some e, { w with calls := w.calls ++
          [Call.checkPermission ⟨Action.delete, Resource.key⟩,
           Call.checkPermission ⟨Action.read, Resource.key⟩,
           Call.dbGetDeleted id] })
      | Except.ok _ =>
        RunInTransaction (Keys.restoreTx c id) { w with calls := w.calls ++
          [Call.checkPermission ⟨Action.delete, Resource.key⟩,
           Call.checkPermission ⟨Action.read, Resource.key⟩,
           Call.dbGetDeleted id] } := by
  unfold Keys.Restore Keys.Get
  cases hd : c.db.GetDeleted w.db id with
  | error e1 => simp [hp, hr, hd, World.log]
  | ok acc =>
    simp only [hp, hr, hd, World.log]
    split <;> simp_all

/-- C1, counterexample: a caller who may delete but not read restores the soft-deleted
sample account.  The (read, ethAccount) check that `Restore` makes through `Get` returns
`Forbidden`; `Restore` does not return that error: it returns `nil` after `GetDeleted`,
`RunInTransaction`, the database's `Restore` and the store's `Restore`, the row is live and
the store has served a call.  And keys `Create` with a nil algorithm, for a caller to whom
the authorizator refuses (write, key), does not return that error: it panics before it
asks. -/
theorem C1_read_check_error_is_discarded :
    (Sample.grants [⟨Action.delete, Resource.ethAccount⟩]).CheckPermission
        ⟨Action.read, Resource.ethAccount⟩ = some Sample.forbidden ∧
    Eth.Restore Sample.Hex
        ⟨Sample.storeWithRestore, Sample.ethAccounts,
          Sample.grants [⟨Action.delete, Resource.ethAccount⟩]⟩ Sample.addr
        ⟨Sample.deletedTable, 0, []⟩
      = (none,
         ⟨Sample.liveTable, 1,
          [Call.checkPermission ⟨Action.delete, Resource.ethAccount⟩,
           Call.checkPermission ⟨Action.read, Resource.ethAccount⟩,
           Call.dbGetDeleted "ab", Call.dbRunInTransaction, Call.dbRestore "ab",
           Call.storeRestore "key-1"]⟩) ∧
    (Sample.grants []).CheckPermission ⟨Action.write, Resource.key⟩
      = some Sample.forbidden ∧
    Keys.Create ⟨Sample.storeWithRestore, Sample.keys, Sample.grants []⟩ "key-1" none ⟨[]⟩
        ⟨Sample.deletedKeyTable, 0, []⟩
      = (none, ⟨Sample.deletedKeyTable, 0, []⟩) :=
  ⟨by decide, rfl, by decide, rfl⟩

/-- C1 (amended): when the operation's own call to `CheckPermission`, which is the first
call it makes, for (encrypt, ethAccount), (delete, ethAccount), (write, key) or (delete,
key), returns an error, Ethereum `Encrypt` and `Restore` and keys `Create` (given an
algorithm) and `Restore` return exactly that error, with no result value, and the world
after the call is the world before it with the single call `CheckPermission` recorded:
no call to the account database or the backing store is made, and neither state changes.
An error of the (read, .) check that `Restore` reaches afterwards through `Get` is not
returned: `Restore` goes on to `GetDeleted` and returns its error, or runs the
transaction.  Keys `Create` with a nil algorithm panics before the check, and the world is
the one it was given. -/
theorem C1_own_permission_error_aborts (Hex : Address → String) (ec : Eth.Connector σ κ)
    (kc : Keys.Connector σ' κ') (w : World σ κ) (w' : World σ' κ') (err : Error)
    (addr : Address) (data : Bytes) (id : String) (alg : Algorithm) (attr : Attributes) :
    (ec.authorizator.CheckPermission ⟨Action.encrypt, Resource.ethAccount⟩ = some err →
      Eth.Encrypt Hex ec addr data w
        = (Except.error err,
           { w with calls := w.calls ++
              [Call.checkPermission ⟨Action.encrypt, Resource.ethAccount⟩] })) ∧
    (ec.authorizator.CheckPermission ⟨Action.delete, Resource.ethAccount⟩ = some err →
      Eth.Restore Hex ec addr w
        = (some err,
           { w with calls := w.calls ++
              [Call.checkPermission ⟨Action.delete, Resource.ethAccount⟩] })) ∧
    (kc.authorizator.CheckPermission ⟨Action.write, Resource.key⟩ = some err →
      Keys.Create kc id (some alg) attr w'
        = (some (Except.error err),
           { w' with calls := w'.calls ++
              [Call.checkPermission ⟨Action.write, Resource.key⟩] })) ∧
    (kc.authorizator.CheckPermission ⟨Action.delete, Resource.key⟩ = some err →
      Keys.Restore kc id w'
        = (some err,
           { w' with calls := w'.calls ++
              [Call.checkPermission ⟨Action.delete, Resource.key⟩] })) ∧
    (ec.authorizator.CheckPermission ⟨Action.delete, Resource.ethAccount⟩ = none →
      ec.authorizator.CheckPermission ⟨Action.read, Resource.ethAccount⟩ = some err →
      Eth.Restore Hex ec addr w =
        match ec.db.GetDeleted w.db (Hex addr) with
        | Except.error e =>
          (some e, { w with calls := w.calls ++
            [Call.checkPermission ⟨Action.delete, Resource.ethAccount⟩,
             Call.checkPermission ⟨Action.read, Resource.ethAccount⟩,
             Call.dbGetDeleted (Hex addr)] })
        | Except.ok acc =>
          RunInTransaction (Eth.restoreTx Hex ec addr acc) { w with calls := w.calls ++
            [Call.checkPermission ⟨Action.delete, Resource.ethAccount⟩,
             Call.checkPermission ⟨Action.read, Resource.ethAccount⟩,
             Call.dbGetDeleted (Hex addr)] }) ∧
    (kc.authorizator.CheckPermission ⟨Action.delete, Resource.key⟩ = none →
      kc.authorizator.CheckPermission ⟨Action.read, Resource.key⟩ = some err →
      Keys.Restore kc id w' =
        match kc.db.GetDeleted w'.db id with
        | Except.error e =>
          (some e, { w' with calls := w'.calls ++
            [Call.checkPermission ⟨Action.delete, Resource.key⟩,
             Call.checkPermission ⟨Action.read, Resource.key⟩,
             Call.dbGetDeleted id] })
        | Except.ok _ =>
          RunInTransaction (Keys.restoreTx kc id) { w' with calls := w'.calls ++
            [Call.checkPermission ⟨Action.delete, Resource.key⟩,
             Call.checkPermission ⟨Action.read, Resource.key⟩,
             Call.dbGetDeleted id] }) ∧
    Keys.Create kc id none attr w' = (none, w') := by
  refine ⟨?_, ?_, ?_, ?_, ?_, ?_, rfl⟩
  · intro h; simp [Eth.Encrypt, h, World.log]
  · intro h; simp [Eth.Restore, h, World.log]
  · intro h; simp [Keys.Create, h, World.log]
  · intro h; simp [Keys.Restore, h, World.log]
  · intro hp hr; exact Eth.eth_Restore_read_refused Hex ec addr w err hp hr
  · intro hp hr; exact Keys.keys_Restore_read_refused kc id w' err hp hr

/-- C1, run: a caller who may only read is refused by the Ethereum `Restore` at its own
check, and the sample database and store are not called. -/
theorem C1_own_permission_error_aborts_witness :
    Eth.Restore Sample.Hex
        ⟨Sample.storeWithRestore, Sample.ethAccounts,
          Sample.grants [⟨Action.read, Resource.ethAccount⟩]⟩ Sample.addr
        ⟨Sample.deletedTable, 0, []⟩
      = (some Sample.forbidden,
         ⟨Sample.deletedTable, 0,
          [Call.checkPermission ⟨Action.delete, Resource.ethAccount⟩]⟩) :=
  (C1_own_permission_error_aborts Sample.Hex
    ⟨Sample.storeWithRestore, Sample.ethAccounts,
      Sample.grants [⟨Action.read, Resource.ethAccount⟩]⟩
    ⟨Sample.storeWithRestore, Sample.keys, Sample.grants []⟩
    ⟨Sample.deletedTable, 0, []⟩ ⟨Sample.deletedKeyTable, 0, []⟩ Sample.forbidden
    Sample.addr [] "key-1" Sample.algo ⟨[]⟩).2.1 (by decide)

/-! ### The connector's `Get` reads only -/

theorem Eth.eth_Get_ok_iff (Hex : Address → String) (c : Eth.Connector σ κ) (addr : Address)
    (w : World σ κ) (acc : ETHAccount) :
    (Eth.Get Hex c addr w).1 = Except.ok acc ↔
      c.authorizator.CheckPermission ⟨Action.read, Resource.ethAccount⟩ = none ∧
      c.db.Get w.db (Hex addr) = Except.ok acc := by
  unfold Eth.Get
  cases h : c.authorizator.CheckPermission ⟨Action.read, Resource.ethAccount⟩ with
  | some e => simp
  | none =>
    cases hg : c.db.Get w.db (Hex addr) with
    | error e => simp [World.log, hg]
    | ok a => simp [World.log, hg]

theorem Keys.keys_Get_ok_iff (c : Keys.Connector σ κ) (id : String) (w : World σ κ) (key : Key) :
    (Keys.Get c id w).1 = Except.ok key ↔
      c.authorizator.CheckPermission ⟨Action.read, Resource.key⟩ = none ∧
      c.db.Get w.db id = Except.ok key := by
  unfold Keys.Get
  cases h : c.authorizator.CheckPermission ⟨Action.read, Resource.key⟩ with
  | some e => simp
  | none =>
    cases hg : c.db.Get w.db id with
    | error e => simp [World.log, hg]
    | ok a => simp [World.log, hg]

/-- The calls the connector's `Get` makes: the permission check, and the database read
when the check passes. -/
theorem Eth.eth_Get_world (Hex : Address → String) (c : Eth.Connector σ κ) (addr : Address)
    (w : World σ κ) :
    (Eth.Get Hex c addr w).2 =
      { w with calls := w.calls ++
          (Call.checkPermission ⟨Action.read, Resource.ethAccount⟩ ::
            if c.authorizator.CheckPermission ⟨Action.read, Resource.ethAccount⟩ = none
            then [Call.dbGet (Hex addr)] else []) } := by
  unfold Eth.Get
  cases h : c.authorizator.CheckPermission ⟨Action.read, Resource.ethAccount⟩ with
  | some e => simp [World.log]
  | none =>
    cases hg : c.db.Get w.db (Hex addr) with
    | error e => simp [World.log, hg]
    | ok a => simp [World.log, hg]

theorem Keys.keys_Get_world (c : Keys.Connector σ κ) (id : String) (w : World σ κ) :
    (Keys.Get c id w).2 =
      { w with calls := w.calls ++
          (Call.checkPermission ⟨Action.read, Resource.key⟩ ::
            if c.authorizator.CheckPermission ⟨Action.read, Resource.key⟩ = none
            then [Call.dbGet id] else []) } := by
  unfold Keys.Get
  cases h : c.authorizator.CheckPermission ⟨Action.read, Resource.key⟩ with
  | some e => simp [World.log]
  | none =>
    cases hg : c.db.Get w.db id with
    | error e => simp [World.log, hg]
    | ok a => simp [World.log, hg]

/-- Whether the connector's `Get` succeeds depends on the database state only. -/
theorem Eth.eth_Get_result_congr (Hex : Address → String) (c : Eth.Connector σ κ)
    (addr : Address) (w w1 : World σ κ) (h : w1.db = w.db) :
    (Eth.Get Hex c addr w1).1 = (Eth.Get Hex c addr w).1 := by
  unfold Eth.Get
  cases hp : c.authorizator.CheckPermission ⟨Action.read, Resource.ethAccount⟩ with
  | some e => simp
  | none =>
    simp only [World.log, h]
    cases hg : c.db.Get w.db (Hex addr) <;> simp

theorem Keys.keys_Get_result_congr (c : Keys.Connector σ κ) (id : String) (w w1 : World σ κ)
    (h : w1.db = w.db) : (Keys.Get c id w1).1 = (Keys.Get c id w).1 := by
  unfold Keys.Get
  cases hp : c.authorizator.CheckPermission ⟨Action.read, Resource.key⟩ with
  | some e => simp
  | none =>
    simp only [World.log, h]
    cases hg : c.db.Get w.db id <;> simp

/-- A `Restore` on a live account: nothing but the two permission checks and the read. -/
theorem Eth.eth_Restore_live (Hex : Address → String) (c : Eth.Connector σ κ) (addr : Address)
    (w : World σ κ) (acc : ETHAccount)
    (hp : c.authorizator.CheckPermission ⟨Action.delete, Resource.ethAccount⟩ = none)
    (hg : (Eth.Get Hex c addr w).1 = Except.ok acc) :
    Eth.Restore Hex c addr w
      = (none, { w with calls := w.calls ++
          [Call.checkPermission ⟨Action.delete, Resource.ethAccount⟩,
           Call.checkPermission ⟨Action.read, Resource.ethAccount⟩,
           Call.dbGet (Hex addr)] }) := by
  obtain ⟨hr, hd⟩ := (Eth.eth_Get_ok_iff Hex c addr w acc).1 hg
  simp [Eth.Restore, Eth.Get, hp, hr, hd, World.log]

theorem Keys.keys_Restore_live (c : Keys.Connector σ κ) (id : String) (w : World σ κ) (key : Key)
    (hp : c.authorizator.CheckPermission ⟨Action.delete, Resource.key⟩ = none)
    (hg : (Keys.Get c id w).1 = Except.ok key) :
    Keys.Restore c id w
      = (none, { w with calls := w.calls ++
          [Call.checkPermission ⟨Action.delete, Resource.key⟩,
           Call.checkPermission ⟨Action.read, Resource.key⟩,
           Call.dbGet id] }) := by
  obtain ⟨hr, hd⟩ := (Keys.keys_Get_ok_iff c id w key).1 hg
  simp [Keys.Restore, Keys.Get, hp, hr, hd, World.log]

/-- After a successful `Restore` the account is live, for a caller who may read and a
database whose `Restore` leaves the row live. -/
theorem Eth.eth_Restore_ok_live (Hex : Address → String) (c : Eth.Connector σ κ)
    (addr : Address) (w : World σ κ)
    (hr : c.authorizator.CheckPermission ⟨Action.read, Resource.ethAccount⟩ = none)
    (hlaw : ∀ d, (c.db.Restore d (Hex addr)).1 = none →
      ∃ a, c.db.Get (c.db.Restore d (Hex addr)).2 (Hex addr) = Except.ok a)
    (hs : (Eth.Restore Hex c addr w).1 = none) :
    c.authorizator.CheckPermission ⟨Action.delete, Resource.ethAccount⟩ = none ∧
    ∃ a, (Eth.Get Hex c addr (Eth.Restore Hex c addr w).2).1 = Except.ok a := by
  cases hp : c.authorizator.CheckPermission ⟨Action.delete, Resource.ethAccount⟩ with
  | some e => simp [Eth.Restore, hp] at hs
  | none =>
    refine ⟨rfl, ?_⟩
    cases hg : c.db.Get w.db (Hex addr) with
    | ok a =>
      refine ⟨a, ?_⟩
      rw [Eth.eth_Get_ok_iff]
      simp [Eth.Restore, Eth.Get, hp, hr, hg, World.log]
    | error e =>
      cases hd : c.db.GetDeleted w.db (Hex addr) with
      | error e1 => simp [Eth.Restore, Eth.Get, hp, hr, hg, hd, World.log] at hs
      | ok acc =>
        rcases hx : c.db.Restore w.db (Hex addr) with ⟨_ | e1, d⟩
        · have hl := hlaw w.db (by rw [hx])
          rw [hx] at hl
          obtain ⟨a, ha⟩ := hl
          refine ⟨a, ?_⟩
          rw [Eth.eth_Get_ok_iff]
          refine ⟨hr, ?_⟩
          rcases hy : c.store.Restore w.store acc.KeyID with ⟨_ | e2, st⟩
          · simp [Eth.Restore, Eth.Get, hp, hr, hg, hd, RunInTransaction, Eth.restoreTx,
              hx, hy, World.log, ha]
          · by_cases hn : IsNotSupportedError e2 = true
            · simp [Eth.Restore, Eth.Get, hp, hr, hg, hd, RunInTransaction, Eth.restoreTx,
                hx, hy, World.log, ha, hn]
            · simp [Eth.Restore, Eth.Get, hp, hr, hg, hd, RunInTransaction, Eth.restoreTx,
                hx, hy, World.log, hn] at hs
        · simp [Eth.Restore, Eth.Get, hp, hr, hg, hd, RunInTransaction, Eth.restoreTx,
            hx, World.log] at hs

theorem Keys.keys_Restore_ok_live (c : Keys.Connector σ κ) (id : String) (w : World σ κ)
    (hr : c.authorizator.CheckPermission ⟨Action.read, Resource.key⟩ = none)
    (hlaw : ∀ d, (c.db.Restore d id).1 = none →
      ∃ a, c.db.Get (c.db.Restore d id).2 id = Except.ok a)
    (hs : (Keys.Restore c id w).1 = none) :
    c.authorizator.CheckPermission ⟨Action.delete, Resource.key⟩ = none ∧
    ∃ a, (Keys.Get c id (Keys.Restore c id w).2).1 = Except.ok a := by
  cases hp : c.authorizator.CheckPermission ⟨Action.delete, Resource.key⟩ with
  | some e => simp [Keys.Restore, hp] at hs
  | none =>
    refine ⟨rfl, ?_⟩
    cases hg : c.db.Get w.db id with
    | ok a =>
      refine ⟨a, ?_⟩
      rw [Keys.keys_Get_ok_iff]
      simp [Keys.Restore, Keys.Get, hp, hr, hg, World.log]
    | error e =>
      cases hd : c.db.GetDeleted w.db id with
      | error e1 => simp [Keys.Restore, Keys.Get, hp, hr, hg, hd, World.log] at hs
      | ok acc =>
        rcases hx : c.db.Restore w.db id with ⟨_ | e1, d⟩
        · have hl := hlaw w.db (by rw [hx])
          rw [hx] at hl
          obtain ⟨a, ha⟩ := hl
          refine ⟨a, ?_⟩
          rw [Keys.keys_Get_ok_iff]
          refine ⟨hr, ?_⟩
          rcases hy : c.store.Restore w.store id with ⟨_ | e2, st⟩
          · simp [Keys.Restore, Keys.Get, hp, hr, hg, hd, RunInTransaction, Keys.restoreTx,
              hx, hy, World.log, ha]
          · by_cases hn : IsNotSupportedError e2 = true
            · simp [Keys.Restore, Keys.Get, hp, hr, hg, hd, RunInTransaction, Keys.restoreTx,
                hx, hy, World.log, ha, hn]
            · simp [Keys.Restore, Keys.Get, hp, hr, hg, hd, RunInTransaction, Keys.restoreTx,
                hx, hy, World.log, hn] at hs
        · simp [Keys.Restore, Keys.Get, hp, hr, hg, hd, RunInTransaction, Keys.restoreTx,
            hx, World.log] at hs

/-- The sample table keeps the contract of `Restore`: the restored row is live. -/
theorem Sample.Table.Restore_then_Get {α : Type} (id : String) (t : Sample.Table α)
    (h : (Sample.Table.Restore t id).1 = none) :
    ∃ a, Sample.Table.Get (Sample.Table.Restore t id).2 id = Except.ok a := by
  unfold Sample.Table.Restore at h ⊢
  by_cases hany : t.any (fun r => r.id == id && r.deleted) = true
  · simp only [hany, if_true]
    clear h
    unfold Sample.Table.Get
    induction t with
    | nil => simp at hany
    | cons r rs ih =>
      by_cases hr : r.id = id
      · simp [List.find?, hr]
      · have hb : (r.id == id) = false := by simpa using hr
        have hrs : rs.any (fun r => r.id == id && r.deleted) = true := by
          simpa [hb] using hany
        simpa [List.find?, hr, hb] using ih hrs
  · simp [hany] at h

/-- C2, counterexample: a second `Restore` after a successful one that is not a no-op.
A caller who may delete but not read restores the soft-deleted sample account; the second
`Restore` does not return success: `Get` fails again on the (read, ethAccount) check, the
row is no longer soft-deleted, and `Restore` returns the `NotFound` of `GetDeleted`.  And
with a database whose `Restore` answers `nil` and leaves the row soft-deleted, a caller who
may do everything restores twice: the second `Restore` runs the transaction again and the
store serves a second call. -/
theorem C2_second_restore_is_not_a_noop :
    (Eth.Restore Sample.Hex
        ⟨Sample.storeWithRestore, Sample.ethAccounts,
          Sample.grants [⟨Action.delete, Resource.ethAccount⟩]⟩ Sample.addr
        ⟨Sample.deletedTable, 0, []⟩).1 = none ∧
    Eth.Restore Sample.Hex
        ⟨Sample.storeWithRestore, Sample.ethAccounts,
          Sample.grants [⟨Action.delete, Resource.ethAccount⟩]⟩ Sample.addr
        (Eth.Restore Sample.Hex
          ⟨Sample.storeWithRestore, Sample.ethAccounts,
            Sample.grants [⟨Action.delete, Resource.ethAccount⟩]⟩ Sample.addr
          ⟨Sample.deletedTable, 0, []⟩).2
      = (some Sample.notFound,
         ⟨Sample.liveTable, 1,
          [Call.checkPermission ⟨Action.delete, Resource.ethAccount⟩,
           Call.checkPermission ⟨Action.read, Resource.ethAccount⟩,
           Call.dbGetDeleted "ab", Call.dbRunInTransaction, Call.dbRestore "ab",
           Call.storeRestore "key-1",
           Call.checkPermission ⟨Action.delete, Resource.ethAccount⟩,
           Call.checkPermission ⟨Action.read, Resource.ethAccount⟩,
           Call.dbGetDeleted "ab"]⟩) ∧
    Eth.Restore Sample.Hex
        ⟨Sample.storeWithRestore, Sample.ethAccountsKeepDeleted, Sample.grants Sample.allOps⟩
        Sample.addr ⟨Sample.deletedTable, 0, []⟩
      = (none,
         ⟨Sample.deletedTable, 1,
          [Call.checkPermission ⟨Action.delete, Resource.ethAccount⟩,
           Call.checkPermission ⟨Action.read, Resource.ethAccount⟩, Call.dbGet "ab",
           Call.dbGetDeleted "ab", Call.dbRunInTransaction, Call.dbRestore "ab",
           Call.storeRestore "key-1"]⟩) ∧
    Eth.Restore Sample.Hex
        ⟨Sample.storeWithRestore, Sample.ethAccountsKeepDeleted, Sample.grants Sample.allOps⟩
        Sample.addr
        (Eth.Restore Sample.Hex
          ⟨Sample.storeWithRestore, Sample.ethAccountsKeepDeleted,
            Sample.grants Sample.allOps⟩
          Sample.addr ⟨Sample.deletedTable, 0, []⟩).2
      = (none,
         ⟨Sample.deletedTable, 2,
          [Call.checkPermission ⟨Action.delete, Resource.ethAccount⟩,
           Call.checkPermission ⟨Action.read, Resource.ethAccount⟩, Call.dbGet "ab",
           Call.dbGetDeleted "ab", Call.dbRunInTransaction, Call.dbRestore "ab",
           Call.storeRestore "key-1",
           Call.checkPermission ⟨Action.delete, Resource.ethAccount⟩,
           Call.checkPermission ⟨Action.read, Resource.ethAccount⟩, Call.dbGet "ab",
           Call.dbGetDeleted "ab", Call.dbRunInTransaction, Call.dbRestore "ab",
           Call.storeRestore "key-1"]⟩) :=
  ⟨by decide, rfl, rfl, rfl⟩

/-- C2 (amended): on a live account (the connector's `Get` succeeds) and with the
permission to restore, `Restore` of the Ethereum and of the keys connector returns success
having made only its permission check and the calls of `Get`: no `GetDeleted`,
`RunInTransaction`, database `Restore` or store `Restore`, and database and store are
unchanged; a second `Restore` does the same.  After any successful `Restore`, a second
`Restore` is such a no-op for a caller who may also read and a database whose `Restore`
leaves the row live.  For a caller who may restore but not read, no `Restore` is a no-op,
in whatever world it runs, the one a successful `Restore` has left included: `Get` fails,
and `Restore` asks for the soft-deleted row and returns the error of `GetDeleted`, or runs
the transaction. -/
theorem C2_restore_is_noop_when_get_succeeds (Hex : Address → String)
    (ec : Eth.Connector σ κ) (kc : Keys.Connector σ' κ') (w : World σ κ) (w' : World σ' κ')
    (addr : Address) (id : String) :
    (∀ acc, ec.authorizator.CheckPermission ⟨Action.delete, Resource.ethAccount⟩ = none →
      (Eth.Get Hex ec addr w).1 = Except.ok acc →
      Eth.Restore Hex ec addr w
        = (none, { w with calls := w.calls ++
            [Call.checkPermission ⟨Action.delete, Resource.ethAccount⟩,
             Call.checkPermission ⟨Action.read, Resource.ethAccount⟩,
             Call.dbGet (Hex addr)] }) ∧
      Eth.Restore Hex ec addr (Eth.Restore Hex ec addr w).2
        = (none, { w with calls := (w.calls ++
            [Call.checkPermission ⟨Action.delete, Resource.ethAccount⟩,
             Call.checkPermission ⟨Action.read, Resource.ethAccount⟩,
             Call.dbGet (Hex addr)]) ++
            [Call.checkPermission ⟨Action.delete, Resource.ethAccount⟩,
             Call.checkPermission ⟨Action.read, Resource.ethAccount⟩,
             Call.dbGet (Hex addr)] })) ∧
    (∀ key, kc.authorizator.CheckPermission ⟨Action.delete, Resource.key⟩ = none →
      (Keys.Get kc id w').1 = Except.ok key →
      Keys.Restore kc id w'
        = (none, { w' with calls := w'.calls ++
            [Call.checkPermission ⟨Action.delete, Resource.key⟩,
             Call.checkPermission ⟨Action.read, Resource.key⟩,
             Call.dbGet id] }) ∧
      Keys.Restore kc id (Keys.Restore kc id w').2
        = (none, { w' with calls := (w'.calls ++
            [Call.checkPermission ⟨Action.delete, Resource.key⟩,
             Call.checkPermission ⟨Action.read, Resource.key⟩,
             Call.dbGet id]) ++
            [Call.checkPermission ⟨Action.delete, Resource.key⟩,
             Call.checkPermission ⟨Action.read, Resource.key⟩,
             Call.dbGet id] })) ∧
    (ec.authorizator.CheckPermission ⟨Action.read, Resource.ethAccount⟩ = none →
      (∀ d, (ec.db.Restore d (Hex addr)).1 = none →
        ∃ a, ec.db.Get (ec.db.Restore d (Hex addr)).2 (Hex addr) = Except.ok a) →
      (Eth.Restore Hex ec addr w).1 = none →
      Eth.Restore Hex ec addr (Eth.Restore Hex ec addr w).2
        = (none, { (Eth.Restore Hex ec addr w).2 with
            calls := (Eth.Restore Hex ec addr w).2.calls ++
              [Call.checkPermission ⟨Action.delete, Resource.ethAccount⟩,
               Call.checkPermission ⟨Action.read, Resource.ethAccount⟩,
               Call.dbGet (Hex addr)] })) ∧
    (kc.authorizator.CheckPermission ⟨Action.read, Resource.key⟩ = none →
      (∀ d, (kc.db.Restore d id).1 = none →
        ∃ a, kc.db.Get (kc.db.Restore d id).2 id = Except.ok a) →
      (Keys.Restore kc id w').1 = none →
      Keys.Restore kc id (Keys.Restore kc id w').2
        = (none, { (Keys.Restore kc id w').2 with
            calls := (Keys.Restore kc id w').2.calls ++
              [Call.checkPermission ⟨Action.delete, Resource.key⟩,
               Call.checkPermission ⟨Action.read, Resource.key⟩,
               Call.dbGet id] })) ∧
    (∀ err (w1 : World σ κ),
      ec.authorizator.CheckPermission ⟨Action.delete, Resource.ethAccount⟩ = none →
      ec.authorizator.CheckPermission ⟨Action.read, Resource.ethAccount⟩ = some err →
      Eth.Restore Hex ec addr w1 =
        match ec.db.GetDeleted w1.db (Hex addr) with
        | Except.error e =>
          (some e, { w1 with calls := w1.calls ++
            [Call.checkPermission ⟨Action.delete, Resource.ethAccount⟩,
             Call.checkPermission ⟨Action.read, Resource.ethAccount⟩,
             Call.dbGetDeleted (Hex addr)] })
        | Except.ok acc =>
          RunInTransaction (Eth.restoreTx Hex ec addr acc) { w1 with calls := w1.calls ++
            [Call.checkPermission ⟨Action.delete, Resource.ethAccount⟩,
             Call.checkPermission ⟨Action.read, Resource.ethAccount⟩,
             Call.dbGetDeleted (Hex addr)] }) ∧
    (∀ err (w1 : World σ' κ'),
      kc.authorizator.CheckPermission ⟨Action.delete, Resource.key⟩ = none →
      kc.authorizator.CheckPermission ⟨Action.read, Resource.key⟩ = some err →
      Keys.Restore kc id w1 =
        match kc.db.GetDeleted w1.db id with
        | Except.error e =>
          (some e, { w1 with calls := w1.calls ++
            [Call.checkPermission ⟨Action.delete, Resource.key⟩,
             Call.checkPermission ⟨Action.read, Resource.key⟩,
             Call.dbGetDeleted id] })
        | Except.ok _ =>
          RunInTransaction (Keys.restoreTx kc id) { w1 with calls := w1.calls ++
            [Call.checkPermission ⟨Action.delete, Resource.key⟩,
             Call.checkPermission ⟨Action.read, Resource.key⟩,
             Call.dbGetDeleted id] }) := by
  refine ⟨?_, ?_, ?_, ?_, ?_, ?_⟩
  · intro acc hp hg
    have h1 := Eth.eth_Restore_live Hex ec addr w acc hp hg
    refine ⟨h1, ?_⟩
    rw [h1]
    have hg2 : (Eth.Get Hex ec addr
        { w with calls := w.calls ++
          [Call.checkPermission ⟨Action.delete, Resource.ethAccount⟩,
           Call.checkPermission ⟨Action.read, Resource.ethAccount⟩,
           Call.dbGet (Hex addr)] }).1 = Except.ok acc := by
      rw [← hg]; exact Eth.eth_Get_result_congr Hex ec addr w _ rfl
    exact Eth.eth_Restore_live Hex ec addr _ acc hp hg2
  · intro key hp hg
    have h1 := Keys.keys_Restore_live kc id w' key hp hg
    refine ⟨h1, ?_⟩
    rw [h1]
    have hg2 : (Keys.Get kc id
        { w' with calls := w'.calls ++
          [Call.checkPermission ⟨Action.delete, Resource.key⟩,
           Call.checkPermission ⟨Action.read, Resource.key⟩,
           Call.dbGet id] }).1 = Except.ok key := by
      rw [← hg]; exact Keys.keys_Get_result_congr kc id w' _ rfl
    exact Keys.keys_Restore_live kc id _ key hp hg2
  · intro hr hlaw hs
    obtain ⟨hp, a, ha⟩ := Eth.eth_Restore_ok_live Hex ec addr w hr hlaw hs
    exact Eth.eth_Restore_live Hex ec addr _ a hp ha
  · intro hr hlaw hs
    obtain ⟨hp, a, ha⟩ := Keys.keys_Restore_ok_live kc id w' hr hlaw hs
    exact Keys.keys_Restore_live kc id _ a hp ha
  · intro err w1 hp hr
    exact Eth.eth_Restore_read_refused Hex ec addr w1 err hp hr
  · intro err w1 hp hr
    exact Keys.keys_Restore_read_refused kc id w1 err hp hr

/-- C2, run: restoring the soft-deleted sample account twice, by a caller who may read; the
second `Restore` only checks the permissions and reads the row. -/
theorem C2_restore_is_noop_when_get_succeeds_witness :
    (Eth.Restore Sample.Hex
        ⟨Sample.storeWithRestore, Sample.ethAccounts, Sample.grants Sample.allOps⟩
        Sample.addr ⟨Sample.deletedTable, 0, []⟩).1 = none ∧
    Eth.Restore Sample.Hex
        ⟨Sample.storeWithRestore, Sample.ethAccounts, Sample.grants Sample.allOps⟩
        Sample.addr
        (Eth.Restore Sample.Hex
          ⟨Sample.storeWithRestore, Sample.ethAccounts, Sample.grants Sample.allOps⟩
          Sample.addr ⟨Sample.deletedTable, 0, []⟩).2
      = (none,
         { (Eth.Restore Sample.Hex
              ⟨Sample.storeWithRestore, Sample.ethAccounts, Sample.grants Sample.allOps⟩
              Sample.addr ⟨Sample.deletedTable, 0, []⟩).2 with
           calls := (Eth.Restore Sample.Hex
              ⟨Sample.storeWithRestore, Sample.ethAccounts, Sample.grants Sample.allOps⟩
              Sample.addr ⟨Sample.deletedTable, 0, []⟩).2.calls ++
            [Call.checkPermission ⟨Action.delete, Resource.ethAccount⟩,
             Call.checkPermission ⟨Action.read, Resource.ethAccount⟩,
             Call.dbGet (Sample.Hex Sample.addr)] }) :=
  ⟨by decide,
   (C2_restore_is_noop_when_get_succeeds Sample.Hex
      ⟨Sample.storeWithRestore, Sample.ethAccounts, Sample.grants Sample.allOps⟩
      ⟨Sample.storeWithRestore, Sample.keys, Sample.grants Sample.allOps⟩
      ⟨Sample.deletedTable, 0, []⟩ ⟨Sample.liveKeyTable, 0, []⟩ Sample.addr "key-1").2.2.1
     (by decide) (fun d h => Sample.Table.Restore_then_Get _ d h) (by decide)⟩

/-! ### `Restore` on an account that is not live -/

/-- The calls `Restore` has made when it has asked for the soft-deleted row: its permission
check, the calls of `Get`, and `GetDeleted`. -/
theorem Eth.eth_Restore_not_live (Hex : Address → String) (c : Eth.Connector σ κ)
    (addr : Address) (w : World σ κ) (e0 : Error)
    (hp : c.authorizator.CheckPermission ⟨Action.delete, Resource.ethAccount⟩ = none)
    (hg : (Eth.Get Hex c addr w).1 = Except.error e0) :
    Eth.Restore Hex c addr w =
      match c.db.GetDeleted w.db (Hex addr) with
      | Except.error err =>
        (some err, { w with calls := w.calls ++
          ([Call.checkPermission ⟨Action.delete, Resource.ethAccount⟩,
            Call.checkPermission ⟨Action.read, Resource.ethAccount⟩] ++
           (if c.authorizator.CheckPermission ⟨Action.read, Resource.ethAccount⟩ = none
            then [Call.dbGet (Hex addr)] else []) ++ [Call.dbGetDeleted (Hex addr)]) })
      | Except.ok acc =>
        RunInTransaction (Eth.restoreTx Hex c addr acc) { w with calls := w.calls ++
          ([Call.checkPermission ⟨Action.delete, Resource.ethAccount⟩,
            Call.checkPermission ⟨Action.read, Resource.ethAccount⟩] ++
           (if c.authorizator.CheckPermission ⟨Action.read, Resource.ethAccount⟩ = none
            then [Call.dbGet (Hex addr)] else []) ++ [Call.dbGetDeleted (Hex addr)]) } := by
  unfold Eth.Get at hg
  unfold Eth.Restore Eth.Get
  cases hr : c.authorizator.CheckPermission ⟨Action.read, Resource.ethAccount⟩ with
  | some e =>
    cases hd : c.db.GetDeleted w.db (Hex addr) with
    | error e1 => simp [hp, hd, World.log]
    | ok acc =>
      simp only [hp, hd, World.log]
      split <;> simp_all
  | none =>
    cases hdb : c.db.Get w.db (Hex addr) with
    | ok a => simp [hr, hdb, World.log] at hg
    | error e =>
      cases hd : c.db.GetDeleted w.db (Hex addr) with
      | error e1 => simp [hp, hdb, hd, World.log]
      | ok acc =>
        simp only [hp, hdb, hd, World.log]
        split <;> simp_all

theorem Keys.keys_Restore_not_live (c : Keys.Connector σ κ) (id : String) (w : World σ κ)
    (e0 : Error)
    (hp : c.authorizator.CheckPermission ⟨Action.delete, Resource.key⟩ = none)
    (hg : (Keys.Get c id w).1 = Except.error e0) :
    Keys.Restore c id w =
      match c.db.GetDeleted w.db id with
      | Except.error err =>
        (some err, { w with calls := w.calls ++
          ([Call.checkPermission ⟨Action.delete, Resource.key⟩,
            Call.checkPermission ⟨Action.read, Resource.key⟩] ++
           (if c.authorizator.CheckPermission ⟨Action.read, Resource.key⟩ = none
            then [Call.dbGet id] else []) ++ [Call.dbGetDeleted id]) })
      | Except.ok _ =>
        RunInTransaction (Keys.restoreTx c id) { w with calls := w.calls ++
          ([Call.checkPermission ⟨Action.delete, Resource.key⟩,
            Call.checkPermission ⟨Action.read, Resource.key⟩] ++
           (if c.authorizator.CheckPermission ⟨Action.read, Resource.key⟩ = none
            then [Call.dbGet id] else []) ++ [Call.dbGetDeleted id]) } := by
  unfold Keys.Get at hg
  unfold Keys.Restore Keys.Get
  cases hr : c.authorizator.CheckPermission ⟨Action.read, Resource.key⟩ with
  | some e =>
    cases hd : c.db.GetDeleted w.db id with
    | error e1 => simp [hp, hd, World.log]
    | ok acc =>
      simp only [hp, hd, World.log]
      split <;> simp_all
  | none =>
    cases hdb : c.db.Get w.db id with
    | ok a => simp [hr, hdb, World.log] at hg
    | error e =>
      cases hd : c.db.GetDeleted w.db id with
      | error e1 => simp [hp, hdb, hd, World.log]
      | ok acc =>
        simp only [hp, hdb, hd, World.log]
        split <;> simp_all

/-- C3: for a soft-deleted account (not live, `GetDeleted` succeeds) whose database
`Restore` succeeds inside the transaction, when the store's `Restore` returns a
`NotSupported` error: the function passed to `RunInTransaction` returns nil, keeping the
restored database state, and the connector's `Restore` returns success with that database
state committed; the `NotSupported` error is not returned.  Ethereum and keys connector. -/
theorem C3_restore_swallows_not_supported (Hex : Address → String) (ec : Eth.Connector σ κ)
    (kc : Keys.Connector σ' κ') (w : World σ κ) (w' : World σ' κ') (addr : Address)
    (id : String) :
    (∀ (acc : ETHAccount) (e0 err : Error) (d : σ) (st : κ),
      ec.authorizator.CheckPermission ⟨Action.delete, Resource.ethAccount⟩ = none →
      (Eth.Get Hex ec addr w).1 = Except.error e0 →
      ec.db.GetDeleted w.db (Hex addr) = Except.ok acc →
      ec.db.Restore w.db (Hex addr) = (none, d) →
      ec.store.Restore w.store acc.KeyID = (some err, st) →
      IsNotSupportedError err = true →
      (∀ wt : World σ κ, wt.db = w.db → wt.store = w.store →
        Eth.restoreTx Hex ec addr acc wt
          = (none, { db := d, store := st, calls := wt.calls ++
              [Call.dbRestore (Hex addr), Call.storeRestore acc.KeyID] })) ∧
      Eth.Restore Hex ec addr w
        = (none, { db := d, store := st, calls := w.calls ++
            ([Call.checkPermission ⟨Action.delete, Resource.ethAccount⟩,
              Call.checkPermission ⟨Action.read, Resource.ethAccount⟩] ++
             (if ec.authorizator.CheckPermission ⟨Action.read, Resource.ethAccount⟩ = none
              then [Call.dbGet (Hex addr)] else []) ++
             [Call.dbGetDeleted (Hex addr), Call.dbRunInTransaction,
              Call.dbRestore (Hex addr), Call.storeRestore acc.KeyID]) })) ∧
    (∀ (acc : Key) (e0 err : Error) (d : σ') (st : κ'),
      kc.authorizator.CheckPermission ⟨Action.delete, Resource.key⟩ = none →
      (Keys.Get kc id w').1 = Except.error e0 →
      kc.db.GetDeleted w'.db id = Except.ok acc →
      kc.db.Restore w'.db id = (none, d) →
      kc.store.Restore w'.store id = (some err, st) →
      IsNotSupportedError err = true →
      (∀ wt : World σ' κ', wt.db = w'.db → wt.store = w'.store →
        Keys.restoreTx kc id wt
          = (none, { db := d, store := st, calls := wt.calls ++
              [Call.dbRestore id, Call.storeRestore id] })) ∧
      Keys.Restore kc id w'
        = (none, { db := d, store := st, calls := w'.calls ++
            ([Call.checkPermission ⟨Action.delete, Resource.key⟩,
              Call.checkPermission ⟨Action.read, Resource.key⟩] ++
             (if kc.authorizator.CheckPermission ⟨Action.read, Resource.key⟩ = none
              then [Call.dbGet id] else []) ++
             [Call.dbGetDeleted id, Call.dbRunInTransaction,
              Call.dbRestore id, Call.storeRestore id]) })) := by
  refine ⟨?_, ?_⟩
  · intro acc e0 err d st hp hg hd hx hy hn
    refine ⟨?_, ?_⟩
    · intro wt h1 h2
      simp [Eth.restoreTx, World.log, h1, h2, hx, hy, hn]
    · rw [Eth.eth_Restore_not_live Hex ec addr w e0 hp hg]
      simp [hd, RunInTransaction, Eth.restoreTx, World.log, hx, hy, hn]
  · intro acc e0 err d st hp hg hd hx hy hn
    refine ⟨?_, ?_⟩
    · intro wt h1 h2
      simp [Keys.restoreTx, World.log, h1, h2, hx, hy, hn]
    · rw [Keys.keys_Restore_not_live kc id w' e0 hp hg]
      simp [hd, RunInTransaction, Keys.restoreTx, World.log, hx, hy, hn]

/-- C3, run: the sample store cannot restore; the soft-deleted sample account is restored
in the database alone and `Restore` returns nil. -/
theorem C3_restore_swallows_not_supported_witness :
    Eth.Restore Sample.Hex
        ⟨Sample.storeWithoutRestore, Sample.ethAccounts, Sample.grants Sample.allOps⟩
        Sample.addr ⟨Sample.deletedTable, 0, []⟩
      = (none,
         ⟨Sample.liveTable, 1,
          [Call.checkPermission ⟨Action.delete, Resource.ethAccount⟩,
           Call.checkPermission ⟨Action.read, Resource.ethAccount⟩,
           Call.dbGet "ab", Call.dbGetDeleted "ab", Call.dbRunInTransaction,
           Call.dbRestore "ab", Call.storeRestore "key-1"]⟩) :=
  ((C3_restore_swallows_not_supported Sample.Hex
      ⟨Sample.storeWithoutRestore, Sample.ethAccounts, Sample.grants Sample.allOps⟩
      ⟨Sample.storeWithoutRestore, Sample.keys, Sample.grants Sample.allOps⟩
      ⟨Sample.deletedTable, 0, []⟩ ⟨Sample.deletedKeyTable, 0, []⟩ Sample.addr "key-1").1
    Sample.account Sample.notFound ⟨ErrorKind.notSupported, "restore not supported"⟩
    Sample.liveTable 1 (by decide) rfl rfl rfl rfl (by decide)).2

/-- C4: for an account that is not live and for which `GetDeleted` returns an error,
`Restore`, once past its permission check, returns exactly that error, having made only
the permission check, the calls of `Get`, and `GetDeleted`; and whatever the permission
check answers, `Restore` leaves database and store as they are and makes no call that
starts a transaction, or restores in the database or in the store.  Ethereum and keys
connector. -/
theorem C4_restore_without_deleted_row (Hex : Address → String) (ec : Eth.Connector σ κ)
    (kc : Keys.Connector σ' κ') (w : World σ κ) (w' : World σ' κ') (addr : Address)
    (id : String) :
    (∀ (e0 err : Error),
      (Eth.Get Hex ec addr w).1 = Except.error e0 →
      ec.db.GetDeleted w.db (Hex addr) = Except.error err →
      (ec.authorizator.CheckPermission ⟨Action.delete, Resource.ethAccount⟩ = none →
        Eth.Restore Hex ec addr w
          = (some err, { w with calls := w.calls ++
              ([Call.checkPermission ⟨Action.delete, Resource.ethAccount⟩,
                Call.checkPermission ⟨Action.read, Resource.ethAccount⟩] ++
               (if ec.authorizator.CheckPermission ⟨Action.read, Resource.ethAccount⟩ = none
                then [Call.dbGet (Hex addr)] else []) ++
               [Call.dbGetDeleted (Hex addr)]) })) ∧
      ∃ made, (Eth.Restore Hex ec addr w).2 = { w with calls := w.calls ++ made } ∧
        ∀ call ∈ made, call.restores = false) ∧
    (∀ (e0 err : Error),
      (Keys.Get kc id w').1 = Except.error e0 →
      kc.db.GetDeleted w'.db id = Except.error err →
      (kc.authorizator.CheckPermission ⟨Action.delete, Resource.key⟩ = none →
        Keys.Restore kc id w'
          = (some err, { w' with calls := w'.calls ++
              ([Call.checkPermission ⟨Action.delete, Resource.key⟩,
                Call.checkPermission ⟨Action.read, Resource.key⟩] ++
               (if kc.authorizator.CheckPermission ⟨Action.read, Resource.key⟩ = none
                then [Call.dbGet id] else []) ++
               [Call.dbGetDeleted id]) })) ∧
      ∃ made, (Keys.Restore kc id w').2 = { w' with calls := w'.calls ++ made } ∧
        ∀ call ∈ made, call.restores = false) := by
  refine ⟨?_, ?_⟩
  · intro e0 err hg hd
    have main : ec.authorizator.CheckPermission ⟨Action.delete, Resource.ethAccount⟩ = none →
        Eth.Restore Hex ec addr w
          = (some err, { w with calls := w.calls ++
              ([Call.checkPermission ⟨Action.delete, Resource.ethAccount⟩,
                Call.checkPermission ⟨Action.read, Resource.ethAccount⟩] ++
               (if ec.authorizator.CheckPermission ⟨Action.read, Resource.ethAccount⟩ = none
                then [Call.dbGet (Hex addr)] else []) ++
               [Call.dbGetDeleted (Hex addr)]) }) := by
      intro hp
      rw [Eth.eth_Restore_not_live Hex ec addr w e0 hp hg]
      simp [hd]
    refine ⟨main, ?_⟩
    cases hp : ec.authorizator.CheckPermission ⟨Action.delete, Resource.ethAccount⟩ with
    | some e =>
      refine ⟨[Call.checkPermission ⟨Action.delete, Resource.ethAccount⟩], ?_, ?_⟩
      · simp [Eth.Restore, hp, World.log]
      · simp [Call.restores]
    | none =>
      refine ⟨_, by rw [main hp], ?_⟩
      intro call hc
      by_cases hr : ec.authorizator.CheckPermission ⟨Action.read, Resource.ethAccount⟩ = none
      · simp only [hr, if_true] at hc
        simp at hc
        rcases hc with rfl | rfl | rfl | rfl <;> rfl
      · simp only [hr, if_false] at hc
        simp at hc
        rcases hc with rfl | rfl | rfl <;> rfl
  · intro e0 err hg hd
    have main : kc.authorizator.CheckPermission ⟨Action.delete, Resource.key⟩ = none →
        Keys.Restore kc id w'
          = (some err, { w' with calls := w'.calls ++
              ([Call.checkPermission ⟨Action.delete, Resource.key⟩,
                Call.checkPermission ⟨Action.read, Resource.key⟩] ++
               (if kc.authorizator.CheckPermission ⟨Action.read, Resource.key⟩ = none
                then [Call.dbGet id] else []) ++
               [Call.dbGetDeleted id]) }) := by
      intro hp
      rw [Keys.keys_Restore_not_live kc id w' e0 hp hg]
      simp [hd]
    refine ⟨main, ?_⟩
    cases hp : kc.authorizator.CheckPermission ⟨Action.delete, Resource.key⟩ with
    | some e =>
      refine ⟨[Call.checkPermission ⟨Action.delete, Resource.key⟩], ?_, ?_⟩
      · simp [Keys.Restore, hp, World.log]
      · simp [Call.restores]
    | none =>
      refine ⟨_, by rw [main hp], ?_⟩
      intro call hc
      by_cases hr : kc.authorizator.CheckPermission ⟨Action.read, Resource.key⟩ = none
      · simp only [hr, if_true] at hc
        simp at hc
        rcases hc with rfl | rfl | rfl | rfl <;> rfl
      · simp only [hr, if_false] at hc
        simp at hc
        rcases hc with rfl | rfl | rfl <;> rfl

/-- C4, run: the sample table is empty, so `Restore` returns `NotFound` after
`GetDeleted`. -/
theorem C4_restore_without_deleted_row_witness :
    Keys.Restore ⟨Sample.storeWithRestore, Sample.keys, Sample.grants Sample.allOps⟩
        "key-1" ⟨[], 0, []⟩
      = (some Sample.notFound,
         ⟨[], 0,
          [Call.checkPermission ⟨Action.delete, Resource.key⟩,
           Call.checkPermission ⟨Action.read, Resource.key⟩,
           Call.dbGet "key-1", Call.dbGetDeleted "key-1"]⟩) :=
  ((C4_restore_without_deleted_row Sample.Hex
      ⟨Sample.storeWithRestore, Sample.ethAccounts, Sample.grants Sample.allOps⟩
      ⟨Sample.storeWithRestore, Sample.keys, Sample.grants Sample.allOps⟩
      ⟨[], 0, []⟩ ⟨[], 0, []⟩ Sample.addr "key-1").2
    Sample.notFound Sample.notFound rfl rfl).1 (by decide)

/-- C5: for a soft-deleted account, if inside the transaction the database `Restore` fails
(the store `Restore` is then not called), or the store `Restore` fails with an error that
is not `NotSupported`, then the function passed to `RunInTransaction` returns that error,
the connector's `Restore` returns it, and the database state afterwards is the state
before the call, in which the row is still soft-deleted.  Ethereum and keys connector. -/
theorem C5_restore_rolls_back_on_error (Hex : Address → String) (ec : Eth.Connector σ κ)
    (kc : Keys.Connector σ' κ') (w : World σ κ) (w' : World σ' κ') (addr : Address)
    (id : String) :
    (∀ (acc : ETHAccount) (e0 err : Error) (d : σ),
      ec.authorizator.CheckPermission ⟨Action.delete, Resource.ethAccount⟩ = none →
      (Eth.Get Hex ec addr w).1 = Except.error e0 →
      ec.db.GetDeleted w.db (Hex addr) = Except.ok acc →
      ec.db.Restore w.db (Hex addr) = (some err, d) →
      (∀ wt : World σ κ, wt.db = w.db → wt.store = w.store →
        Eth.restoreTx Hex ec addr acc wt
          = (some err, { db := d, store := w.store, calls := wt.calls ++
              [Call.dbRestore (Hex addr)] })) ∧
      Eth.Restore Hex ec addr w
        = (some err, { w with calls := w.calls ++
            ([Call.checkPermission ⟨Action.delete, Resource.ethAccount⟩,
              Call.checkPermission ⟨Action.read, Resource.ethAccount⟩] ++
             (if ec.authorizator.CheckPermission ⟨Action.read, Resource.ethAccount⟩ = none
              then [Call.dbGet (Hex addr)] else []) ++
             [Call.dbGetDeleted (Hex addr), Call.dbRunInTransaction,
              Call.dbRestore (Hex addr)]) }) ∧
      ec.db.GetDeleted (Eth.Restore Hex ec addr w).2.db (Hex addr) = Except.ok acc) ∧
    (∀ (acc : ETHAccount) (e0 err : Error) (d : σ) (st : κ),
      ec.authorizator.CheckPermission ⟨Action.delete, Resource.ethAccount⟩ = none →
      (Eth.Get Hex ec addr w).1 = Except.error e0 →
      ec.db.GetDeleted w.db (Hex addr) = Except.ok acc →
      ec.db.Restore w.db (Hex addr) = (none, d) →
      ec.store.Restore w.store acc.KeyID = (some err, st) →
      IsNotSupportedError err = false →
      (∀ wt : World σ κ, wt.db = w.db → wt.store = w.store →
        Eth.restoreTx Hex ec addr acc wt
          = (some err, { db := d, store := st, calls := wt.calls ++
              [Call.dbRestore (Hex addr), Call.storeRestore acc.KeyID] })) ∧
      Eth.Restore Hex ec addr w
        = (some err, { db := w.db, store := st, calls := w.calls ++
            ([Call.checkPermission ⟨Action.delete, Resource.ethAccount⟩,
              Call.checkPermission ⟨Action.read, Resource.ethAccount⟩] ++
             (if ec.authorizator.CheckPermission ⟨Action.read, Resource.ethAccount⟩ = none
              then [Call.dbGet (Hex addr)] else []) ++
             [Call.dbGetDeleted (Hex addr), Call.dbRunInTransaction,
              Call.dbRestore (Hex addr), Call.storeRestore acc.KeyID]) }) ∧
      ec.db.GetDeleted (Eth.Restore Hex ec addr w).2.db (Hex addr) = Except.ok acc) ∧
    (∀ (acc : Key) (e0 err : Error) (d : σ'),
      kc.authorizator.CheckPermission ⟨Action.delete, Resource.key⟩ = none →
      (Keys.Get kc id w').1 = Except.error e0 →
      kc.db.GetDeleted w'.db id = Except.ok acc →
      kc.db.Restore w'.db id = (some err, d) →
      (∀ wt : World σ' κ', wt.db = w'.db → wt.store = w'.store →
        Keys.restoreTx kc id wt
          = (some err, { db := d, store := w'.store, calls := wt.calls ++
              [Call.dbRestore id] })) ∧
      Keys.Restore kc id w'
        = (some err, { w' with calls := w'.calls ++
            ([Call.checkPermission ⟨Action.delete, Resource.key⟩,
              Call.checkPermission ⟨Action.read, Resource.key⟩] ++
             (if kc.authorizator.CheckPermission ⟨Action.read, Resource.key⟩ = none
              then [Call.dbGet id] else []) ++
             [Call.dbGetDeleted id, Call.dbRunInTransaction,
              Call.dbRestore id]) }) ∧
      kc.db.GetDeleted (Keys.Restore kc id w').2.db id = Except.ok acc) ∧
    (∀ (acc : Key) (e0 err : Error) (d : σ') (st : κ'),
      kc.authorizator.CheckPermission ⟨Action.delete, Resource.key⟩ = none →
      (Keys.Get kc id w').1 = Except.error e0 →
      kc.db.GetDeleted w'.db id = Except.ok acc →
      kc.db.Restore w'.db id = (none, d) →
      kc.store.Restore w'.store id = (some err, st) →
      IsNotSupportedError err = false →
      (∀ wt : World σ' κ', wt.db = w'.db → wt.store = w'.store →
        Keys.restoreTx kc id wt
          = (some err, { db := d, store := st, calls := wt.calls ++
              [Call.dbRestore id, Call.storeRestore id] })) ∧
      Keys.Restore kc id w'
        = (some err, { db := w'.db, store := st, calls := w'.calls ++
            ([Call.checkPermission ⟨Action.delete, Resource.key⟩,
              Call.checkPermission ⟨Action.read, Resource.key⟩] ++
             (if kc.authorizator.CheckPermission ⟨Action.read, Resource.key⟩ = none
              then [Call.dbGet id] else []) ++
             [Call.dbGetDeleted id, Call.dbRunInTransaction,
              Call.dbRestore id, Call.storeRestore id]) }) ∧
      kc.db.GetDeleted (Keys.Restore kc id w').2.db id = Except.ok acc) := by
  refine ⟨?_, ?_, ?_, ?_⟩
  · intro acc e0 err d hp hg hd hx
    have hR : Eth.Restore Hex ec addr w
        = (some err, { w with calls := w.calls ++
            ([Call.checkPermission ⟨Action.delete, Resource.ethAccount⟩,
              Call.checkPermission ⟨Action.read, Resource.ethAccount⟩] ++
             (if ec.authorizator.CheckPermission ⟨Action.read, Resource.ethAccount⟩ = none
              then [Call.dbGet (Hex addr)] else []) ++
             [Call.dbGetDeleted (Hex addr), Call.dbRunInTransaction,
              Call.dbRestore (Hex addr)]) }) := by
      rw [Eth.eth_Restore_not_live Hex ec addr w e0 hp hg]
      simp [hd, RunInTransaction, Eth.restoreTx, World.log, hx]
    refine ⟨?_, hR, ?_⟩
    · intro wt h1 h2
      simp [Eth.restoreTx, World.log, h1, h2, hx]
    · rw [hR]; exact hd
  · intro acc e0 err d st hp hg hd hx hy hn
    have hR : Eth.Restore Hex ec addr w
        = (some err, { db := w.db, store := st, calls := w.calls ++
            ([Call.checkPermission ⟨Action.delete, Resource.ethAccount⟩,
              Call.checkPermission ⟨Action.read, Resource.ethAccount⟩] ++
             (if ec.authorizator.CheckPermission ⟨Action.read, Resource.ethAccount⟩ = none
              then [Call.dbGet (Hex addr)] else []) ++
             [Call.dbGetDeleted (Hex addr), Call.dbRunInTransaction,
              Call.dbRestore (Hex addr), Call.storeRestore acc.KeyID]) }) := by
      rw [Eth.eth_Restore_not_live Hex ec addr w e0 hp hg]
      simp [hd, RunInTransaction, Eth.restoreTx, World.log, hx, hy, hn]
    refine ⟨?_, hR, ?_⟩
    · intro wt h1 h2
      simp [Eth.restoreTx, World.log, h1, h2, hx, hy, hn]
    · rw [hR]; exact hd
  · intro acc e0 err d hp hg hd hx
    have hR : Keys.Restore kc id w'
        = (some err, { w' with calls := w'.calls ++
            ([Call.checkPermission ⟨Action.delete, Resource.key⟩,
              Call.checkPermission ⟨Action.read, Resource.key⟩] ++
             (if kc.authorizator.CheckPermission ⟨Action.read, Resource.key⟩ = none
              then [Call.dbGet id] else []) ++
             [Call.dbGetDeleted id, Call.dbRunInTransaction,
              Call.dbRestore id]) }) := by
      rw [Keys.keys_Restore_not_live kc id w' e0 hp hg]
      simp [hd, RunInTransaction, Keys.restoreTx, World.log, hx]
    refine ⟨?_, hR, ?_⟩
    · intro wt h1 h2
      simp [Keys.restoreTx, World.log, h1, h2, hx]
    · rw [hR]; exact hd
  · intro acc e0 err d st hp hg hd hx hy hn
    have hR : Keys.Restore kc id w'
        = (some err, { db := w'.db, store := st, calls := w'.calls ++
            ([Call.checkPermission ⟨Action.delete, Resource.key⟩,
              Call.checkPermission ⟨Action.read, Resource.key⟩] ++
             (if kc.authorizator.CheckPermission ⟨Action.read, Resource.key⟩ = none
              then [Call.dbGet id] else []) ++
             [Call.dbGetDeleted id, Call.dbRunInTransaction,
              Call.dbRestore id, Call.storeRestore id]) }) := by
      rw [Keys.keys_Restore_not_live kc id w' e0 hp hg]
      simp [hd, RunInTransaction, Keys.restoreTx, World.log, hx, hy, hn]
    refine ⟨?_, hR, ?_⟩
    · intro wt h1 h2
      simp [Keys.restoreTx, World.log, h1, h2, hx, hy, hn]
    · rw [hR]; exact hd

/-- C5, run: the sample store fails to restore; the database restore is rolled back and
the sample account is still soft-deleted. -/
theorem C5_restore_rolls_back_on_error_witness :
    Eth.Restore Sample.Hex
        ⟨Sample.storeFailing, Sample.ethAccounts, Sample.grants Sample.allOps⟩
        Sample.addr ⟨Sample.deletedTable, 0, []⟩
      = (some ⟨ErrorKind.dependencyFailure, "vault is sealed"⟩,
         ⟨Sample.deletedTable, 1,
          [Call.checkPermission ⟨Action.delete, Resource.ethAccount⟩,
           Call.checkPermission ⟨Action.read, Resource.ethAccount⟩,
           Call.dbGet "ab", Call.dbGetDeleted "ab", Call.dbRunInTransaction,
           Call.dbRestore "ab", Call.storeRestore "key-1"]⟩) :=
  ((C5_restore_rolls_back_on_error Sample.Hex
      ⟨Sample.storeFailing, Sample.ethAccounts, Sample.grants Sample.allOps⟩
      ⟨Sample.storeFailing, Sample.keys, Sample.grants Sample.allOps⟩
      ⟨Sample.deletedTable, 0, []⟩ ⟨Sample.deletedKeyTable, 0, []⟩ Sample.addr "key-1").2.1
    Sample.account Sample.notFound ⟨ErrorKind.dependencyFailure, "vault is sealed"⟩
    Sample.liveTable 1 (by decide) rfl rfl rfl rfl (by decide)).2.1

/-- C6: with the permission to encrypt, `Encrypt` returns exactly what the store's
`Encrypt` returns for the `KeyID` of the live row `db.Get(addr.Hex())` and the data; and
if `db.Get` fails, `Encrypt` returns that error and the store is not called, whatever the
store holds. -/
theorem C6_encrypt_uses_live_row (Hex : Address → String) (c : Eth.Connector σ κ)
    (w : World σ κ) (addr : Address) (data : Bytes)
    (hp : c.authorizator.CheckPermission ⟨Action.encrypt, Resource.ethAccount⟩ = none) :
    (∀ acc, c.db.Get w.db (Hex addr) = Except.ok acc →
      Eth.Encrypt Hex c addr data w
        = ((c.store.Encrypt w.store acc.KeyID data).1,
           { db := w.db, store := (c.store.Encrypt w.store acc.KeyID data).2,
             calls := w.calls ++
              [Call.checkPermission ⟨Action.encrypt, Resource.ethAccount⟩,
               Call.dbGet (Hex addr), Call.storeEncrypt acc.KeyID data] })) ∧
    (∀ err, c.db.Get w.db (Hex addr) = Except.error err →
      Eth.Encrypt Hex c addr data w
        = (Except.error err,
           { w with calls := w.calls ++
              [Call.checkPermission ⟨Action.encrypt, Resource.ethAccount⟩,
               Call.dbGet (Hex addr)] })) := by
  refine ⟨?_, ?_⟩
  · intro acc hg
    rcases hs : c.store.Encrypt w.store acc.KeyID data with ⟨_ | _, st⟩ <;>
      simp [Eth.Encrypt, hp, hg, hs, World.log]
  · intro err hg
    simp [Eth.Encrypt, hp, hg, World.log]

/-- C6, run: the sample account is soft-deleted, so `Encrypt` returns `NotFound` and the
store, which would encrypt with any key, is not called. -/
theorem C6_encrypt_uses_live_row_witness :
    Eth.Encrypt Sample.Hex
        ⟨Sample.storeWithRestore, Sample.ethAccounts, Sample.grants Sample.allOps⟩
        Sample.addr [1, 2] ⟨Sample.deletedTable, 0, []⟩
      = (Except.error Sample.notFound,
         ⟨Sample.deletedTable, 0,
          [Call.checkPermission ⟨Action.encrypt, Resource.ethAccount⟩, Call.dbGet "ab"]⟩) :=
  (C6_encrypt_uses_live_row Sample.Hex
      ⟨Sample.storeWithRestore, Sample.ethAccounts, Sample.grants Sample.allOps⟩
      ⟨Sample.deletedTable, 0, []⟩ Sample.addr [1, 2] (by decide)).2 Sample.notFound rfl

end Connectors

namespace Manifests

/-! ### Subscriptions -/

/-- The kinds map `Subscribe` builds holds exactly the kinds of the slice. -/
theorem mem_foldl_set (kinds : List Kind) (k : Kind) (m : KindSet) :
    k ∈ kinds.foldl KindSet.set m ↔ k ∈ m ∨ k ∈ kinds := by
  induction kinds generalizing m with
  | nil => simp
  | cons a as ih =>
    rw [List.foldl_cons, ih]
    unfold KindSet.set
    by_cases ha : a ∈ m
    · simp only [ha, if_true, List.mem_cons]
      constructor
      · rintro (h | h)
        · exact Or.inl h
        · exact Or.inr (Or.inr h)
      · rintro (h | h | h)
        · exact Or.inl h
        · exact Or.inl (h ▸ ha)
        · exact Or.inr h
    · simp only [ha, if_false, List.mem_append, List.mem_singleton, List.mem_cons]
      tauto

/-- The loop of `inbox` appends the wanted messages, in order. -/
theorem inboxLoop_eq (kinds : Option KindSet) (msgs : List Message)
    (hl : ∀ m ∈ msgs, m.Err = none → m.Manifest ≠ none) (submsgs : List Message) :
    inboxLoop kinds msgs submsgs = some (submsgs ++ msgs.filter (wanted kinds)) := by
  induction msgs generalizing submsgs with
  | nil => simp [inboxLoop]
  | cons msg msgs ih =>
    have ih1 := ih (fun m hm => hl m (List.mem_cons_of_mem _ hm))
    have h0 := hl msg (List.mem_cons_self _ _)
    unfold inboxLoop inboxStep
    cases he : msg.Err with
    | some e => simp [ih1, List.filter_cons, wanted, he]
    | none =>
      cases kinds with
      | none => simp [ih1, List.filter_cons, wanted, he]
      | some ks =>
        cases hm : msg.Manifest with
        | none => exact absurd hm (h0 he)
        | some mnf =>
          by_cases hk : mnf.Kind ∈ ks
          · simp [ih1, List.filter_cons, wanted, he, hm, hk]
          · simp [ih1, List.filter_cons, wanted, he, hm, hk]

/-- With a nil kinds set no manifest is read, so the loop never panics. -/
theorem inboxLoop_nil_kinds (msgs submsgs : List Message) :
    inboxLoop none msgs submsgs = some (submsgs ++ msgs.filter (fun m => m.Err.isNone)) := by
  induction msgs generalizing submsgs with
  | nil => simp [inboxLoop]
  | cons msg msgs ih =>
    unfold inboxLoop inboxStep
    cases he : msg.Err with
    | some e => simp [ih, List.filter_cons, he]
    | none => simp [ih, List.filter_cons, he]

theorem wanted_foldl_set (kinds : List Kind) (msg : Message) :
    wanted (some (kinds.foldl KindSet.set [])) msg = wanted (some kinds) msg := by
  unfold wanted
  cases msg.Err with
  | some e => rfl
  | none =>
    cases msg.Manifest with
    | none => rfl
    | some mnf => simp [mem_foldl_set]

/-- C7: for loaded messages (a message without error carries a manifest) `inbox` sends
exactly one batch on the subscriber channel: the messages that carry no error and whose
manifest kind is in the kinds set of the subscription, in the order of the loaded list.
For a subscription made with a slice of kinds the set is that of the slice; for one made
with nil kinds the batch is every message without error, for any list of messages.  No
message with an error is in the batch. -/
theorem C7_inbox_sends_one_filtered_batch (sub : subscription) (msgs : List Message)
    (hl : ∀ m ∈ msgs, m.Err = none → m.Manifest ≠ none) :
    sub.inbox msgs
      = some { sub with messages := sub.messages ++ [msgs.filter (wanted sub.kinds)] } ∧
    (msgs.filter (wanted sub.kinds)).Sublist msgs ∧
    (∀ m, m ∈ msgs.filter (wanted sub.kinds) ↔
      m ∈ msgs ∧ m.Err = none ∧
        (sub.kinds = none ∨
          ∃ ks mnf, sub.kinds = some ks ∧ m.Manifest = some mnf ∧ mnf.Kind ∈ ks)) ∧
    (∀ kinds : List Kind, (Subscribe (some kinds)).inbox msgs
      = some { Subscribe (some kinds) with
          messages := [msgs.filter (wanted (some kinds))] }) ∧
    (∀ msgs0 : List Message, (Subscribe none).inbox msgs0
      = some { Subscribe none with messages := [msgs0.filter (fun m => m.Err.isNone)] }) := by
  refine ⟨?_, List.filter_sublist _, ?_, ?_, ?_⟩
  · simp [subscription.inbox, inboxLoop_eq sub.kinds msgs hl]
  · intro m
    rw [List.mem_filter]
    refine and_congr_right (fun _ => ?_)
    unfold wanted
    cases he : m.Err with
    | some e => simp
    | none =>
      cases hk : sub.kinds with
      | none => simp
      | some ks =>
        cases hm : m.Manifest with
        | none => simp
        | some mnf => simp
  · intro kinds
    have hf : msgs.filter (wanted (some (kinds.foldl KindSet.set [])))
        = msgs.filter (wanted (some kinds)) :=
      List.filter_congr (fun m _ => wanted_foldl_set kinds m)
    simp [subscription.inbox, Subscribe, inboxLoop_eq _ msgs hl, hf]
  · intro msgs0
    simp [subscription.inbox, Subscribe, inboxLoop_nil_kinds]

/-- C7, run: the three messages built from the sample list file, sent to a subscription
for the kind `Role`: one batch, holding the role and neither the node nor the error. -/
theorem C7_inbox_sends_one_filtered_batch_witness :
    (Subscribe (some ["Role"])).inbox (buildMessages Sample.env "manifests/list.yml")
      = some { Subscribe (some ["Role"]) with
          messages := [[newCreateActionMsg (some Sample.role) none]] } :=
  (C7_inbox_sends_one_filtered_batch (Subscribe (some ["Role"]))
    (buildMessages Sample.env "manifests/list.yml") (by decide)).1

/-! ### Loading -/

/-- The loop of `buildMessages` appends one message per entry, in order. -/
theorem buildMessagesLoop_eq (env : Env) (mnfs : List (Option Manifest))
    (msgs : List Message) :
    buildMessagesLoop env mnfs msgs = msgs ++ mnfs.map (entryMessage env) := by
  induction mnfs generalizing msgs with
  | nil => simp [buildMessagesLoop]
  | cons mnf mnfs ih =>
    unfold buildMessagesLoop
    cases hv : env.Struct mnf with
    | some err => simp [ih, entryMessage, hv]
    | none => simp [ih, entryMessage, hv]

/-- A message built by `buildMessages` without error carries a manifest, as the validator
refuses a nil pointer. -/
theorem buildMessages_has_manifest (env : Env) (hv : env.Struct none ≠ none) (fp : String) :
    ∀ m ∈ buildMessages env fp, m.Err = none → m.Manifest ≠ none := by
  intro m hm
  unfold buildMessages at hm
  cases hr : env.ReadFile fp with
  | error err => simp [hr] at hm; subst hm; simp [newCreateActionMsg]
  | ok data =>
    cases h1 : env.UnmarshalOne data with
    | ok mnf =>
      cases hs : env.Struct (some mnf) with
      | some err => simp [hr, h1, hs] at hm; subst hm; simp [newCreateActionMsg]
      | none => simp [hr, h1, hs] at hm; subst hm; simp [newCreateActionMsg]
    | error e1 =>
      cases hl : env.UnmarshalList data with
      | error err => simp [hr, h1, hl] at hm; subst hm; simp [newCreateActionMsg]
      | ok mnfs =>
        simp only [hr, h1, hl, buildMessagesLoop_eq, List.nil_append, List.mem_map] at hm
        obtain ⟨x, _, rfl⟩ := hm
        unfold entryMessage
        cases hx : env.Struct x with
        | some err => simp [newCreateActionMsg]
        | none =>
          cases x with
          | none => exact absurd hx hv
          | some mnf => simp [newCreateActionMsg]

mutual

/-- A property of the state that every callback keeps is kept by the walk. -/
theorem walk_keeps {S : Type} (P : S → Prop)
    (fn : String → Option FileInfo → Option Error → S → Option Error × S)
    (hfn : ∀ p i e s, P s → P (fn p i e s).2) :
    ∀ (path : String) (t : FileTree) (s : S), P s → P (walk fn path t s).2
  | path, FileTree.file _, s, h => by
    rw [walk]; exact hfn _ _ _ _ h
  | path, FileTree.unreadable _ err, s, h => by
    rw [walk]; exact hfn _ _ _ _ h
  | path, FileTree.dir _ readErr entries, s, h => by
    rw [walk]
    have h1 := hfn path (some ⟨true⟩) readErr s h
    rcases hf : fn path (some ⟨true⟩) readErr s with ⟨_ | e, s1⟩
    · rw [hf] at h1
      cases readErr with
      | some e => simpa using h1
      | none => simpa using walkEntries_keeps P fn hfn path entries s1 h1
    · rw [hf] at h1; simpa using h1

theorem walkEntries_keeps {S : Type} (P : S → Prop)
    (fn : String → Option FileInfo → Option Error → S → Option Error × S)
    (hfn : ∀ p i e s, P s → P (fn p i e s).2) :
    ∀ (path : String) (ts : List FileTree) (s : S), P s → P (walkEntries fn path ts s).2
  | _, [], s, h => by rw [walkEntries]; exact h
  | path, t :: ts, s, h => by
    rw [walkEntries]
    have h1 := walk_keeps P fn hfn (Join path (FileTree.name t)) t s h
    rcases hf : walk fn (Join path (FileTree.name t)) t s with ⟨_ | e, s1⟩
    · rw [hf] at h1
      simpa using walkEntries_keeps P fn hfn path ts s1 h1
    · rw [hf] at h1; simpa using h1

end

/-- What the callback of `load` does to the manager: nothing, or it appends the messages
of one file. -/
theorem loadWalkFn_state (env : Env) (fp : String) (info : Option FileInfo)
    (err : Option Error) (ll : LocalManager) :
    (loadWalkFn env fp info err ll).2 = ll ∨
    (loadWalkFn env fp info err ll).2 = { ll with msgs := ll.msgs ++ buildMessages env fp } := by
  unfold loadWalkFn
  cases err with
  | some e => exact Or.inl rfl
  | none =>
    cases info with
    | none => exact Or.inl rfl
    | some i =>
      by_cases hd : i.IsDir = true
      · simp [hd]
      · by_cases hx : (Ext fp = ".yml" || Ext fp = ".yaml") = true
        · right; simp only [hd, hx]; simp
        · left; simp only [hd, hx]; simp

/-- Whatever `load` finds, it changes nothing but `msgs`. -/
theorem load_fields (env : Env) (ll : LocalManager) :
    (load env ll).2.isLive = ll.isLive ∧ (load env ll).2.loaded = ll.loaded := by
  unfold load
  by_cases hd : ll.isDir = true
  · simp only [hd, Bool.not_true, Bool.false_eq_true, if_false]
    refine walk_keeps (fun s : LocalManager => s.isLive = ll.isLive ∧ s.loaded = ll.loaded) _ ?_ _ _ _
      ⟨rfl, rfl⟩
    intro p i e s hs
    rcases loadWalkFn_state env p i e s with h | h <;> rw [h] <;> exact hs
  · simp [hd]

/-- The messages loaded before are kept by `load`, in place. -/
theorem load_keeps_msgs (env : Env) (ll : LocalManager) :
    ∃ more, (load env ll).2.msgs = ll.msgs ++ more := by
  unfold load
  by_cases hd : ll.isDir = true
  · simp only [hd, Bool.not_true, Bool.false_eq_true, if_false]
    refine walk_keeps (fun s : LocalManager => ∃ more, s.msgs = ll.msgs ++ more) _ ?_ _ _ _
      ⟨[], by simp⟩
    intro p i e s hs
    obtain ⟨more, hm⟩ := hs
    rcases loadWalkFn_state env p i e s with h | h <;> rw [h]
    · exact ⟨more, hm⟩
    · exact ⟨more ++ buildMessages env p, by simp [hm]⟩
  · exact ⟨buildMessages env ll.path, by simp [hd]⟩

/-- Every message `load` leaves in the manager without error carries a manifest, if that
held before and the validator refuses a nil pointer. -/
theorem load_has_manifest (env : Env) (hv : env.Struct none ≠ none) (ll : LocalManager)
    (h0 : ∀ m ∈ ll.msgs, m.Err = none → m.Manifest ≠ none) :
    ∀ m ∈ (load env ll).2.msgs, m.Err = none → m.Manifest ≠ none := by
  have step : ∀ (s : LocalManager) (fp : String),
      (∀ m ∈ s.msgs, m.Err = none → m.Manifest ≠ none) →
      ∀ m ∈ s.msgs ++ buildMessages env fp, m.Err = none → m.Manifest ≠ none := by
    intro s fp hs m hm
    rcases List.mem_append.1 hm with h | h
    · exact hs m h
    · exact buildMessages_has_manifest env hv fp m h
  unfold load
  by_cases hd : ll.isDir = true
  · simp only [hd, Bool.not_true, Bool.false_eq_true, if_false]
    refine walk_keeps
      (fun s : LocalManager => ∀ m ∈ s.msgs, m.Err = none → m.Manifest ≠ none) _ ?_ _ _ _ h0
    intro p i e s hs
    rcases loadWalkFn_state env p i e s with h | h <;> rw [h]
    · exact hs
    · exact step s p hs
  · simpa [hd] using step ll ll.path h0

/-- An empty file is not a list: the decoder accepts it as a single manifest, the zero
value, and `buildMessages` answers with the one message of the single-manifest branch. -/
theorem buildMessages_empty_file :
    Sample.env.ReadFile "empty.yml" = Except.ok [] ∧
    Sample.env.UnmarshalOne [] = Except.ok Sample.zeroManifest ∧
    buildMessages Sample.env "empty.yml" = [newCreateActionMsg none (some Sample.required)] :=
  ⟨rfl, rfl, by decide⟩

/-- C8: for a file whose content is a YAML list of n manifests (the decoder refuses it as
a single manifest and decodes it as a list of n entries), `buildMessages` returns exactly
n messages in list order, the i-th being the i-th manifest without error if it passes
validation and a nil manifest with the validation error otherwise, so that each message
depends on its own entry alone; and `load` keeps the messages loaded before, appending to
them. -/
theorem C8_list_file_messages (env : Env) (fp : String) (data : Bytes) (e1 : Error)
    (mnfs : List (Option Manifest))
    (hread : env.ReadFile fp = Except.ok data)
    (hone : env.UnmarshalOne data = Except.error e1)
    (hlist : env.UnmarshalList data = Except.ok mnfs) :
    buildMessages env fp = mnfs.map (entryMessage env) ∧
    (buildMessages env fp).length = mnfs.length ∧
    (∀ i (hi : i < mnfs.length),
      (buildMessages env fp)[i]? = some (entryMessage env (mnfs.get ⟨i, hi⟩))) ∧
    (∀ mnf, (env.Struct mnf = none → entryMessage env mnf = newCreateActionMsg mnf none) ∧
      (∀ err, env.Struct mnf = some err →
        entryMessage env mnf = newCreateActionMsg none (some err))) ∧
    (∀ ll : LocalManager, ll.isDir = false →
      load env ll = (none, { ll with msgs := ll.msgs ++ buildMessages env ll.path })) ∧
    (∀ ll : LocalManager, ∃ more, (load env ll).2.msgs = ll.msgs ++ more) := by
  have hb : buildMessages env fp = mnfs.map (entryMessage env) := by
    simp [buildMessages, hread, hone, hlist, buildMessagesLoop_eq]
  refine ⟨hb, by simp [hb], ?_, ?_, ?_, load_keeps_msgs env⟩
  · intro i hi
    rw [hb]
    simp [List.getElem?_map, List.getElem?_eq_getElem hi]
  · intro mnf
    refine ⟨fun h => by simp [entryMessage, h], fun err h => by simp [entryMessage, h]⟩
  · intro ll hd
    simp [load, hd]

/-- C8, run: the sample list file has a nameless second entry; the first and third
messages carry their manifests, the second the validation error. -/
theorem C8_list_file_messages_witness :
    buildMessages Sample.env "manifests/list.yml"
      = [newCreateActionMsg (some Sample.node) none,
         newCreateActionMsg none (some Sample.required),
         newCreateActionMsg (some Sample.role) none] :=
  (C8_list_file_messages Sample.env "manifests/list.yml" [1] Sample.typeError
    [some Sample.node, some Sample.nameless, some Sample.role] rfl rfl rfl).1

/-! ### Readiness and liveness -/

theorem firstErr_eq_none (msgs : List Message) :
    firstErr msgs = none ↔ ∀ m ∈ msgs, m.Err = none := by
  induction msgs with
  | nil => simp [firstErr]
  | cons m ms ih =>
    unfold firstErr
    cases he : m.Err with
    | some e => simp [he]
    | none => simp [he, ih]

theorem firstErr_append (pre post : List Message) (m : Message) (e : Error)
    (hpre : ∀ x ∈ pre, x.Err = none) (hm : m.Err = some e) :
    firstErr (pre ++ m :: post) = some e := by
  induction pre with
  | nil => simp [firstErr, hm]
  | cons x xs ih =>
    have hx : x.Err = none := hpre x (List.mem_cons_self _ _)
    have := ih (fun y hy => hpre y (List.mem_cons_of_mem _ hy))
    simpa [firstErr, hx] using this

/-- C9: `CheckReadiness` returns nil exactly when no loaded message carries an error and
the stored load error is nil; otherwise it returns the error of the first message in load
order that carries one, or, when none does, the load error.  It returns nil on a manager
that `NewLocalManager` has just built. -/
theorem C9_check_readiness (ll : LocalManager) :
    (CheckReadiness ll = none ↔ (∀ m ∈ ll.msgs, m.Err = none) ∧ ll.err = none) ∧
    (∀ pre m post e, ll.msgs = pre ++ m :: post → (∀ x ∈ pre, x.Err = none) →
      m.Err = some e → CheckReadiness ll = some e) ∧
    ((∀ m ∈ ll.msgs, m.Err = none) → CheckReadiness ll = ll.err) ∧
    (∀ (env : Env) (cfg : Config) (ll0 : LocalManager),
      NewLocalManager env cfg = Except.ok ll0 → CheckReadiness ll0 = none) := by
  refine ⟨?_, ?_, ?_, ?_⟩
  · unfold CheckReadiness
    cases hf : firstErr ll.msgs with
    | some e =>
      have : ¬ ∀ m ∈ ll.msgs, m.Err = none := by
        rw [← firstErr_eq_none, hf]; simp
      simp [this]
    | none =>
      have := (firstErr_eq_none ll.msgs).1 hf
      simp only [LocalManager.Error]
      exact ⟨fun h => ⟨this, h⟩, fun h => h.2⟩
  · intro pre m post e hmsgs hpre hm
    simp [CheckReadiness, hmsgs, firstErr_append pre post m e hpre hm]
  · intro h
    simp [CheckReadiness, (firstErr_eq_none ll.msgs).2 h, LocalManager.Error]
  · intro env cfg ll0 h
    unfold NewLocalManager at h
    cases hs : env.Stat cfg.Path with
    | ok fs =>
      simp only [hs, Except.ok.injEq] at h
      subst h
      simp [CheckReadiness, firstErr, LocalManager.Error]
    | error err =>
      simp only [hs] at h
      split at h <;> simp at h

/-- C9, run: after loading the sample directory, readiness reports the validation error
of the nameless entry. -/
theorem C9_check_readiness_witness :
    CheckReadiness (load Sample.env
        { path := "manifests", isDir := true, isLive := false, msgs := [], loaded := false,
          err := none }).2
      = some Sample.required :=
  (C9_check_readiness (load Sample.env
      { path := "manifests", isDir := true, isLive := false, msgs := [], loaded := false,
        err := none }).2).2.1
    [newCreateActionMsg (some Sample.node) none]
    (newCreateActionMsg none (some Sample.required))
    [newCreateActionMsg (some Sample.role) none, newCreateActionMsg (some Sample.role) none]
    Sample.required (by decide) (by decide) (by decide)

theorem CheckLiveness_eq_none (ll : LocalManager) :
    CheckLiveness ll = none ↔ ll.isLive = true := by
  unfold CheckLiveness
  by_cases h : ll.isLive = true <;> simp [h]

/-- A manager that `NewLocalManager` has just built is not live, and its channel `loaded`
is open. -/
theorem NewLocalManager_fresh (env : Env) (cfg : Config) (ll : LocalManager)
    (h : NewLocalManager env cfg = Except.ok ll) : ll.isLive = false ∧ ll.loaded = false := by
  unfold NewLocalManager at h
  cases hs : env.Stat cfg.Path with
  | ok fs =>
    simp only [hs, Except.ok.injEq] at h
    subst h
    exact ⟨rfl, rfl⟩
  | error err =>
    simp only [hs] at h
    split at h <;> simp at h

/-- One lifecycle call keeps: the manager is live exactly when the last call that
completed is `Start`. -/
theorem lifecycleStep_keeps (env : Env) (ll : LocalManager) (last : Option Lifecycle)
    (call : Lifecycle) (h : ll.isLive = true ↔ last = some Lifecycle.Start) :
    ((lifecycleStep env ll call).1 = true →
      ((lifecycleStep env ll call).2.isLive = true ↔ some call = some Lifecycle.Start)) ∧
    ((lifecycleStep env ll call).1 = false →
      ((lifecycleStep env ll call).2.isLive = true ↔ last = some Lifecycle.Start)) := by
  cases call with
  | Stop => simp [lifecycleStep, Stop]
  | Start =>
    unfold lifecycleStep Start
    by_cases hl : (load env ll).2.loaded = true
    · simp [hl, (load_fields env ll).1, h]
    · simp [hl]

theorem lifecycleRun_keeps (env : Env) (calls : List Lifecycle) :
    ∀ (ll : LocalManager) (last : Option Lifecycle),
      (ll.isLive = true ↔ last = some Lifecycle.Start) →
      ((lifecycleRun env calls (ll, last)).1.isLive = true ↔
        (lifecycleRun env calls (ll, last)).2 = some Lifecycle.Start) := by
  induction calls with
  | nil => intro ll last h; simpa [lifecycleRun] using h
  | cons call calls ih =>
    intro ll last h
    have hk := lifecycleStep_keeps env ll last call h
    unfold lifecycleRun
    rcases hs : lifecycleStep env ll call with ⟨_ | _, ll1⟩
    · rw [hs] at hk
      simpa using ih ll1 last (hk.2 rfl)
    · rw [hs] at hk
      simpa using ih ll1 (some call) (hk.1 rfl)

/-- C10: `CheckLiveness` returns a `ConfigError` on a manager just built; `Start` on such
a manager returns, with nil or with the load error, and after any `Start` that returns
`CheckLiveness` returns nil; after `Stop` it returns the `ConfigError` again.  In every
state reached from a manager just built by `Start` and `Stop` calls, `CheckLiveness`
returns nil exactly when the last call that completed is `Start`. -/
theorem C10_liveness_follows_lifecycle (env : Env) :
    (∀ cfg ll, NewLocalManager env cfg = Except.ok ll →
      CheckLiveness ll = some (ConfigError "service LocalManifestManager is not live")) ∧
    (∀ cfg ll, NewLocalManager env cfg = Except.ok ll →
      Start env ll = (Outcome.returned (load env ll).1,
        { (load env ll).2 with err := (load env ll).1, loaded := true, isLive := true })) ∧
    (∀ ll r ll1, Start env ll = (Outcome.returned r, ll1) → CheckLiveness ll1 = none) ∧
    (∀ ll, Stop ll = (none, { ll with isLive := false }) ∧
      CheckLiveness (Stop ll).2
        = some (ConfigError "service LocalManifestManager is not live")) ∧
    (∀ cfg ll calls, NewLocalManager env cfg = Except.ok ll →
      (CheckLiveness (lifecycleRun env calls (ll, none)).1 = none ↔
        (lifecycleRun env calls (ll, none)).2 = some Lifecycle.Start)) := by
  refine ⟨?_, ?_, ?_, ?_, ?_⟩
  · intro cfg ll h
    have hf := (NewLocalManager_fresh env cfg ll h).1
    simp only [CheckLiveness, hf, LocalManager.ID, ManagerID]
    decide
  · intro cfg ll h
    have hf := (NewLocalManager_fresh env cfg ll h).2
    have hl := (load_fields env ll).2
    simp [Start, hl, hf]
  · intro ll r ll1 h
    unfold Start at h
    by_cases hl : (load env ll).2.loaded = true
    · simp [hl] at h
    · simp only [hl, Bool.false_eq_true, if_false, Prod.mk.injEq] at h
      rw [← h.2]
      simp [CheckLiveness]
  · intro ll
    refine ⟨rfl, ?_⟩
    simp only [CheckLiveness, Stop, LocalManager.ID, ManagerID]
    decide
  · intro cfg ll calls h
    rw [CheckLiveness_eq_none]
    have hf := (NewLocalManager_fresh env cfg ll h).1
    exact lifecycleRun_keeps env calls ll none (by simp [hf])

/-- C10, run: on the sample directory `Start`, `Stop`, `Start`: the second `Start` panics
on the closed channel, the last call that completed is `Stop`, and the manager is not
live. -/
theorem C10_liveness_follows_lifecycle_witness :
    NewLocalManager Sample.env ⟨"manifests"⟩
      = Except.ok { path := "manifests", isDir := true, isLive := false, msgs := [],
                    loaded := false, err := none } ∧
    (lifecycleRun Sample.env [Lifecycle.Start, Lifecycle.Stop, Lifecycle.Start]
      ({ path := "manifests", isDir := true, isLive := false, msgs := [],
         loaded := false, err := none }, none)).2 = some Lifecycle.Stop ∧
    (CheckLiveness
        (lifecycleRun Sample.env [Lifecycle.Start, Lifecycle.Stop, Lifecycle.Start]
          ({ path := "manifests", isDir := true, isLive := false, msgs := [],
             loaded := false, err := none }, none)).1 = none ↔
      (lifecycleRun Sample.env [Lifecycle.Start, Lifecycle.Stop, Lifecycle.Start]
        ({ path := "manifests", isDir := true, isLive := false, msgs := [],
           loaded := false, err := none }, none)).2 = some Lifecycle.Start) :=
  ⟨rfl, by decide,
   (C10_liveness_follows_lifecycle Sample.env).2.2.2.2 ⟨"manifests"⟩ _
     [Lifecycle.Start, Lifecycle.Stop, Lifecycle.Start] rfl⟩

end Manifests

/-! ## More on the connectors -/

section ConnectorCalls

variable {σ κ σ' κ' : Type}

/-- The transaction function of the Ethereum `Restore` only adds calls. -/
theorem Eth.eth_restoreTx_calls (Hex : Address → String) (c : Eth.Connector σ κ)
    (addr : Address) (acc : ETHAccount) (w : World σ κ) :
    ∃ rest, (RunInTransaction (Eth.restoreTx Hex c addr acc) w).2.calls = w.calls ++ rest := by
  unfold RunInTransaction Eth.restoreTx
  rcases hx : c.db.Restore w.db (Hex addr) with ⟨_ | e1, d⟩
  · rcases hy : c.store.Restore w.store acc.KeyID with ⟨_ | e2, st⟩
    · exact ⟨_, by simp [World.log, hx, hy]; rfl⟩
    · by_cases hn : IsNotSupportedError e2 = true
      · exact ⟨_, by simp [World.log, hx, hy, hn]; rfl⟩
      · exact ⟨_, by simp [World.log, hx, hy, hn]; rfl⟩
  · exact ⟨_, by simp [World.log, hx]; rfl⟩

/-- The transaction function of the keys `Restore` only adds calls. -/
theorem Keys.keys_restoreTx_calls (c : Keys.Connector σ κ) (id : String) (w : World σ κ) :
    ∃ rest, (RunInTransaction (Keys.restoreTx c id) w).2.calls = w.calls ++ rest := by
  unfold RunInTransaction Keys.restoreTx
  rcases hx : c.db.Restore w.db id with ⟨_ | e1, d⟩
  · rcases hy : c.store.Restore w.store id with ⟨_ | e2, st⟩
    · exact ⟨_, by simp [World.log, hx, hy]; rfl⟩
    · by_cases hn : IsNotSupportedError e2 = true
      · exact ⟨_, by simp [World.log, hx, hy, hn]; rfl⟩
      · exact ⟨_, by simp [World.log, hx, hy, hn]; rfl⟩
  · exact ⟨_, by simp [World.log, hx]; rfl⟩

/-- The calls of the Ethereum `Restore` begin with its permission check. -/
theorem Eth.eth_Restore_first_call (Hex : Address → String) (c : Eth.Connector σ κ)
    (addr : Address) (w : World σ κ) :
    ∃ rest, (Eth.Restore Hex c addr w).2.calls
      = w.calls ++ Call.checkPermission ⟨Action.delete, Resource.ethAccount⟩ :: rest := by
  cases hp : c.authorizator.CheckPermission ⟨Action.delete, Resource.ethAccount⟩ with
  | some e => exact ⟨[], by simp [Eth.Restore, hp, World.log]⟩
  | none =>
    cases hg : (Eth.Get Hex c addr w).1 with
    | ok acc => exact ⟨_, by rw [Eth.eth_Restore_live Hex c addr w acc hp hg]⟩
    | error e0 =>
      rw [Eth.eth_Restore_not_live Hex c addr w e0 hp hg]
      cases hd : c.db.GetDeleted w.db (Hex addr) with
      | error e1 => exact ⟨_, by simp; rfl⟩
      | ok acc =>
        obtain ⟨rest, hr⟩ := Eth.eth_restoreTx_calls Hex c addr acc
          { w with calls := w.calls ++
            ([Call.checkPermission ⟨Action.delete, Resource.ethAccount⟩,
              Call.checkPermission ⟨Action.read, Resource.ethAccount⟩] ++
             (if c.authorizator.CheckPermission ⟨Action.read, Resource.ethAccount⟩ = none
              then [Call.dbGet (Hex addr)] else []) ++ [Call.dbGetDeleted (Hex addr)]) }
        exact ⟨_, by simp only [hr]; simp; rfl⟩

/-- The calls of the keys `Restore` begin with its permission check. -/
theorem Keys.keys_Restore_first_call (c : Keys.Connector σ κ) (id : String) (w : World σ κ) :
    ∃ rest, (Keys.Restore c id w).2.calls
      = w.calls ++ Call.checkPermission ⟨Action.delete, Resource.key⟩ :: rest := by
  cases hp : c.authorizator.CheckPermission ⟨Action.delete, Resource.key⟩ with
  | some e => exact ⟨[], by simp [Keys.Restore, hp, World.log]⟩
  | none =>
    cases hg : (Keys.Get c id w).1 with
    | ok key => exact ⟨_, by rw [Keys.keys_Restore_live c id w key hp hg]⟩
    | error e0 =>
      rw [Keys.keys_Restore_not_live c id w e0 hp hg]
      cases hd : c.db.GetDeleted w.db id with
      | error e1 => exact ⟨_, by simp; rfl⟩
      | ok key =>
        obtain ⟨rest, hr⟩ := Keys.keys_restoreTx_calls c id
          { w with calls := w.calls ++
            ([Call.checkPermission ⟨Action.delete, Resource.key⟩,
              Call.checkPermission ⟨Action.read, Resource.key⟩] ++
             (if c.authorizator.CheckPermission ⟨Action.read, Resource.key⟩ = none
              then [Call.dbGet id] else []) ++ [Call.dbGetDeleted id]) }
        exact ⟨_, by simp only [hr]; simp; rfl⟩

/-- The calls of the Ethereum `Encrypt` begin with its permission check. -/
theorem Eth.eth_Encrypt_first_call (Hex : Address → String) (c : Eth.Connector σ κ)
    (addr : Address) (data : Bytes) (w : World σ κ) :
    ∃ rest, (Eth.Encrypt Hex c addr data w).2.calls
      = w.calls ++ Call.checkPermission ⟨Action.encrypt, Resource.ethAccount⟩ :: rest := by
  unfold Eth.Encrypt
  cases hp : c.authorizator.CheckPermission ⟨Action.encrypt, Resource.ethAccount⟩ with
  | some e => exact ⟨[], by simp [World.log]⟩
  | none =>
    cases hg : c.db.Get w.db (Hex addr) with
    | error e => exact ⟨_, by simp [World.log, hg]; rfl⟩
    | ok acc =>
      rcases hs : c.store.Encrypt w.store acc.KeyID data with ⟨_ | _, st⟩ <;>
        exact ⟨_, by simp [World.log, hg, hs]; rfl⟩

/-- The calls of the keys `Create`, given an algorithm, begin with its permission check. -/
theorem Keys.keys_Create_first_call (c : Keys.Connector σ κ) (id : String) (alg : Algorithm)
    (attr : Attributes) (w : World σ κ) :
    ∃ rest, (Keys.Create c id (some alg) attr w).2.calls
      = w.calls ++ Call.checkPermission ⟨Action.write, Resource.key⟩ :: rest := by
  unfold Keys.Create
  cases hp : c.authorizator.CheckPermission ⟨Action.write, Resource.key⟩ with
  | some e => exact ⟨[], by simp [World.log]⟩
  | none =>
    rcases hs : c.store.Create w.store id alg attr with ⟨e | key, st⟩
    · exact ⟨_, by simp [World.log, hs]; rfl⟩
    · rcases ha : c.db.Add w.db key with ⟨_ | _, d⟩ <;>
        exact ⟨_, by simp [World.log, hs, ha]; rfl⟩

/-- The steps of the Ethereum `Encrypt`: the logger, then the permission check. -/
theorem Eth.eth_EncryptSteps_begin (Hex : Address → String) (c : Eth.Connector σ κ)
    (addr : Address) (data : Bytes) (w : World σ κ) :
    ∃ rest, Eth.EncryptSteps Hex c addr data w
      = Step.logger (LoggerCall.With [("address", LogValue.str (Hex addr))]) ::
        Step.collaborator (Call.checkPermission ⟨Action.encrypt, Resource.ethAccount⟩) ::
        rest := by
  obtain ⟨rest, hr⟩ := Eth.eth_Encrypt_first_call Hex c addr data { w with calls := [] }
  unfold Eth.EncryptSteps
  rcases h : Eth.Encrypt Hex c addr data { w with calls := [] } with ⟨_ | _, w1⟩ <;>
    (rw [h] at hr; simp only [List.nil_append] at hr; simp [hr])

/-- The steps of the Ethereum `Restore`: the logger twice, then the permission check. -/
theorem Eth.eth_RestoreSteps_begin (Hex : Address → String) (c : Eth.Connector σ κ)
    (addr : Address) (w : World σ κ) :
    ∃ rest, Eth.RestoreSteps Hex c addr w
      = Step.logger (LoggerCall.With [("address", LogValue.str (Hex addr))]) ::
        Step.logger (LoggerCall.Debug "restoring ethereum account") ::
        Step.collaborator (Call.checkPermission ⟨Action.delete, Resource.ethAccount⟩) ::
        rest := by
  obtain ⟨rest, hr⟩ := Eth.eth_Restore_first_call Hex c addr { w with calls := [] }
  unfold Eth.RestoreSteps
  rcases h : Eth.Restore Hex c addr { w with calls := [] } with ⟨_ | _, w1⟩ <;>
    (rw [h] at hr; simp only [List.nil_append] at hr; simp [hr])

/-- The steps of the keys `Create`, given an algorithm: the logger twice, then the
permission check. -/
theorem Keys.keys_CreateSteps_begin (c : Keys.Connector σ κ) (id : String) (alg : Algorithm)
    (attr : Attributes) (w : World σ κ) :
    ∃ rest, Keys.CreateSteps c id (some alg) attr w
      = Step.logger (LoggerCall.With [("id", LogValue.str id),
          ("algorithm", LogValue.keyType alg.Type_),
          ("curve", LogValue.curve alg.EllipticCurve)]) ::
        Step.logger (LoggerCall.Debug "creating key") ::
        Step.collaborator (Call.checkPermission ⟨Action.write, Resource.key⟩) ::
        rest := by
  obtain ⟨rest, hr⟩ := Keys.keys_Create_first_call c id alg attr { w with calls := [] }
  unfold Keys.CreateSteps
  rcases h : Keys.Create c id (some alg) attr { w with calls := [] }
    with ⟨_ | _ | _, w1⟩ <;>
    (rw [h] at hr; simp only [List.nil_append] at hr; simp [h, hr])

/-- The steps of the keys `Restore`: the logger twice, then the permission check. -/
theorem Keys.keys_RestoreSteps_begin (c : Keys.Connector σ κ) (id : String) (w : World σ κ) :
    ∃ rest, Keys.RestoreSteps c id w
      = Step.logger (LoggerCall.With [("id", LogValue.str id)]) ::
        Step.logger (LoggerCall.Debug "restoring key") ::
        Step.collaborator (Call.checkPermission ⟨Action.delete, Resource.key⟩) ::
        rest := by
  obtain ⟨rest, hr⟩ := Keys.keys_Restore_first_call c id { w with calls := [] }
  unfold Keys.RestoreSteps
  rcases h : Keys.Restore c id { w with calls := [] } with ⟨_ | _, w1⟩ <;>
    (rw [h] at hr; simp only [List.nil_append] at hr; simp [hr])

/-- C18, counterexample: `CheckPermission` is not always the first call to a collaborator,
nor always made.  Keys `Create` with a nil algorithm, for a caller who may do everything,
panics with no step made and no call recorded: no pair is checked.  And the first step of
the Ethereum `Encrypt` on the sample account is a call to the logger; the check of
(encrypt, ethAccount) is the second. -/
theorem C18_create_without_algorithm_checks_nothing :
    Keys.Create ⟨Sample.storeWithRestore, Sample.keys, Sample.grants Sample.allOps⟩
        "key-2" none ⟨[]⟩ ⟨Sample.liveKeyTable, 0, []⟩
      = (none, ⟨Sample.liveKeyTable, 0, []⟩) ∧
    Keys.CreateSteps ⟨Sample.storeWithRestore, Sample.keys, Sample.grants Sample.allOps⟩
        "key-2" none ⟨[]⟩ ⟨Sample.liveKeyTable, 0, []⟩ = [] ∧
    Eth.EncryptSteps Sample.Hex
        ⟨Sample.storeWithRestore, Sample.ethAccounts, Sample.grants Sample.allOps⟩
        Sample.addr [7] ⟨Sample.liveTable, 0, []⟩
      = [Step.logger (LoggerCall.With [("address", LogValue.str "ab")]),
         Step.collaborator (Call.checkPermission ⟨Action.encrypt, Resource.ethAccount⟩),
         Step.collaborator (Call.dbGet "ab"),
         Step.collaborator (Call.storeEncrypt "key-1" [7]),
         Step.logger (LoggerCall.Debug "data encrypted successfully")] :=
  ⟨rfl, rfl, rfl⟩

/-- C18 (amended): whatever the arguments, the collaborators and the state of database and
store, each operation checks a fixed pair, and `CheckPermission` is the first call it
makes to the authorizator, the database or the store: Ethereum `Encrypt` checks (encrypt,
ethAccount), Ethereum `Restore` checks (delete, ethAccount), keys `Create`, given an
algorithm, checks (write, key), keys `Restore` checks (delete, key).  The logger is called
before the check: once by `Encrypt`, twice by the other three, and the check is the step
that follows.  Keys `Create` with a nil algorithm panics with no step made, and checks
nothing. -/
theorem C18_permission_check_follows_logger (Hex : Address → String)
    (ec : Eth.Connector σ κ) (kc : Keys.Connector σ' κ') (w : World σ κ) (w' : World σ' κ')
    (addr : Address) (data : Bytes) (id : String) (alg : Algorithm) (attr : Attributes) :
    (∃ rest, (Eth.Encrypt Hex ec addr data w).2.calls
      = w.calls ++ Call.checkPermission ⟨Action.encrypt, Resource.ethAccount⟩ :: rest) ∧
    (∃ rest, (Eth.Restore Hex ec addr w).2.calls
      = w.calls ++ Call.checkPermission ⟨Action.delete, Resource.ethAccount⟩ :: rest) ∧
    (∃ rest, (Keys.Create kc id (some alg) attr w').2.calls
      = w'.calls ++ Call.checkPermission ⟨Action.write, Resource.key⟩ :: rest) ∧
    (∃ rest, (Keys.Restore kc id w').2.calls
      = w'.calls ++ Call.checkPermission ⟨Action.delete, Resource.key⟩ :: rest) ∧
    (∃ rest, Eth.EncryptSteps Hex ec addr data w
      = Step.logger (LoggerCall.With [("address", LogValue.str (Hex addr))]) ::
        Step.collaborator (Call.checkPermission ⟨Action.encrypt, Resource.ethAccount⟩) ::
        rest) ∧
    (∃ rest, Eth.RestoreSteps Hex ec addr w
      = Step.logger (LoggerCall.With [("address", LogValue.str (Hex addr))]) ::
        Step.logger (LoggerCall.Debug "restoring ethereum account") ::
        Step.collaborator (Call.checkPermission ⟨Action.delete, Resource.ethAccount⟩) ::
        rest) ∧
    (∃ rest, Keys.CreateSteps kc id (some alg) attr w'
      = Step.logger (LoggerCall.With [("id", LogValue.str id),
          ("algorithm", LogValue.keyType alg.Type_),
          ("curve", LogValue.curve alg.EllipticCurve)]) ::
        Step.logger (LoggerCall.Debug "creating key") ::
        Step.collaborator (Call.checkPermission ⟨Action.write, Resource.key⟩) ::
        rest) ∧
    (∃ rest, Keys.RestoreSteps kc id w'
      = Step.logger (LoggerCall.With [("id", LogValue.str id)]) ::
        Step.logger (LoggerCall.Debug "restoring key") ::
        Step.collaborator (Call.checkPermission ⟨Action.delete, Resource.key⟩) ::
        rest) ∧
    Keys.Create kc id none attr w' = (none, w') ∧
    Keys.CreateSteps kc id none attr w' = [] :=
  ⟨Eth.eth_Encrypt_first_call Hex ec addr data w, Eth.eth_Restore_first_call Hex ec addr w,
   Keys.keys_Create_first_call kc id alg attr w', Keys.keys_Restore_first_call kc id w',
   Eth.eth_EncryptSteps_begin Hex ec addr data w, Eth.eth_RestoreSteps_begin Hex ec addr w,
   Keys.keys_CreateSteps_begin kc id alg attr w', Keys.keys_RestoreSteps_begin kc id w',
   rfl, rfl⟩

/-- C19: in the keys `Create`, when the store has created the key and the database insert
fails, `Create` returns the database error and no key; after the store's `Create` the
only call is `db.Add`, so nothing is undone in the store, whose state is the one its
`Create` left, with the new key. -/
theorem C19_create_leaks_key_on_db_error (c : Keys.Connector σ κ) (w : World σ κ)
    (id : String) (alg : Algorithm) (attr : Attributes) (key : Key) (st : κ) (err : Error)
    (d : σ)
    (hp : c.authorizator.CheckPermission ⟨Action.write, Resource.key⟩ = none)
    (hs : c.store.Create w.store id alg attr = (Except.ok key, st))
    (ha : c.db.Add w.db key = (Except.error err, d)) :
    Keys.Create c id (some alg) attr w
      = (some (Except.error err),
         { db := d, store := st, calls := w.calls ++
            [Call.checkPermission ⟨Action.write, Resource.key⟩,
             Call.storeCreate id alg attr, Call.dbAdd key] }) := by
  simp [Keys.Create, hp, hs, ha, World.log]

/-- C19, run: the sample table already holds `key-1`; the store creates the key again
(its counter goes from 0 to 1), the insert fails, and the store is left at 1. -/
theorem C19_create_leaks_key_on_db_error_witness :
    Keys.Create ⟨Sample.storeWithRestore, Sample.keys, Sample.grants Sample.allOps⟩
        "key-1" (some Sample.algo) ⟨[]⟩ ⟨Sample.liveKeyTable, 0, []⟩
      = (some (Except.error ⟨ErrorKind.alreadyExists, "already exists"⟩),
         ⟨Sample.liveKeyTable, 1,
          [Call.checkPermission ⟨Action.write, Resource.key⟩,
           Call.storeCreate "key-1" Sample.algo ⟨[]⟩,
           Call.dbAdd (Sample.newKey "key-1" Sample.algo ⟨[]⟩)]⟩) :=
  C19_create_leaks_key_on_db_error
    ⟨Sample.storeWithRestore, Sample.keys, Sample.grants Sample.allOps⟩
    ⟨Sample.liveKeyTable, 0, []⟩ "key-1" Sample.algo ⟨[]⟩
    (Sample.newKey "key-1" Sample.algo ⟨[]⟩) 1 ⟨ErrorKind.alreadyExists, "already exists"⟩
    Sample.liveKeyTable (by decide) rfl rfl

end ConnectorCalls

namespace Manifests

/-! ### The two parses of `buildMessages` -/

/-- The loop of `buildMessages` returns no message only for no entry. -/
theorem buildMessagesLoop_eq_nil (env : Env) (mnfs : List (Option Manifest)) :
    buildMessagesLoop env mnfs [] = [] ↔ mnfs = [] := by
  rw [buildMessagesLoop_eq]
  simp

/-- C20: `buildMessages` parses the content of a readable file as a single manifest first:
if that parse succeeds the result is exactly one message, the manifest if it validates and
the validation error otherwise, and the list parse plays no part in it (the result is the
same for every other list decoder); if the single parse fails the content is parsed as a
list, and if that fails too the result is exactly one message with the error of the list
parse; if the file cannot be read the result is exactly one message with the read error.
The result is empty only if the single parse fails and the list parse yields no
manifest. -/
theorem C20_single_parse_then_list_parse (env : Env) (fp : String) :
    (∀ data mnf, env.ReadFile fp = Except.ok data → env.UnmarshalOne data = Except.ok mnf →
      (env.Struct (some mnf) = none →
        buildMessages env fp = [newCreateActionMsg (some mnf) none]) ∧
      (∀ err, env.Struct (some mnf) = some err →
        buildMessages env fp = [newCreateActionMsg none (some err)]) ∧
      (∀ unmarshalList : Bytes → Except Error (List (Option Manifest)),
        buildMessages { env with UnmarshalList := unmarshalList } fp = buildMessages env fp)) ∧
    (∀ data e1 mnfs, env.ReadFile fp = Except.ok data →
      env.UnmarshalOne data = Except.error e1 → env.UnmarshalList data = Except.ok mnfs →
      buildMessages env fp = buildMessagesLoop env mnfs []) ∧
    (∀ data e1 e2, env.ReadFile fp = Except.ok data →
      env.UnmarshalOne data = Except.error e1 → env.UnmarshalList data = Except.error e2 →
      buildMessages env fp = [newCreateActionMsg none (some e2)]) ∧
    (∀ err, env.ReadFile fp = Except.error err →
      buildMessages env fp = [newCreateActionMsg none (some err)]) ∧
    (buildMessages env fp = [] →
      ∃ data e1, env.ReadFile fp = Except.ok data ∧
        env.UnmarshalOne data = Except.error e1 ∧ env.UnmarshalList data = Except.ok []) := by
  refine ⟨?_, ?_, ?_, ?_, ?_⟩
  · intro data mnf hr h1
    refine ⟨fun hv => by simp [buildMessages, hr, h1, hv],
      fun err hv => by simp [buildMessages, hr, h1, hv], ?_⟩
    intro unmarshalList
    cases hv : env.Struct (some mnf) <;> simp [buildMessages, hr, h1, hv]
  · intro data e1 mnfs hr h1 hl
    simp [buildMessages, hr, h1, hl]
  · intro data e1 e2 hr h1 hl
    simp [buildMessages, hr, h1, hl]
  · intro err hr
    simp [buildMessages, hr]
  · intro h
    unfold buildMessages at h
    cases hr : env.ReadFile fp with
    | error err => simp [hr] at h
    | ok data =>
      cases h1 : env.UnmarshalOne data with
      | ok mnf => cases hv : env.Struct (some mnf) <;> simp [hr, h1, hv] at h
      | error e1 =>
        cases hl : env.UnmarshalList data with
        | error e2 => simp [hr, h1, hl] at h
        | ok mnfs =>
          simp only [hr, h1, hl] at h
          rw [buildMessagesLoop_eq_nil] at h
          exact ⟨data, e1, rfl, h1, by rw [hl, h]⟩

/-- C20, run: the sample file `one.yaml` parses as a single manifest, a valid role, and
the result is the one message carrying it. -/
theorem C20_single_parse_then_list_parse_witness :
    buildMessages Sample.env "manifests/sub/one.yaml"
      = [newCreateActionMsg (some Sample.role) none] :=
  ((C20_single_parse_then_list_parse Sample.env "manifests/sub/one.yaml").1
    [2] Sample.role rfl rfl).1 (by decide)

end Manifests

namespace Manifests

/-! ### What `load` loads -/

theorem LocalManager.msgs_append_nil (ll : LocalManager) :
    ({ ll with msgs := ll.msgs ++ [] } : LocalManager) = ll := by
  cases ll; simp

/-- The messages of the files `fs` that have a manifest extension. -/
theorem loadWalkFn_file (env : Env) (fp : String) (ll : LocalManager) :
    loadWalkFn env fp (some ⟨false⟩) none ll
      = (none, { ll with msgs := ll.msgs ++
          ([fp].filter hasManifestExt).flatMap (buildMessages env) }) := by
  unfold loadWalkFn
  by_cases hx : hasManifestExt fp = true
  · have hx1 := hx
    unfold hasManifestExt at hx1
    simp [hx, hx1]
  · have hx1 := hx
    unfold hasManifestExt at hx1
    simp only [Bool.false_eq_true, if_false, hx1]
    simp [hx, LocalManager.msgs_append_nil]

mutual

/-- The walk of `load` appends the messages of the reached files that have a manifest
extension and fails exactly when it meets something it cannot read. -/
theorem walk_load (env : Env) :
    ∀ (path : String) (t : FileTree) (ll : LocalManager),
      walk (loadWalkFn env) path t ll
        = (if (FileTree.reached path t).2 then
             some (InvalidFormatError "failed to walk the file tree") else none,
           { ll with
             msgs := ll.msgs ++
               List.flatMap ((FileTree.reached path t).1.filter hasManifestExt)
                 (buildMessages env) })
  | path, FileTree.file _, ll => by
    rw [walk, FileTree.reached, loadWalkFn_file]; simp
  | path, FileTree.unreadable _ err, ll => by
    rw [walk, FileTree.reached]
    simp [loadWalkFn, LocalManager.msgs_append_nil]
  | path, FileTree.dir _ readErr entries, ll => by
    cases readErr with
    | some e =>
      rw [walk]
      simp [FileTree.reached, loadWalkFn, LocalManager.msgs_append_nil]
    | none =>
      rw [walk]
      simp only [FileTree.reached, loadWalkFn, if_true]
      exact walkEntries_load env path entries ll

theorem walkEntries_load (env : Env) :
    ∀ (path : String) (ts : List FileTree) (ll : LocalManager),
      walkEntries (loadWalkFn env) path ts ll
        = (if (FileTree.reachedIn path ts).2 then
             some (InvalidFormatError "failed to walk the file tree") else none,
           { ll with
             msgs := ll.msgs ++
               List.flatMap ((FileTree.reachedIn path ts).1.filter hasManifestExt)
                 (buildMessages env) })
  | path, [], ll => by
    rw [walkEntries, FileTree.reachedIn]
    simp [LocalManager.msgs_append_nil]
  | path, t :: ts, ll => by
    rw [walkEntries, FileTree.reachedIn, walk_load env (Join path (FileTree.name t)) t ll]
    rcases hr : FileTree.reached (Join path (FileTree.name t)) t with ⟨fs, _ | _⟩
    · simp only [Bool.false_eq_true, if_false]
      rw [walkEntries_load env path ts]
      simp [List.filter_append, List.flatMap_append]
    · simp

end

mutual

/-- In a tree the walk can read, the walk reaches every file. -/
theorem reached_of_walkable :
    ∀ (path : String) (t : FileTree), FileTree.walkable t = true →
      FileTree.reached path t = (FileTree.files path t, false)
  | path, FileTree.file _, _ => by simp [FileTree.reached, FileTree.files]
  | path, FileTree.unreadable _ err, h => by simp [FileTree.walkable] at h
  | path, FileTree.dir _ readErr entries, h => by
    cases readErr with
    | some e => simp [FileTree.walkable] at h
    | none =>
      simp only [FileTree.walkable, Option.isNone_none, Bool.true_and] at h
      simp only [FileTree.reached, FileTree.files]
      exact reachedIn_of_walkable path entries h

theorem reachedIn_of_walkable :
    ∀ (path : String) (ts : List FileTree), FileTree.walkableAll ts = true →
      FileTree.reachedIn path ts = (FileTree.filesIn path ts, false)
  | path, [], _ => by simp [FileTree.reachedIn, FileTree.filesIn]
  | path, t :: ts, h => by
    simp only [FileTree.walkableAll, Bool.and_eq_true] at h
    rw [FileTree.reachedIn, reached_of_walkable (Join path (FileTree.name t)) t h.1,
      reachedIn_of_walkable path ts h.2, FileTree.filesIn]

end

/-- C13: when the path is a directory that the walk can read throughout, `load` returns
nil and appends the messages built from the files of the tree whose extension is exactly
`.yml` or `.yaml`, in walk order, sub-directories included; no other file contributes a
message.  In general the walk ends at the first entry or directory it cannot read, `load`
then returns an `InvalidFormat` error, and this holds for the files reached until then.
When the path is a single file, `load` appends the messages built from that file, whatever
its extension, and returns nil. -/
theorem C13_load_walks_manifest_files (env : Env) (ll : LocalManager) :
    (ll.isDir = true → FileTree.walkable (env.Tree ll.path) = true →
      load env ll
        = (none,
           { ll with
             msgs := ll.msgs ++
               List.flatMap ((FileTree.files ll.path (env.Tree ll.path)).filter hasManifestExt)
                 (buildMessages env) })) ∧
    (ll.isDir = true →
      load env ll
        = (if (FileTree.reached ll.path (env.Tree ll.path)).2 then
             some (InvalidFormatError "failed to walk the file tree") else none,
           { ll with
             msgs := ll.msgs ++
               List.flatMap
                 ((FileTree.reached ll.path (env.Tree ll.path)).1.filter hasManifestExt)
                 (buildMessages env) })) ∧
    (ll.isDir = false →
      load env ll = (none, { ll with msgs := ll.msgs ++ buildMessages env ll.path })) ∧
    (∀ fp, hasManifestExt fp = true ↔ Ext fp = ".yml" ∨ Ext fp = ".yaml") := by
  refine ⟨?_, ?_, ?_, ?_⟩
  · intro hd hw
    have hl : load env ll = walk (loadWalkFn env) ll.path (env.Tree ll.path) ll := by
      unfold load; rw [if_neg (by simp [hd])]
    rw [hl, walk_load, reached_of_walkable _ _ hw]
    simp
  · intro hd
    have hl : load env ll = walk (loadWalkFn env) ll.path (env.Tree ll.path) ll := by
      unfold load; rw [if_neg (by simp [hd])]
    rw [hl, walk_load]
  · intro hd
    simp [load, hd]
  · intro fp
    simp [hasManifestExt]

/-- C13, run: the sample directory holds `list.yml`, `notes.txt` and `sub/one.yaml`; the
three messages of the list and the one of the file in the sub-directory are loaded, in
that order, and none for `notes.txt`. -/
theorem C13_load_walks_manifest_files_witness :
    load Sample.env
        { path := "manifests", isDir := true, isLive := false, msgs := [], loaded := false,
          err := none }
      = (none,
         { path := "manifests", isDir := true, isLive := false, loaded := false, err := none,
           msgs := [newCreateActionMsg (some Sample.node) none,
                    newCreateActionMsg none (some Sample.required),
                    newCreateActionMsg (some Sample.role) none,
                    newCreateActionMsg (some Sample.role) none] }) :=
  (C13_load_walks_manifest_files Sample.env
    { path := "manifests", isDir := true, isLive := false, msgs := [], loaded := false,
      err := none }).1 rfl (by decide)

/-! ### No check of kind and name -/

theorem entryMessages_without_error (env : Env) (mnfs : List (Option Manifest)) :
    (mnfs.map (entryMessage env)).filter (fun m => m.Err.isNone)
      = (mnfs.filter (fun m => (env.Struct m).isNone)).map
          (fun m => newCreateActionMsg m none) := by
  induction mnfs with
  | nil => simp
  | cons m ms ih =>
    cases hv : env.Struct m <;>
      simp [List.filter_cons, entryMessage, newCreateActionMsg, hv] <;>
      simpa [entryMessage, newCreateActionMsg] using ih

/-- The messages of a file that carry no error are those of its valid entries. -/
theorem buildMessages_without_error (env : Env) (fp : String) :
    (buildMessages env fp).filter (fun m => m.Err.isNone)
      = (validEntries env fp).map (fun m => newCreateActionMsg m none) := by
  unfold buildMessages validEntries
  cases hr : env.ReadFile fp with
  | error err => simp [newCreateActionMsg]
  | ok data =>
    cases h1 : env.UnmarshalOne data with
    | ok mnf =>
      cases hv : env.Struct (some mnf) <;>
        simp [newCreateActionMsg, h1, hv, List.filter_cons]
    | error e1 =>
      cases hl : env.UnmarshalList data with
      | error e2 => simp [newCreateActionMsg, h1, hl]
      | ok mnfs =>
        simp only [h1, hl, buildMessagesLoop_eq, List.nil_append]
        exact entryMessages_without_error env mnfs

/-- The messages `load` appends are those built from the loaded files, in order. -/
theorem load_msgs_eq (env : Env) (ll : LocalManager) :
    (load env ll).2.msgs = ll.msgs ++ (loadedFiles env ll).flatMap (buildMessages env) := by
  unfold loadedFiles
  by_cases hd : ll.isDir = true
  · have hl : load env ll = walk (loadWalkFn env) ll.path (env.Tree ll.path) ll := by
      unfold load; rw [if_neg (by simp [hd])]
    rw [hl, walk_load]
    simp [hd]
  · simp [load, hd]

/-- C12 fails on the sample directory: `list.yml` and `sub/one.yaml` both hold the role
`admin`; `Start` on a manager just built returns nil and the loaded set holds two
messages without error whose manifests have the same kind and the same name. -/
theorem C12_same_kind_and_name_loaded_twice :
    NewLocalManager Sample.env ⟨"manifests"⟩
      = Except.ok { path := "manifests", isDir := true, isLive := false, msgs := [],
                    loaded := false, err := none } ∧
    (Start Sample.env
      { path := "manifests", isDir := true, isLive := false, msgs := [], loaded := false,
        err := none }).1 = Outcome.returned none ∧
    (Start Sample.env
      { path := "manifests", isDir := true, isLive := false, msgs := [], loaded := false,
        err := none }).2.msgs
      = [newCreateActionMsg (some Sample.node) none,
         newCreateActionMsg none (some Sample.required),
         newCreateActionMsg (some Sample.role) none,
         newCreateActionMsg (some Sample.role) none] ∧
    ¬ uniqueKindName (Start Sample.env
      { path := "manifests", isDir := true, isLive := false, msgs := [], loaded := false,
        err := none }).2.msgs := by
  refine ⟨rfl, by decide, by decide, ?_⟩
  unfold uniqueKindName
  decide

/-- C12, amended: after loading into a manager without messages, the messages without
error are, in order, one for each entry of the loaded files that passes validation, none
dropped and none merged; so kind and name are unique across the loaded set exactly when
no two valid entries of the loaded files have the same kind and the same name, and then
they are unique across every batch sent to a subscriber. -/
theorem C12_unique_iff_entries_unique (env : Env) (ll : LocalManager) (h0 : ll.msgs = []) :
    (load env ll).2.msgs.filter (fun m => m.Err.isNone)
      = ((loadedFiles env ll).flatMap (validEntries env)).map
          (fun m => newCreateActionMsg m none) ∧
    (uniqueKindName (load env ll).2.msgs ↔
      ((loadedFiles env ll).flatMap (validEntries env)).Pairwise
        (fun x y => sameManifest x y = false)) ∧
    (∀ kinds, uniqueKindName (load env ll).2.msgs →
      uniqueKindName ((load env ll).2.msgs.filter (wanted kinds))) := by
  have h1 : (load env ll).2.msgs.filter (fun m => m.Err.isNone)
      = ((loadedFiles env ll).flatMap (validEntries env)).map
          (fun m => newCreateActionMsg m none) := by
    rw [load_msgs_eq, h0, List.nil_append, List.filter_flatMap, List.map_flatMap]
    exact congrArg _ (funext (buildMessages_without_error env))
  refine ⟨h1, ?_, ?_⟩
  · unfold uniqueKindName
    rw [h1, List.pairwise_map]
    rfl
  · intro kinds h
    unfold uniqueKindName at h ⊢
    refine List.Pairwise.sublist ?_ h
    exact List.Sublist.filter _ (List.filter_sublist _)

/-- C12, run: the file `list.yml` alone holds a node and a role, of different kinds, and
the loaded set is unique in kind and name. -/
theorem C12_unique_iff_entries_unique_witness :
    uniqueKindName (load Sample.env
      { path := "manifests/list.yml", isDir := false, isLive := false, msgs := [],
        loaded := false, err := none }).2.msgs :=
  ((C12_unique_iff_entries_unique Sample.env
    { path := "manifests/list.yml", isDir := false, isLive := false, msgs := [],
      loaded := false, err := none } rfl).2.1).2 (by decide)

end Manifests

namespace Manifests

/-! ### `Unsubscribe` and a batch nobody reads -/

/-- C11 fails in the code.  The sample manager is loaded without error, the subscriber
channel is unbuffered and nobody reads it, and `Unsubscribe` is called.  The goroutine,
whose `select` has only the case `<-ll.loaded` ready, goes to send the batch in `inbox`;
`Unsubscribe` closes `stop` and waits for `done`.  In the state reached no step is
possible: the goroutine is blocked in the send, which does not look at `stop`, and
`Unsubscribe` is blocked on `done`, which only the goroutine closes. -/
theorem C11_unsubscribe_blocks_behind_unread_batch :
    Sample.loadedManager
      = { path := "manifests/sub/one.yaml", isDir := false, isLive := true,
          msgs := [newCreateActionMsg (some Sample.role) none], loaded := true,
          err := none } ∧
    subSteps (unsubscribeCalled 0 Sample.loadedManager none)
      = [{ unsubscribeCalled 0 Sample.loadedManager none with
             proc := ProcessPC.sendingBatch [newCreateActionMsg (some Sample.role) none] },
         { unsubscribeCalled 0 Sample.loadedManager none with
             sub := { Subscribe none with stop := true },
             unsub := UnsubscribePC.waitingDone }] ∧
    subSteps { unsubscribeCalled 0 Sample.loadedManager none with
                 proc := ProcessPC.sendingBatch [newCreateActionMsg (some Sample.role) none] }
      = [{ unsubscribeCalled 0 Sample.loadedManager none with
             sub := { Subscribe none with stop := true },
             proc := ProcessPC.sendingBatch [newCreateActionMsg (some Sample.role) none],
             unsub := UnsubscribePC.waitingDone }] ∧
    subSteps { unsubscribeCalled 0 Sample.loadedManager none with
                 sub := { Subscribe none with stop := true },
                 proc := ProcessPC.sendingBatch [newCreateActionMsg (some Sample.role) none],
                 unsub := UnsubscribePC.waitingDone }
      = [] := by
  refine ⟨by decide, by decide, by decide, by decide⟩

end Manifests

/-! ## The `eth_accounts` interceptor -/

namespace Nodes

/-- C14: `ethAccounts` takes the user info from the context and asks `ListAllAccounts`
with that context and that user info; when `ListAllAccounts` returns no error the result
is exactly its address list, so every address it lists is in the result, and no error;
when it returns an error the result is that error and a nil list. -/
theorem C14_eth_accounts_lists_all_accounts {Ctx U : Type}
    (UserInfoContextFromContext : Ctx → U) (i : Interceptor Ctx U) (ctx : Ctx) :
    (∀ addresses,
      i.stores.ListAllAccounts ctx (UserInfoContextFromContext ctx) = (addresses, none) →
      ethAccounts UserInfoContextFromContext i ctx = (addresses, none)) ∧
    (∀ addresses err,
      i.stores.ListAllAccounts ctx (UserInfoContextFromContext ctx) = (addresses, some err) →
      ethAccounts UserInfoContextFromContext i ctx = (none, some err)) ∧
    (∀ list a,
      (i.stores.ListAllAccounts ctx (UserInfoContextFromContext ctx)).1 = some list →
      (i.stores.ListAllAccounts ctx (UserInfoContextFromContext ctx)).2 = none →
      a ∈ list → ∃ result, (ethAccounts UserInfoContextFromContext i ctx).1 = some result ∧
        a ∈ result) := by
  refine ⟨?_, ?_, ?_⟩
  · intro addresses h
    simp [ethAccounts, h]
  · intro addresses err h
    simp [ethAccounts, h]
  · intro list a h1 h2 ha
    rcases h : i.stores.ListAllAccounts ctx (UserInfoContextFromContext ctx) with ⟨l, e⟩
    rw [h] at h1 h2
    simp only at h1 h2
    subst h1 h2
    exact ⟨list, by simp [ethAccounts, h], ha⟩

/-- C14, run: a store manager that lists the sample address for the user `alice` and
fails for anybody else. -/
theorem C14_eth_accounts_lists_all_accounts_witness :
    ethAccounts (fun ctx : String => ctx)
        ⟨⟨fun _ user => if user = "alice" then (some [Sample.addr], none)
                        else (some [], some Sample.forbidden)⟩⟩ "alice"
      = (some [Sample.addr], none) ∧
    ethAccounts (fun ctx : String => ctx)
        ⟨⟨fun _ user => if user = "alice" then (some [Sample.addr], none)
                        else (some [], some Sample.forbidden)⟩⟩ "bob"
      = (none, some Sample.forbidden) :=
  ⟨(C14_eth_accounts_lists_all_accounts (fun ctx : String => ctx)
      ⟨⟨fun _ user => if user = "alice" then (some [Sample.addr], none)
                      else (some [], some Sample.forbidden)⟩⟩ "alice").1 _ rfl,
   (C14_eth_accounts_lists_all_accounts (fun ctx : String => ctx)
      ⟨⟨fun _ user => if user = "alice" then (some [Sample.addr], none)
                      else (some [], some Sample.forbidden)⟩⟩ "bob").2.1 (some []) _ rfl⟩

end Nodes

/-! ## The websocket upgrader -/

namespace Websocket

/-- C15: `SetDefault` keeps every field that is set and fills every field that is not:
handshake timeout 0, read buffer size 1024, write buffer size 1024, compression off.
Afterwards no field is nil, so `NewUpgrader` reads all four, and a second `SetDefault`
changes nothing. -/
theorem C15_set_default (cfg : UpgraderConfig) :
    cfg.SetDefault.HandshakeTimeout = some (cfg.HandshakeTimeout.getD ⟨0⟩) ∧
    cfg.SetDefault.ReadBufferSize = some (cfg.ReadBufferSize.getD 1024) ∧
    cfg.SetDefault.WriteBufferSize = some (cfg.WriteBufferSize.getD 1024) ∧
    cfg.SetDefault.EnableCompression = some (cfg.EnableCompression.getD false) ∧
    NewUpgrader cfg.SetDefault
      = some { HandshakeTimeout := (cfg.HandshakeTimeout.getD ⟨0⟩).Duration,
               ReadBufferSize := cfg.ReadBufferSize.getD 1024,
               WriteBufferSize := cfg.WriteBufferSize.getD 1024,
               EnableCompression := cfg.EnableCompression.getD false } ∧
    cfg.SetDefault.SetDefault = cfg.SetDefault := by
  rcases cfg with ⟨_ | t, _ | r, _ | w, _ | c⟩ <;>
    simp [UpgraderConfig.SetDefault, NewUpgrader]

end Websocket

/-! ## Basic authentication -/

namespace Http

/-- C16: for a configuration that is not nil and a request whose `Authorization` header
has a non-empty value, the preparer of `BasicAuth` returns the request as it is, headers
and URL user information included, and no error; for a nil configuration `BasicAuth` is
the no-op preparer, which returns every request as it is. -/
theorem C16_basic_auth_keeps_authorization (EncodeToString : String → String)
    (cfg : BasicAuthConfig) (req : Request)
    (h : Header.Get req.Header "Authorization" ≠ "") :
    BasicAuth EncodeToString (some cfg) req = some (req, none) ∧
    BasicAuth EncodeToString none = NoopPreparer ∧
    (∀ r : Request, NoopPreparer r = some (r, none)) := by
  refine ⟨?_, rfl, fun r => rfl⟩
  simp [BasicAuth, h]

/-- C16, run: a request that carries a bearer token and no URL. -/
theorem C16_basic_auth_keeps_authorization_witness :
    BasicAuth (fun s => s) (some ⟨"user", "secret"⟩)
        ⟨some (fun k => if k = "Authorization" then ["Bearer token"] else []), none⟩
      = some (⟨some (fun k => if k = "Authorization" then ["Bearer token"] else []), none⟩,
              none) :=
  (C16_basic_auth_keeps_authorization (fun s => s) ⟨"user", "secret"⟩
    ⟨some (fun k => if k = "Authorization" then ["Bearer token"] else []), none⟩
    (by decide)).1

end Http

/-! ## Conversion to JSON values -/

namespace Json

/-- C17 fails in the code at a `map[string]interface{}` that holds a
`map[interface{}]interface{}` with the string key `b`: every key of a
`map[interface{}]interface{}` in it is a string, `RecursiveToJSON` takes the `default`
case of its type switch and returns the value as it is, and the result still holds the
`map[interface{}]interface{}`. -/
theorem C17_map_inside_string_map_is_kept :
    GoValue.keysAreStrings
        (GoValue.mapString
          [("a", GoValue.mapAny [(GoValue.str "b", GoValue.int 1)])]) = true ∧
    RecursiveToJSON
        (GoValue.mapString [("a", GoValue.mapAny [(GoValue.str "b", GoValue.int 1)])])
      = some (GoValue.mapString
          [("a", GoValue.mapAny [(GoValue.str "b", GoValue.int 1)])]) ∧
    (∀ r, RecursiveToJSON
        (GoValue.mapString [("a", GoValue.mapAny [(GoValue.str "b", GoValue.int 1)])])
      = some r → GoValue.hasMapAny r = true) := by
  refine ⟨by decide, rfl, ?_⟩
  intro r h
  have h1 : RecursiveToJSON
        (GoValue.mapString [("a", GoValue.mapAny [(GoValue.str "b", GoValue.int 1)])])
      = some (GoValue.mapString
          [("a", GoValue.mapAny [(GoValue.str "b", GoValue.int 1)])]) := rfl
  rw [h1] at h
  cases h
  decide

/-- Writing a value without a `map[interface{}]interface{}` into a map without one
leaves a map without one. -/
theorem setKey_hasMapAny (newMap : List (String × GoValue)) (key : String) (value : GoValue)
    (hm : GoValue.someFieldHasMapAny newMap = false) (hv : GoValue.hasMapAny value = false) :
    GoValue.someFieldHasMapAny (setKey newMap key value) = false := by
  induction newMap with
  | nil => simp [setKey, GoValue.someFieldHasMapAny, hv]
  | cons kv rest ih =>
    obtain ⟨k, v⟩ := kv
    simp only [GoValue.someFieldHasMapAny, Bool.or_eq_false_iff] at hm
    unfold setKey
    by_cases hk : k = key
    · simp [hk, GoValue.someFieldHasMapAny, hv, hm.2]
    · simp [hk, GoValue.someFieldHasMapAny, hm.1, ih hm.2]

mutual

/-- On a decoded value whose maps have string keys `RecursiveToJSON` returns, and its
result holds no `map[interface{}]interface{}`. -/
theorem RecursiveToJSON_decoded :
    ∀ v : GoValue, GoValue.decoded v = true → GoValue.keysAreStrings v = true →
      ∃ r, RecursiveToJSON v = some r ∧ GoValue.hasMapAny r = false
  | GoValue.null, _, _ => ⟨_, rfl, rfl⟩
  | GoValue.str _, _, _ => ⟨_, rfl, rfl⟩
  | GoValue.int _, _, _ => ⟨_, rfl, rfl⟩
  | GoValue.bool _, _, _ => ⟨_, rfl, rfl⟩
  | GoValue.slice vs, hd, hk => by
    simp only [GoValue.decoded] at hd
    simp only [GoValue.keysAreStrings] at hk
    obtain ⟨rs, h1, h2⟩ := toJSONSlice_decoded vs hd hk
    exact ⟨GoValue.jsonArray rs, by simp [RecursiveToJSON, h1], by
      simpa [GoValue.hasMapAny] using h2⟩
  | GoValue.mapAny kvs, hd, hk => by
    simp only [GoValue.decoded] at hd
    simp only [GoValue.keysAreStrings] at hk
    obtain ⟨m, h1, h2⟩ := toJSONMap_decoded kvs [] hd hk rfl
    exact ⟨GoValue.jsonMap m, by simp [RecursiveToJSON, h1], by
      simpa [GoValue.hasMapAny] using h2⟩
  | GoValue.mapString _, hd, _ => by simp [GoValue.decoded] at hd
  | GoValue.jsonArray _, hd, _ => by simp [GoValue.decoded] at hd
  | GoValue.jsonMap _, hd, _ => by simp [GoValue.decoded] at hd

theorem toJSONSlice_decoded :
    ∀ vs : List GoValue, GoValue.allDecoded vs = true →
      GoValue.allKeysAreStrings vs = true →
      ∃ rs, toJSONSlice vs = some rs ∧ GoValue.someHasMapAny rs = false
  | [], _, _ => ⟨[], rfl, rfl⟩
  | v :: vs, hd, hk => by
    simp only [GoValue.allDecoded, Bool.and_eq_true] at hd
    simp only [GoValue.allKeysAreStrings, Bool.and_eq_true] at hk
    obtain ⟨r, h1, h2⟩ := RecursiveToJSON_decoded v hd.1 hk.1
    obtain ⟨rs, h3, h4⟩ := toJSONSlice_decoded vs hd.2 hk.2
    exact ⟨r :: rs, by simp [toJSONSlice, h1, h3], by
      simp [GoValue.someHasMapAny, h2, h4]⟩

theorem toJSONMap_decoded :
    ∀ (kvs : List (GoValue × GoValue)) (newMap : List (String × GoValue)),
      GoValue.entriesDecoded kvs = true → GoValue.entriesHaveStringKeys kvs = true →
      GoValue.someFieldHasMapAny newMap = false →
      ∃ m, toJSONMap kvs newMap = some m ∧ GoValue.someFieldHasMapAny m = false
  | [], newMap, _, _, hm => ⟨newMap, rfl, hm⟩
  | (k, e) :: kvs, newMap, hd, hk, hm => by
    simp only [GoValue.entriesDecoded, Bool.and_eq_true] at hd
    simp only [GoValue.entriesHaveStringKeys, Bool.and_eq_true] at hk
    obtain ⟨r, h1, h2⟩ := RecursiveToJSON_decoded e hd.1 hk.1.2
    cases k with
    | str key =>
      obtain ⟨m, h3, h4⟩ :=
        toJSONMap_decoded kvs (setKey newMap key r) hd.2 hk.2
          (setKey_hasMapAny newMap key r hm h2)
      exact ⟨m, by simp [toJSONMap, h1, h3], h4⟩
    | null => simp [GoValue.isStr] at hk
    | int _ => simp [GoValue.isStr] at hk
    | bool _ => simp [GoValue.isStr] at hk
    | slice _ => simp [GoValue.isStr] at hk
    | mapAny _ => simp [GoValue.isStr] at hk
    | mapString _ => simp [GoValue.isStr] at hk
    | jsonArray _ => simp [GoValue.isStr] at hk
    | jsonMap _ => simp [GoValue.isStr] at hk

end

end Json

/-! ## Combined preparers -/

namespace Http

/-- The loop over two lists of preparers is the loop over the first followed, if no
preparer of the first failed, by the loop over the second. -/
theorem combineLoop_append (ps qs : List Preparer) (req : Request) :
    combineLoop (ps ++ qs) req
      = match combineLoop ps req with
        | none => none
        | some (r, some err) => some (r, some err)
        | some (r, none) => combineLoop qs r := by
  induction ps generalizing req with
  | nil => simp [combineLoop]
  | cons p ps ih =>
    simp only [List.cons_append, combineLoop]
    rcases hp : p req with _ | ⟨r, _ | e⟩
    · simp
    · simp [ih]
    · simp

/-- C22: `CombinePreparer` applies its preparers from left to right, each to the request
the one before returned; at the first preparer that returns an error it returns the
request and the error of that preparer, whatever the later preparers are; if none fails it
returns the last request and nil; a panic of a preparer is a panic of the whole.  For the
empty list it is `NoopPreparer`, and combining a combined preparer with further ones
is combining them all. -/
theorem C22_combine_preparer (a b c : Preparer) (ps qs : List Preparer) (p : Preparer)
    (req : Request) :
    CombinePreparer [] = NoopPreparer ∧
    CombinePreparer (p :: ps) req
      = (match p req with
        | none => none
        | some (r, some err) => some (r, some err)
        | some (r, none) => CombinePreparer ps r) ∧
    (∀ r0 r err, CombinePreparer ps req = some (r0, none) → p r0 = some (r, some err) →
      CombinePreparer (ps ++ p :: qs) req = some (r, some err)) ∧
    (∀ r, CombinePreparer ps req = some (r, none) →
      CombinePreparer (ps ++ qs) req = CombinePreparer qs r) ∧
    CombinePreparer (CombinePreparer ps :: qs) = CombinePreparer (ps ++ qs) ∧
    CombinePreparer [CombinePreparer [a, b], c] = CombinePreparer [a, b, c] := by
  have happ : ∀ (xs ys : List Preparer),
      CombinePreparer (CombinePreparer xs :: ys) = CombinePreparer (xs ++ ys) := by
    intro xs ys
    funext r
    simp only [CombinePreparer, combineLoop, combineLoop_append]
  refine ⟨rfl, ?_, ?_, ?_, happ ps qs, happ [a, b] [c]⟩
  · simp only [CombinePreparer, combineLoop]
  · intro r0 r err h0 hp
    simp only [CombinePreparer] at h0 ⊢
    rw [combineLoop_append, h0]
    simp [combineLoop, hp]
  · intro r h0
    simp only [CombinePreparer] at h0 ⊢
    rw [combineLoop_append, h0]

/-- C22, run: a no-op preparer, a preparer that fails, and a preparer that would panic:
the combined preparer returns the error of the second and never reaches the third. -/
theorem C22_combine_preparer_witness :
    CombinePreparer
        [NoopPreparer, fun r => some (r, some ⟨ErrorKind.internal, "no credentials"⟩),
         fun _ => none] ⟨none, none⟩
      = some (⟨none, none⟩, some ⟨ErrorKind.internal, "no credentials"⟩) :=
  (C22_combine_preparer NoopPreparer NoopPreparer NoopPreparer [NoopPreparer]
      [fun _ => none] (fun r => some (r, some ⟨ErrorKind.internal, "no credentials"⟩))
      ⟨none, none⟩).2.2.1 ⟨none, none⟩ ⟨none, none⟩ ⟨ErrorKind.internal, "no credentials"⟩
    rfl rfl

end Http

/-! ## Basic authentication: the credentials -/

namespace Http

/-- The sample credentials in base64. -/
theorem EncodeToString_sample : EncodeToString "user:secret" = "dXNlcjpzZWNyZXQ=" := by
  decide

/-- The preparer reads the URL and writes into the header map: without an
`Authorization` value it panics on a request without URL, and on a request with URL user
information and a nil header map. -/
theorem BasicAuth_nil_fields (encode : String → String) (cfg : BasicAuthConfig)
    (req : Request) (hno : Header.Get req.Header "Authorization" = "") :
    (req.URL = none → BasicAuth encode (some cfg) req = none) ∧
    (∀ url u, req.URL = some url → url.User = some u → req.Header = none →
      BasicAuth encode (some cfg) req = none) := by
  refine ⟨?_, ?_⟩
  · intro hu
    simp [BasicAuth, hno, hu]
  · intro url u hu hus hh
    simp [BasicAuth, hno, hu, hus, hh, Header.Set, Header.Get]

/-- C21: for a configuration that is not nil and a request with a URL and without an
`Authorization` value.  If the URL has user information the credentials are its user name
and password, whatever the configuration, and the URL is left as it is; otherwise, if
user name and password of the configuration are both non-empty, the credentials are these
and they are written into the URL.  In both cases the header `Authorization` is set to
`Basic` and the encoding of user name, colon, password, and no other header changes.  If
there is no URL user information and the user name or the password of the configuration
is empty, the request is returned as it is, without an `Authorization` value.  The
preparer never returns an error. -/
theorem C21_basic_auth_credentials (encode : String → String) (cfg : BasicAuthConfig)
    (req : Request) (url : URL) (hu : req.URL = some url)
    (hno : Header.Get req.Header "Authorization" = "") :
    (∀ u (h : Header), url.User = some u → req.Header = some h →
      BasicAuth encode (some cfg) req
        = some ({ Header := some (fun k => if k = "Authorization"
                    then ["Basic " ++ encode (u.username ++ ":" ++ u.password)] else h k),
                  URL := some url }, none)) ∧
    (∀ h : Header, url.User = none → cfg.Username ≠ "" → cfg.Password ≠ "" →
      req.Header = some h →
      BasicAuth encode (some cfg) req
        = some ({ Header := some (fun k => if k = "Authorization"
                    then ["Basic " ++ encode (cfg.Username ++ ":" ++ cfg.Password)]
                    else h k),
                  URL := some { url with
                    User := some (UserPassword cfg.Username cfg.Password) } }, none)) ∧
    (url.User = none → cfg.Username = "" ∨ cfg.Password = "" →
      BasicAuth encode (some cfg) req = some (req, none) ∧
      ∀ r e, BasicAuth encode (some cfg) req = some (r, e) →
        Header.Get r.Header "Authorization" = "") ∧
    (∀ (r0 r : Request) (e : Option Error),
      BasicAuth encode (some cfg) r0 = some (r, e) → e = none) := by
  refine ⟨?_, ?_, ?_, ?_⟩
  · intro u h hus hh
    obtain ⟨rh, ru⟩ := req
    simp only at hu hh
    subst hu hh
    simp [BasicAuth, hno, hus, Header.Set, basicAuth]
  · intro h hus h1 h2 hh
    obtain ⟨rh, ru⟩ := req
    simp only at hu hh
    subst hu hh
    simp [BasicAuth, hno, hus, h1, h2, Header.Set, basicAuth, UserPassword]
  · intro hus hc
    have hr : BasicAuth encode (some cfg) req = some (req, none) := by
      rcases hc with hc | hc <;> simp [BasicAuth, hno, hu, hus, hc]
    refine ⟨hr, ?_⟩
    intro r e h
    rw [hr] at h
    cases h
    exact hno
  · intro r0 r e h
    unfold BasicAuth at h
    simp only at h
    split at h
    · cases h; rfl
    · split at h
      · cases h
      · split at h
        · cases h; rfl
        · split at h
          · cases h
          · cases h; rfl

/-- C21, run: a request to a URL without user information and with an empty header map,
prepared with the configuration `user`, `secret`: the credentials go into the URL and
the header `Authorization` is `Basic dXNlcjpzZWNyZXQ=`. -/
theorem C21_basic_auth_credentials_witness :
    (BasicAuth EncodeToString (some ⟨"user", "secret"⟩)
        ⟨some (fun _ => []), some ⟨none, "https://vault:8200"⟩⟩).map
      (fun p => (Header.Get p.1.Header "Authorization", p.1.URL, p.2))
      = some ("Basic dXNlcjpzZWNyZXQ=",
              some ⟨some ⟨"user", "secret", true⟩, "https://vault:8200"⟩, none) := by
  rw [(C21_basic_auth_credentials EncodeToString ⟨"user", "secret"⟩
    ⟨some (fun _ => []), some ⟨none, "https://vault:8200"⟩⟩ ⟨none, "https://vault:8200"⟩
    rfl (by decide)).2.1 (fun _ => []) rfl (by decide) (by decide) rfl]
  decide

end Http

/-! ## Accounts to the database and back -/

namespace Ethcommon

/-- The loop of `checksumHex` leaves a digit as it is or puts a letter in upper case. -/
theorem checksumAt_cases (hash : List Nat) (j : Nat) (c : Char) :
    checksumAt hash j c = c ∨
      (c.toNat > 57 ∧ checksumAt hash j c = Char.ofNat (c.toNat - 32)) := by
  unfold checksumAt
  simp only
  by_cases h : c.toNat > 57 ∧
      (if j % 2 = 0 then hash.getD (j / 2) 0 / 16 else hash.getD (j / 2) 0 % 16) > 7
  · right; exact ⟨h.1, if_pos h⟩
  · left; exact if_neg h

/-- A hex digit is read back as its value, in lower case and in upper case. -/
theorem fromHexChar_checksumAt (hash : List Nat) (j n : Nat) (hn : n < 16) :
    fromHexChar (checksumAt hash j (hexDigit n)) = some n := by
  have hlow : fromHexChar (hexDigit n) = some n := by
    interval_cases n <;> decide
  have hup : (hexDigit n).toNat > 57 →
      fromHexChar (Char.ofNat ((hexDigit n).toNat - 32)) = some n := by
    interval_cases n <;> decide
  rcases checksumAt_cases hash j (hexDigit n) with h | ⟨h1, h2⟩
  · rw [h]; exact hlow
  · rw [h2]; exact hup h1

theorem lowerHex_cons (b : Nat) (bs : List Nat) :
    lowerHex (b :: bs) = hexDigit (b / 16) :: hexDigit (b % 16) :: lowerHex bs := by
  simp [lowerHex]

/-- The digits of `Hex` are read back as the bytes, whatever the hash. -/
theorem Hex2Bytes_checksumFrom (hash : List Nat) (bytes : List Nat)
    (hb : ∀ b ∈ bytes, b < 256) (j : Nat) :
    Hex2Bytes (checksumFrom hash j (lowerHex bytes)) = bytes := by
  induction bytes generalizing j with
  | nil => simp [lowerHex, checksumFrom, Hex2Bytes]
  | cons b bs ih =>
    have hb0 : b < 256 := hb b (List.mem_cons_self _ _)
    have h1 : b / 16 < 16 := by omega
    have h2 : b % 16 < 16 := by omega
    have ih1 := ih (fun x hx => hb x (List.mem_cons_of_mem _ hx)) (j + 1 + 1)
    rw [lowerHex_cons]
    simp only [checksumFrom, Hex2Bytes, fromHexChar_checksumAt hash _ _ h1,
      fromHexChar_checksumAt hash _ _ h2, ih1]
    congr 1
    omega

theorem length_checksumFrom (hash : List Nat) (j : Nat) (cs : List Char) :
    (checksumFrom hash j cs).length = cs.length := by
  induction cs generalizing j with
  | nil => rfl
  | cons c cs ih => simp [checksumFrom, ih]

theorem length_lowerHex (bytes : List Nat) : (lowerHex bytes).length = 2 * bytes.length := by
  induction bytes with
  | nil => rfl
  | cons b bs ih =>
    rw [lowerHex_cons]
    simp only [List.length_cons, ih]
    omega

/-- An address survives `Hex` and `HexToAddress`, whatever the hash that sets the case of
the letters. -/
theorem HexToAddress_Hex (Keccak256 : List Nat → List Nat) (a : Address)
    (ha : a.wellFormed) : HexToAddress (Hex Keccak256 a) = a := by
  obtain ⟨hlen, hb⟩ := ha
  have hl : (checksumFrom (Keccak256 ((lowerHex a.bytes).map Char.toNat)) 0
      (lowerHex a.bytes)).length % 2 = 0 := by
    rw [length_checksumFrom, length_lowerHex]; omega
  have hne : ¬ (checksumFrom (Keccak256 ((lowerHex a.bytes).map Char.toNat)) 0
      (lowerHex a.bytes)).length % 2 = 1 := by omega
  unfold HexToAddress Hex FromHex
  simp only [hne, if_false, Hex2Bytes_checksumFrom _ _ hb]
  unfold BytesToAddress
  simp [hlen]

end Ethcommon

namespace Models

/-- C23: for an account entity with metadata and a twenty-byte address, `NewETHAccount`
followed by `ToEntity` gives the entity back, equal on address, key id, public key,
compressed public key, tags, disabled flag, creation, update and deletion time; the
address is stored as the string of `Hex` and read back by `HexToAddress` unchanged,
whatever the hash that sets the case of its letters. -/
theorem C23_account_model_round_trip (Keccak256 : List Nat → List Nat)
    (a : QKM.ETHAccount) (m : Metadata) (hm : a.Metadata = some m)
    (ha : a.Address.wellFormed) :
    (NewETHAccount Keccak256 a).map ETHAccount.ToEntity = some a ∧
    (∃ model, NewETHAccount Keccak256 a = some model ∧
      model.Address = Ethcommon.Hex Keccak256 a.Address ∧
      model.ToEntity.Address = a.Address ∧ model.ToEntity.KeyID = a.KeyID ∧
      model.ToEntity.PublicKey = a.PublicKey ∧
      model.ToEntity.CompressedPublicKey = a.CompressedPublicKey ∧
      model.ToEntity.Tags = a.Tags ∧ model.ToEntity.Metadata = some m) ∧
    Ethcommon.HexToAddress (Ethcommon.Hex Keccak256 a.Address) = a.Address := by
  have hx := Ethcommon.HexToAddress_Hex Keccak256 a.Address ha
  obtain ⟨addr, keyID, pk, cpk, md, tags⟩ := a
  simp only at hm hx
  subst hm
  refine ⟨?_, ⟨_, rfl, rfl, ?_, rfl, rfl, rfl, rfl, rfl⟩, hx⟩
  · simp [NewETHAccount, ETHAccount.ToEntity, hx]
  · simpa [ETHAccount.ToEntity] using hx

/-- C23, run: the sample account is stored under the upper-case hex string of its address
and comes back as it was. -/
theorem C23_account_model_round_trip_witness :
    (NewETHAccount Sample.allUpper Sample.storedAccount).map (fun model => model.Address)
      = some "0xDBB881A51CD4023E4400CEF3EF73046743F08DA3" ∧
    (NewETHAccount Sample.allUpper Sample.storedAccount).map ETHAccount.ToEntity
      = some Sample.storedAccount :=
  ⟨by decide,
   (C23_account_model_round_trip Sample.allUpper Sample.storedAccount
      { Disabled := false, CreatedAt := 100, UpdatedAt := 200, DeletedAt := 0 } rfl
      ⟨rfl, by decide⟩).1⟩

end Models

namespace Json

/-! ### When `RecursiveToJSON` returns -/

mutual

/-- Whether `RecursiveToJSON` returns is whether the keys it visits are strings. -/
theorem RecursiveToJSON_isSome :
    ∀ v : GoValue, (RecursiveToJSON v).isSome = GoValue.visitedKeysAreStrings v
  | GoValue.null => rfl
  | GoValue.str _ => rfl
  | GoValue.int _ => rfl
  | GoValue.bool _ => rfl
  | GoValue.mapString _ => rfl
  | GoValue.jsonArray _ => rfl
  | GoValue.jsonMap _ => rfl
  | GoValue.slice vs => by
    have h := toJSONSlice_isSome vs
    simp only [RecursiveToJSON, GoValue.visitedKeysAreStrings]
    rw [← h]
    cases toJSONSlice vs <;> rfl
  | GoValue.mapAny kvs => by
    have h := toJSONMap_isSome kvs []
    simp only [RecursiveToJSON, GoValue.visitedKeysAreStrings]
    rw [← h]
    cases toJSONMap kvs [] <;> rfl

theorem toJSONSlice_isSome :
    ∀ vs : List GoValue,
      (toJSONSlice vs).isSome = GoValue.elementsVisitedKeysAreStrings vs
  | [] => rfl
  | v :: vs => by
    have h1 := RecursiveToJSON_isSome v
    have h2 := toJSONSlice_isSome vs
    simp only [toJSONSlice, GoValue.elementsVisitedKeysAreStrings]
    rw [← h1, ← h2]
    cases RecursiveToJSON v <;> cases toJSONSlice vs <;> rfl

theorem toJSONMap_isSome :
    ∀ (kvs : List (GoValue × GoValue)) (newMap : List (String × GoValue)),
      (toJSONMap kvs newMap).isSome = GoValue.entriesVisitedKeysAreStrings kvs
  | [], _ => rfl
  | (k, e) :: kvs, newMap => by
    have h1 := RecursiveToJSON_isSome e
    simp only [GoValue.entriesVisitedKeysAreStrings]
    rw [← h1]
    cases k with
    | str key =>
      cases hr : RecursiveToJSON e with
      | none => simp [toJSONMap, hr, GoValue.isStr]
      | some r =>
        have h2 := toJSONMap_isSome kvs (setKey newMap key r)
        simp [toJSONMap, hr, GoValue.isStr, h2]
    | null => simp [toJSONMap, GoValue.isStr]
    | int _ => simp [toJSONMap, GoValue.isStr]
    | bool _ => simp [toJSONMap, GoValue.isStr]
    | slice _ => simp [toJSONMap, GoValue.isStr]
    | mapAny _ => simp [toJSONMap, GoValue.isStr]
    | mapString _ => simp [toJSONMap, GoValue.isStr]
    | jsonArray _ => simp [toJSONMap, GoValue.isStr]
    | jsonMap _ => simp [toJSONMap, GoValue.isStr]

end

/-- C24: `RecursiveToJSON` returns a value exactly when every key of every
`map[interface{}]interface{}` it visits is a string, the maps visited being the input
and those reached through elements of `[]interface{}` and values of
`map[interface{}]interface{}`; otherwise the type assertion panics, as for a map with
the integer key 1, also inside a slice. -/
theorem C24_returns_iff_visited_keys_are_strings (v : GoValue) :
    ((∃ r, RecursiveToJSON v = some r) ↔ GoValue.visitedKeysAreStrings v = true) ∧
    (RecursiveToJSON v = none ↔ GoValue.visitedKeysAreStrings v = false) ∧
    RecursiveToJSON (GoValue.mapAny [(GoValue.int 1, GoValue.str "x")]) = none ∧
    RecursiveToJSON
        (GoValue.slice [GoValue.mapAny [(GoValue.str "a",
          GoValue.mapAny [(GoValue.int 1, GoValue.str "x")])]]) = none := by
  have h := RecursiveToJSON_isSome v
  refine ⟨?_, ?_, rfl, rfl⟩
  · rw [← h, Option.isSome_iff_exists]
  · rw [← h]
    cases RecursiveToJSON v <;> simp

end Json

end QKM
